import Mathlib

/-!
# cstreams: LZ4 frame stream adapters

A shallow embedding of `src/cstreams/LZ4Stream.cpp`: the two compressing
stream buffers (`LZ4OStreamBuf`, `LZ4OutputStream::LZ4OutputBuffer`), the two
decompressing stream buffers (`LZ4IStreamBuf`, `LZ4InputStream::LZ4InputBuffer`)
and `LZ4Dictionary`.  The LZ4 frame library (`lz4frame.h`) is an external
collaborator and enters as a parameter, the structure `Engine`.
-/

namespace Cstreams

/-! ## Bytes, results, sinks and sources -/

/-- A `char` of the stream. -/
abbrev Byte := Fin 256

/-- Conversion `std::char_traits<char>::to_int_type`. -/
def to_int_type (c : Byte) : Int := (c.val : Int)

/-- Conversion `std::char_traits<char>::to_char_type`: the low eight bits. -/
def to_char_type (i : Int) : Byte := Fin.ofNat (i % 256).toNat

/-- Value `std::char_traits<char>::eof()`. -/
def eof : Int := -1

/-- Number of values of `std::size_t` (64-bit target). -/
def SIZE_MOD : Nat := 18446744073709551616

/-- Subtraction of two `std::size_t` values. -/
def sizeSub (a b : Nat) : Nat := (a + SIZE_MOD - b % SIZE_MOD) % SIZE_MOD

/-- Addition of two `std::size_t` values. -/
def sizeAdd (a b : Nat) : Nat := (a + b) % SIZE_MOD

/-- Outcome of an operation that may leave through `throw std::runtime_error`
or through a failed `assert`. -/
inductive Res (α : Type) where
  | ok (v : α)
  | throw (what : String)
  | assertFailed
  deriving DecidableEq, Repr

/-- What the downstream sink observed: `sputn`/`write` of `count` characters
starting at a buffer (`s` holds the characters of that buffer that exist, so
`count > s.length` is a read past the end of the buffer) and `pubsync`. -/
inductive SinkEvent where
  | write (s : List Byte) (count : Nat)
  | sync
  deriving DecidableEq, Repr

/-- The downstream sink, as the log of what it received. -/
abbrev Sink := List SinkEvent

/-- The bytes that reached the sink, in order. -/
def sinkBytes : Sink → List Byte
  | [] => []
  | SinkEvent.write s _ :: rest => s ++ sinkBytes rest
  | SinkEvent.sync :: rest => sinkBytes rest

/-- Conversion of a `std::size_t` to `std::streamsize` (64 bits, two's
complement): what `write ( ptr, n )` receives when `n` is a `size_t`. -/
def toStreamsize (n : Nat) : Int :=
  if n % SIZE_MOD < SIZE_MOD / 2 then ((n % SIZE_MOD : Nat) : Int)
  else ((n % SIZE_MOD : Nat) : Int) - (SIZE_MOD : Int)

/-- A `std::ostream` used as the downstream sink: what its stream buffer
received, the count argument of every `write` call made on it, and whether
`badbit` is set (the stream is good while it is clear; the other state bits are
not modelled).  `negativeCountFails` is a property of the standard library:
whether `write` with a negative count ends in `setstate ( badbit )` (so where
`write` compares what `sputn` returns, 0, with the count, as libstdc++ does) or
leaves the state as it is (so where `write` inserts only when `0 < n`). -/
structure OStream where
  received : Sink
  counts : List Int
  badbit : Bool
  negativeCountFails : Bool
  deriving DecidableEq, Repr

/-- A stream that has received nothing yet. -/
def OStream.fresh (negativeCountFails : Bool) : OStream :=
  { received := [], counts := [], badbit := false, negativeCountFails := negativeCountFails }

/-- Member `std::ostream::write ( s, n )`: nothing is inserted when the stream
is not good; with a negative count nothing is inserted either; otherwise the
`n` characters at `s` go to the stream buffer. -/
def OStream.write (o : OStream) (buf : List Byte) (n : Int) : OStream :=
  let o1 := { o with counts := o.counts ++ [n] }
  if o.badbit then o1
  else if n < 0 then { o1 with badbit := o.negativeCountFails }
  else { o1 with received := o.received ++ [SinkEvent.write (buf.take n.toNat) n.toNat] }

/-- The upstream source: the bytes it still holds and, for each coming read,
how many bytes that read is willing to return (a read returns at least one byte
while bytes remain; with an empty schedule a read returns all it is asked for).
A `std::istream` read with `read` has the empty schedule: it returns fewer bytes
than asked only where the data end. -/
structure Source where
  data : List Byte
  sched : List Nat
  deriving DecidableEq, Repr

/-- Calls `sgetn ( buf, n )` and `read ( buf, n ); gcount ( )` on the source. -/
def Source.sgetn (s : Source) (n : Nat) : List Byte × Source :=
  let k := match s.sched with
    | [] => n
    | m :: _ => min n (max m 1)
  (s.data.take k, { data := s.data.drop k, sched := s.sched.tail })

/-- Overwrite the start of a buffer with the bytes a callee stored there. -/
def store (out buf : List Byte) : List Byte := out ++ buf.drop out.length

/-! ## The LZ4 frame library as a parameter -/

/-- Enumeration `LZ4F_blockSizeID_t`. -/
inductive BlockSizeID where
  | LZ4F_default
  | LZ4F_max64KB
  | LZ4F_max256KB
  | LZ4F_max1MB
  | LZ4F_max4MB
  deriving DecidableEq, Repr

/-- Record `LZ4F_preferences_t` (the `LZ4F_frameInfo_t` fields first). -/
structure Preferences where
  blockSizeID : BlockSizeID
  blockMode : Nat
  contentChecksumFlag : Nat
  frameType : Nat
  contentSize : Nat
  dictID : Nat
  blockChecksumFlag : Nat
  compressionLevel : Int
  autoFlush : Nat
  favorDecSpeed : Nat
  deriving DecidableEq, Repr

/-- Constant `DEFAULT_PREFERENCES`: `LZ4F_max256KB`, `LZ4F_blockLinked` (0),
`LZ4F_noContentChecksum` (0), `LZ4F_frame` (0), unknown content size, no dictID,
`LZ4F_noBlockChecksum` (0), level 0, no autoflush. -/
def DEFAULT_PREFERENCES : Preferences :=
  { blockSizeID := BlockSizeID.LZ4F_max256KB, blockMode := 0, contentChecksumFlag := 0, frameType := 0,
    contentSize := 0, dictID := 0, blockChecksumFlag := 0, compressionLevel := 0,
    autoFlush := 0, favorDecSpeed := 0 }

/-- Assignment `preferences.compressionLevel = compression_level_`. -/
def Preferences.withLevel (p : Preferences) (compression_level_ : Int) : Preferences :=
  { p with compressionLevel := compression_level_ }

/-- Constant `LZ4F_INIT_PREFERENCES`: every field zero (`LZ4F_default` block size). -/
def LZ4F_INIT_PREFERENCES : Preferences :=
  { blockSizeID := BlockSizeID.LZ4F_default, blockMode := 0, contentChecksumFlag := 0, frameType := 0,
    contentSize := 0, dictID := 0, blockChecksumFlag := 0, compressionLevel := 0,
    autoFlush := 0, favorDecSpeed := 0 }

/-- What a compression call returns: the context after the call, the `size_t`
return value (a byte count or an error code) and the bytes stored at the start
of `dstBuffer`. -/
structure CResult (C : Type) where
  ctx : C
  ret : Nat
  out : List Byte

/-- What `LZ4F_decompress` returns: the context after the call, the `size_t`
return value (a hint, `0` when the frame is complete, or an error code), the
bytes stored in `dstBuffer` (`*dstSizePtr` is their number) and `*srcSizePtr`,
the number of source bytes consumed. -/
structure DResult (D : Type) where
  ctx : D
  ret : Nat
  out : List Byte
  consumed : Nat

/-- What a `void const *` handed to the library points to: a byte buffer, or an
`LZ4F_CDict` object. -/
inductive VoidPtr (H : Type) where
  | bytes (b : List Byte)
  | cdict (h : H)
  deriving DecidableEq, Repr

/-- The functions of `lz4frame.h` the adapters call. -/
structure Engine where
  CCtx : Type
  DCtx : Type
  CDict : Type
  LZ4F_isError : Nat → Bool
  LZ4F_getErrorName : Nat → String
  LZ4F_HEADER_SIZE_MAX : Nat
  LZ4F_compressBound : Nat → Preferences → Nat
  LZ4F_createCompressionContext : Nat × CCtx
  LZ4F_createCDict : List Byte → Option CDict
  LZ4F_compressBegin : CCtx → Nat → Preferences → CResult CCtx
  LZ4F_compressBegin_usingCDict : CCtx → Nat → Option CDict → Preferences → CResult CCtx
  LZ4F_compressUpdate : CCtx → Nat → List Byte → CResult CCtx
  LZ4F_compressEnd : CCtx → Nat → CResult CCtx
  LZ4F_createDecompressionContext : Nat × DCtx
  LZ4F_decompress : DCtx → Nat → List Byte → DResult DCtx
  LZ4F_decompress_usingDict : DCtx → Nat → List Byte → VoidPtr CDict → Nat → DResult DCtx

/-! ## LZ4Dictionary -/

/-- Class `LZ4Dictionary`: `data` is what `LZ4F_createCDict` returned, `size` the
size of the resource. -/
structure LZ4Dictionary (E : Engine) where
  data : VoidPtr E.CDict
  size : Nat

/-- Cast `( LZ4F_CDict const * ) data`. -/
def asCDict {E : Engine} : VoidPtr E.CDict → Option E.CDict
  | VoidPtr.cdict h => some h
  | VoidPtr.bytes _ => none

/-- What the resource functions of the platform return for the resource name:
whether `FindResource` and `LoadResource` return a handle, the value of
`SizeofResource`, and what `LockResource` returns (null, or a pointer to the
bytes of the resource). -/
structure ResourceLookup where
  FindResource : Bool
  SizeofResource : Nat
  LoadResource : Bool
  LockResource : Option (List Byte)

/-- Method `LZ4Dictionary::loadFromResource`, the answers of the platform for
`name_` being the argument: `LZ4F_createCDict` is given the first `size` bytes
behind `first_byte`. -/
def LZ4Dictionary.loadFromResource (E : Engine) (rsrc : ResourceLookup) :
    Res (LZ4Dictionary E) :=
  if !rsrc.FindResource then Res.throw "Failed to find resource."
  else if rsrc.SizeofResource ≤ 0 then Res.throw "Size of resource is 0."
  else if !rsrc.LoadResource then Res.throw "Failed to load resource."
  else
    match rsrc.LockResource with
    | none => Res.throw "Failed to lock resource."
    | some first_byte =>
      match E.LZ4F_createCDict (first_byte.take rsrc.SizeofResource) with
      | none => Res.throw "Failed to load LZ4-dictionary."
      | some h => Res.ok { data := VoidPtr.cdict h, size := rsrc.SizeofResource }

/-! ## LZ4OStreamBuf -/

/-- The function-local `static bool is_open` of `LZ4OStreamBuf::close`: one
variable for the whole program, shared by every instance. -/
structure Statics where
  is_open : Bool
  deriving DecidableEq, Repr

/-- Program start: `static bool is_open = true`. -/
def Statics.start : Statics := { is_open := true }

/-- Class `LZ4OStreamBuf`.  `pptr` and `epptr` are offsets from `pbase ( )`,
which is always `&m_write_area.front ( )`. -/
structure LZ4OStreamBuf (E : Engine) where
  m_sink : Sink
  m_compression_ctx : E.CCtx
  m_preferences : Preferences
  m_dictionary : Option (LZ4Dictionary E)
  m_write_area : List Byte
  m_compression_buffer : List Byte
  pptr : Nat
  epptr : Nat

namespace LZ4OStreamBuf

variable {E : Engine}

/-- Method `LZ4OStreamBuf::initialize_stream`. -/
def initialize_stream (w : LZ4OStreamBuf E) : Res Unit × LZ4OStreamBuf E :=
  let r := match w.m_dictionary with
    | some d => E.LZ4F_compressBegin_usingCDict w.m_compression_ctx
        w.m_compression_buffer.length (asCDict d.data) w.m_preferences
    | none => E.LZ4F_compressBegin w.m_compression_ctx w.m_compression_buffer.length
        w.m_preferences
  let w1 := { w with m_compression_ctx := r.ctx,
                     m_compression_buffer := store r.out w.m_compression_buffer }
  if E.LZ4F_isError r.ret then (Res.throw "Error during LZ4 stream initialization", w1)
  else (Res.ok (),
    { w1 with m_sink := w1.m_sink ++ [SinkEvent.write (w1.m_compression_buffer.take r.ret) r.ret] })

/-- The size both buffers get in the constructor. -/
def internal_buffer_size (E : Engine) (p : Preferences) : Nat :=
  max (E.LZ4F_compressBound 0 p) E.LZ4F_HEADER_SIZE_MAX + 1

/-- Both constructors of `LZ4OStreamBuf` (`dictionary_` absent for the first).
Returns how the constructor ended and, once the members are set up, the object
(also when `initialize_stream` throws: it shows what the sink received). -/
def create (E : Engine) (buffer : Sink) (compression_level_ : Int)
    (dictionary_ : Option (LZ4Dictionary E)) : Res Unit × Option (LZ4OStreamBuf E) :=
  let ctx_creation := E.LZ4F_createCompressionContext
  if E.LZ4F_isError ctx_creation.1 then (Res.throw "Error during LZ4 stream creation", none)
  else
    let prefs := DEFAULT_PREFERENCES.withLevel compression_level_
    let n := internal_buffer_size E prefs
    let w : LZ4OStreamBuf E :=
      { m_sink := buffer, m_compression_ctx := ctx_creation.2, m_preferences := prefs,
        m_dictionary := dictionary_, m_write_area := List.replicate n 0,
        m_compression_buffer := List.replicate n 0, pptr := 0, epptr := n - 1 }
    let r := w.initialize_stream
    (r.1, some r.2)

/-- Method `LZ4OStreamBuf::compress_buffer`. -/
def compress_buffer (w : LZ4OStreamBuf E) : Res Nat × LZ4OStreamBuf E :=
  let num_bytes := w.pptr
  let r := E.LZ4F_compressUpdate w.m_compression_ctx w.m_compression_buffer.length
    (w.m_write_area.take num_bytes)
  let w1 := { w with m_compression_ctx := r.ctx,
                     m_compression_buffer := store r.out w.m_compression_buffer }
  if E.LZ4F_isError r.ret then (Res.throw "Error during LZ4 stream writing", w1)
  else
    let w2 := { w1 with pptr := 0, epptr := w1.m_write_area.length - 1 }
    (Res.ok r.ret,
      { w2 with m_sink := w2.m_sink ++ [SinkEvent.write (w2.m_compression_buffer.take r.ret) r.ret] })

/-- Method `LZ4OStreamBuf::overflow`. -/
def overflow (w : LZ4OStreamBuf E) (ch : Int) : Res Int × LZ4OStreamBuf E :=
  let w1 := { w with m_write_area := w.m_write_area.set w.pptr (to_char_type ch),
                     pptr := w.pptr + 1 }
  match w1.compress_buffer with
  | (Res.ok _, w2) => (Res.ok ch, w2)
  | (Res.throw e, w2) => (Res.throw e, w2)
  | (Res.assertFailed, w2) => (Res.assertFailed, w2)

/-- Method `LZ4OStreamBuf::sync`; `pubsync` is what `m_sink->pubsync ( )`
returns (0, or -1 when the sink fails to synchronise). -/
def sync (w : LZ4OStreamBuf E) (pubsync : Int) : Res Int × LZ4OStreamBuf E :=
  match w.compress_buffer with
  | (Res.ok _, w1) => (Res.ok pubsync, { w1 with m_sink := w1.m_sink ++ [SinkEvent.sync] })
  | (Res.throw e, w1) => (Res.throw e, w1)
  | (Res.assertFailed, w1) => (Res.assertFailed, w1)

/-- Method `LZ4OStreamBuf::close`; the static `is_open` is passed in and out. -/
def close (g : Statics) (w : LZ4OStreamBuf E) : Res Unit × Statics × LZ4OStreamBuf E :=
  if g.is_open then
    match w.compress_buffer with
    | (Res.throw e, w1) => (Res.throw e, g, w1)
    | (Res.assertFailed, w1) => (Res.assertFailed, g, w1)
    | (Res.ok _, w1) =>
      let w2 := { w1 with m_sink := w1.m_sink ++ [SinkEvent.sync] }
      let r := E.LZ4F_compressEnd w2.m_compression_ctx w2.m_compression_buffer.length
      let w3 := { w2 with m_compression_ctx := r.ctx,
                          m_compression_buffer := store r.out w2.m_compression_buffer }
      if E.LZ4F_isError r.ret then (Res.throw "Error during LZ4 stream finalization", g, w3)
      else (Res.ok (), { is_open := false },
        { w3 with m_sink := w3.m_sink ++ [SinkEvent.write (w3.m_compression_buffer.take r.ret) r.ret] })
  else (Res.ok (), g, w)

/-- Destructor `LZ4OStreamBuf::~LZ4OStreamBuf`: `close ( )`, then the context is freed. -/
def destroy (g : Statics) (w : LZ4OStreamBuf E) : Res Unit × Statics × LZ4OStreamBuf E :=
  close g w

/-- Member `std::streambuf::sputc` as the C++ standard defines it: store in the
put area when there is room, else call `overflow`. -/
def sputc (w : LZ4OStreamBuf E) (c : Byte) : Res Int × LZ4OStreamBuf E :=
  if w.pptr < w.epptr then
    (Res.ok (to_int_type c), { w with m_write_area := w.m_write_area.set w.pptr c, pptr := w.pptr + 1 })
  else w.overflow (to_int_type c)

/-- Member `std::streambuf::sputn` (default `xsputn`): as if by repeated `sputc`,
stopping at the first failure. -/
def sputn (w : LZ4OStreamBuf E) : List Byte → Res Unit × LZ4OStreamBuf E
  | [] => (Res.ok (), w)
  | c :: cs =>
    match w.sputc c with
    | (Res.ok _, w1) => sputn w1 cs
    | (Res.throw e, w1) => (Res.throw e, w1)
    | (Res.assertFailed, w1) => (Res.assertFailed, w1)

/-- A caller that makes one `sputn` call per chunk, in order. -/
def writeChunks (w : LZ4OStreamBuf E) : List (List Byte) → Res Unit × LZ4OStreamBuf E
  | [] => (Res.ok (), w)
  | c :: cs =>
    match w.sputn c with
    | (Res.ok _, w1) => writeChunks w1 cs
    | (Res.throw e, w1) => (Res.throw e, w1)
    | (Res.assertFailed, w1) => (Res.assertFailed, w1)

/-- A program run from its start: construct the writer on an empty sink, make
one `sputn` call per chunk, close.  Returns how the run ended and what the sink
received. -/
def writeAndClose (E : Engine) (compression_level_ : Int)
    (dictionary_ : Option (LZ4Dictionary E)) (chunks : List (List Byte)) : Res Unit × Sink :=
  match create E [] compression_level_ dictionary_ with
  | (Res.ok _, some w) =>
    match w.writeChunks chunks with
    | (Res.ok _, w1) => ((close Statics.start w1).1, (close Statics.start w1).2.2.m_sink)
    | (Res.throw e, w1) => (Res.throw e, w1.m_sink)
    | (Res.assertFailed, w1) => (Res.assertFailed, w1.m_sink)
  | (Res.ok _, none) => (Res.ok (), [])
  | (Res.throw e, _) => (Res.throw e, [])
  | (Res.assertFailed, _) => (Res.assertFailed, [])

end LZ4OStreamBuf

/-! ## LZ4OutputStream::LZ4OutputBuffer -/

/-- Class `LZ4OutputStream::LZ4OutputBuffer`.  `pptr` and `epptr` are offsets
from `pbase ( )`, which is `&src_buf_.front ( )`.  `NDEBUG` tells whether the
`assert`s are compiled out; `freed` counts the `LZ4F_freeCompressionContext`
calls made on `ctx_`. -/
structure LZ4OutputBuffer (E : Engine) where
  sink_ : OStream
  src_buf_ : List Byte
  dest_buf_ : List Byte
  ctx_ : E.CCtx
  preferences_ : Preferences
  closed_ : Bool
  pptr : Nat
  epptr : Nat
  NDEBUG : Bool
  freed : Nat

namespace LZ4OutputBuffer

variable {E : Engine}

/-- Statement `assert ( cond )`: fails only when asserts are compiled in. -/
def assertHolds (w : LZ4OutputBuffer E) (cond : Bool) : Bool := w.NDEBUG || cond

/-- Method `LZ4OutputBuffer::compressAndWrite`. -/
def compressAndWrite (w : LZ4OutputBuffer E) : Res Unit × LZ4OutputBuffer E :=
  if w.assertHolds (!w.closed_) then
    let orig_size := w.pptr
    let w1 := { w with pptr := w.pptr - orig_size }
    let r := E.LZ4F_compressUpdate w1.ctx_ w1.dest_buf_.length (w1.src_buf_.take orig_size)
    let w2 := { w1 with ctx_ := r.ctx, dest_buf_ := store r.out w1.dest_buf_ }
    (Res.ok (), { w2 with sink_ := w2.sink_.write w2.dest_buf_ (toStreamsize r.ret) })
  else (Res.assertFailed, w)

/-- Method `LZ4OutputBuffer::overflow`. -/
def overflow (w : LZ4OutputBuffer E) (ch : Int) : Res Int × LZ4OutputBuffer E :=
  if w.assertHolds (decide (w.pptr ≤ w.epptr)) then
    let w1 := { w with src_buf_ := w.src_buf_.set w.pptr (to_char_type ch), pptr := w.pptr + 1 }
    match w1.compressAndWrite with
    | (Res.ok _, w2) => (Res.ok ch, w2)
    | (Res.throw e, w2) => (Res.throw e, w2)
    | (Res.assertFailed, w2) => (Res.assertFailed, w2)
  else (Res.assertFailed, w)

/-- Method `LZ4OutputBuffer::sync`. -/
def sync (w : LZ4OutputBuffer E) : Res Int × LZ4OutputBuffer E :=
  match w.compressAndWrite with
  | (Res.ok _, w1) => (Res.ok 0, w1)
  | (Res.throw e, w1) => (Res.throw e, w1)
  | (Res.assertFailed, w1) => (Res.assertFailed, w1)

/-- Method `LZ4OutputBuffer::writeHeader`. -/
def writeHeader (w : LZ4OutputBuffer E) : Res Unit × LZ4OutputBuffer E :=
  if w.assertHolds (!w.closed_) then
    let r := E.LZ4F_compressBegin w.ctx_ w.dest_buf_.length w.preferences_
    let w1 := { w with ctx_ := r.ctx, dest_buf_ := store r.out w.dest_buf_ }
    if E.LZ4F_isError r.ret then
      (Res.throw ("Failed to start LZ4 compression: " ++ E.LZ4F_getErrorName r.ret), w1)
    else (Res.ok (), { w1 with sink_ := w1.sink_.write w1.dest_buf_ (toStreamsize r.ret) })
  else (Res.assertFailed, w)

/-- Method `LZ4OutputBuffer::writeFooter`. -/
def writeFooter (w : LZ4OutputBuffer E) : Res Unit × LZ4OutputBuffer E :=
  if w.assertHolds (!w.closed_) then
    let r := E.LZ4F_compressEnd w.ctx_ w.dest_buf_.length
    let w1 := { w with ctx_ := r.ctx, dest_buf_ := store r.out w.dest_buf_ }
    if E.LZ4F_isError r.ret then
      (Res.throw ("Failed to end LZ4 compression: " ++ E.LZ4F_getErrorName r.ret), w1)
    else (Res.ok (), { w1 with sink_ := w1.sink_.write w1.dest_buf_ (toStreamsize r.ret) })
  else (Res.assertFailed, w)

/-- Method `LZ4OutputBuffer::close`. -/
def close (w : LZ4OutputBuffer E) : Res Unit × LZ4OutputBuffer E :=
  if w.closed_ then (Res.ok (), w)
  else
    match w.sync with
    | (Res.throw e, w1) => (Res.throw e, w1)
    | (Res.assertFailed, w1) => (Res.assertFailed, w1)
    | (Res.ok _, w1) =>
      match w1.writeFooter with
      | (Res.throw e, w2) => (Res.throw e, w2)
      | (Res.assertFailed, w2) => (Res.assertFailed, w2)
      | (Res.ok _, w2) => (Res.ok (), { w2 with freed := w2.freed + 1, closed_ := true })

/-- Destructor `LZ4OutputBuffer::~LZ4OutputBuffer`. -/
def destroy (w : LZ4OutputBuffer E) : Res Unit × LZ4OutputBuffer E := close w

/-- Constructor of `LZ4OutputBuffer`; `src_buf_size` is `src_buf_.size ( )`, the
extent of the array member declared in the header.  Returns how the constructor
ended and, once the members are set up, the object (also when `writeHeader`
throws). -/
def create (E : Engine) (src_buf_size : Nat) (ndebug : Bool) (sink : OStream)
    (compression_level_ : Int) : Res Unit × Option (LZ4OutputBuffer E) :=
  let ret := E.LZ4F_createCompressionContext
  if E.LZ4F_isError ret.1 then
    (Res.throw ("Failed to create LZ4 compression context: " ++ E.LZ4F_getErrorName ret.1), none)
  else
    let prefs := LZ4F_INIT_PREFERENCES.withLevel compression_level_
    let w : LZ4OutputBuffer E :=
      { sink_ := sink, src_buf_ := List.replicate src_buf_size 0,
        dest_buf_ := List.replicate (E.LZ4F_compressBound src_buf_size prefs) 0,
        ctx_ := ret.2, preferences_ := prefs, closed_ := false, pptr := 0,
        epptr := src_buf_size - 1, NDEBUG := ndebug, freed := 0 }
    let r := w.writeHeader
    (r.1, some r.2)

/-- Member `std::streambuf::sputc` as the C++ standard defines it. -/
def sputc (w : LZ4OutputBuffer E) (c : Byte) : Res Int × LZ4OutputBuffer E :=
  if w.pptr < w.epptr then
    (Res.ok (to_int_type c), { w with src_buf_ := w.src_buf_.set w.pptr c, pptr := w.pptr + 1 })
  else w.overflow (to_int_type c)

end LZ4OutputBuffer

/-! ## LZ4IStreamBuf -/

/-- What one iteration of `underflow` did (a record kept beside the state, not a
member of the class): a refill that obtained `got` bytes, or a decompress call
made at input offset `offset` that was offered `offered` bytes, consumed
`consumed`, produced the bytes `out` and returned `ret`. -/
inductive DEvent where
  | refill (got : Nat)
  | decompress (offset offered consumed : Nat) (out : List Byte) (ret : Nat)
  deriving DecidableEq, Repr

/-- Class `LZ4IStreamBuf`.  `gptr` and `egptr` are offsets from `eback ( )`,
which is `&m_read_area.front ( )`; `trace` is the record of iterations. -/
structure LZ4IStreamBuf (E : Engine) where
  m_source : Source
  m_context : E.DCtx
  m_dictionary : Option (LZ4Dictionary E)
  m_src_buffer : List Byte
  m_read_area : List Byte
  m_src_offset : Nat
  m_src_size : Nat
  gptr : Nat
  egptr : Nat
  trace : List DEvent

namespace LZ4IStreamBuf

variable {E : Engine}

/-- Both constructors of `LZ4IStreamBuf` (`dictionary_` absent for the first). -/
def create (E : Engine) (source_ : Source) (dictionary_ : Option (LZ4Dictionary E))
    (internal_buffer_size_ : Nat) : Res (LZ4IStreamBuf E) :=
  let status := E.LZ4F_createDecompressionContext
  if E.LZ4F_isError status.1 then Res.throw "Error during LZ4 istream creation"
  else Res.ok
    { m_source := source_, m_context := status.2, m_dictionary := dictionary_,
      m_src_buffer := List.replicate internal_buffer_size_ 0,
      m_read_area := List.replicate internal_buffer_size_ 0,
      m_src_offset := 0, m_src_size := 0, gptr := 0, egptr := 0, trace := [] }

/-- The refill at the head of the loop of `underflow`. -/
def refill (s : LZ4IStreamBuf E) : LZ4IStreamBuf E :=
  if s.m_src_offset = s.m_src_size then
    let r := s.m_source.sgetn s.m_src_buffer.length
    { s with m_source := r.2, m_src_buffer := store r.1 s.m_src_buffer,
             m_src_size := r.1.length, m_src_offset := 0,
             trace := s.trace ++ [DEvent.refill r.1.length] }
  else s

/-- The dictionary arguments `underflow` hands to `LZ4F_decompress_usingDict`:
`m_dictionary->data` and `m_dictionary->size`. -/
def dictArgs (s : LZ4IStreamBuf E) : Option (VoidPtr E.CDict × Nat) :=
  match s.m_dictionary with
  | some d => some (d.data, d.size)
  | none => none

/-- The decompress call of `underflow`. -/
def callEngine (s : LZ4IStreamBuf E) : DResult E.DCtx :=
  let src_avalable := sizeSub s.m_src_size s.m_src_offset
  let dest_size := s.m_read_area.length
  let src := (s.m_src_buffer.drop s.m_src_offset).take src_avalable
  match s.dictArgs with
  | some d => E.LZ4F_decompress_usingDict s.m_context dest_size src d.1 d.2
  | none => E.LZ4F_decompress s.m_context dest_size src

/-- The state after the decompress call of `underflow` returned `r`: the engine
has written the read area and `m_src_offset += src_avalable` is done. -/
def advance (s : LZ4IStreamBuf E) (r : DResult E.DCtx) : LZ4IStreamBuf E :=
  { s with
    m_context := r.ctx, m_read_area := store r.out s.m_read_area,
    m_src_offset := sizeAdd s.m_src_offset r.consumed,
    trace := s.trace ++ [DEvent.decompress s.m_src_offset
      (sizeSub s.m_src_size s.m_src_offset) r.consumed r.out r.ret] }

/-- Method `LZ4IStreamBuf::underflow`; `fuel` bounds the iterations of its
`while ( true )` loop, `none` meaning the bound was reached. -/
def underflow : Nat → LZ4IStreamBuf E → Option (Res Int × LZ4IStreamBuf E)
  | 0, _ => none
  | fuel + 1, s =>
    let s1 := s.refill
    if s1.m_src_size = 0 then some (Res.ok eof, s1)
    else
      let r := s1.callEngine
      let s2 := s1.advance r
      if E.LZ4F_isError r.ret then some (Res.throw "Error during LZ4 decompression", s2)
      else if r.out.length > 0 then
        let s3 := { s2 with gptr := 0, egptr := r.out.length }
        some (Res.ok (to_int_type (s3.m_read_area.getD s3.gptr 0)), s3)
      else underflow fuel s2

/-- The get area `[gptr, egptr)`: the decompressed bytes staged for the caller. -/
def getArea (s : LZ4IStreamBuf E) : List Byte := (s.m_read_area.take s.egptr).drop s.gptr

/-- A caller that reads until end-of-stream: whenever the get area is empty it
calls `underflow`, then takes every staged character.  Returns the bytes
delivered and how the reading ended (`ok` for end-of-stream). -/
def readAll : Nat → LZ4IStreamBuf E → Option (List Byte × Res Unit × LZ4IStreamBuf E)
  | 0, _ => none
  | fuel + 1, s =>
    match underflow (fuel + 1) s with
    | none => none
    | some (Res.throw e, s1) => some ([], Res.throw e, s1)
    | some (Res.assertFailed, s1) => some ([], Res.assertFailed, s1)
    | some (Res.ok ch, s1) =>
      if ch = eof then some ([], Res.ok (), s1)
      else
        match readAll fuel { s1 with gptr := s1.egptr } with
        | none => none
        | some (rest, r, s2) => some (s1.getArea ++ rest, r, s2)

/-- A program run: construct the reader on a source and read until
end-of-stream.  Returns the bytes delivered and how the reading ended. -/
def readFrom (E : Engine) (fuel : Nat) (source_ : Source)
    (dictionary_ : Option (LZ4Dictionary E)) (internal_buffer_size_ : Nat) :
    Option (List Byte × Res Unit) :=
  match create E source_ dictionary_ internal_buffer_size_ with
  | Res.ok s =>
    match readAll fuel s with
    | some r => some (r.1, r.2.1)
    | none => none
  | Res.throw e => some ([], Res.throw e)
  | Res.assertFailed => some ([], Res.assertFailed)

end LZ4IStreamBuf

/-! ## LZ4InputStream::LZ4InputBuffer -/

/-- Class `LZ4InputStream::LZ4InputBuffer`; `getBuf` tells which array the get
area lies in (`false`: `src_buf_`, as the constructor sets it; `true`:
`dest_buf_`). -/
structure LZ4InputBuffer (E : Engine) where
  source_ : Source
  src_buf_ : List Byte
  dest_buf_ : List Byte
  offset_ : Nat
  src_buf_size_ : Nat
  ctx_ : E.DCtx
  getBuf : Bool
  gptr : Nat
  egptr : Nat
  trace : List DEvent

namespace LZ4InputBuffer

variable {E : Engine}

/-- Constructor of `LZ4InputBuffer`; the two sizes are the extents of the array
members declared in the header. -/
def create (E : Engine) (source : Source) (src_buf_size dest_buf_size : Nat) :
    Res (LZ4InputBuffer E) :=
  let ret := E.LZ4F_createDecompressionContext
  if E.LZ4F_isError ret.1 then
    Res.throw ("Failed to create LZ4 decompression context: " ++ E.LZ4F_getErrorName ret.1)
  else Res.ok
    { source_ := source, src_buf_ := List.replicate src_buf_size 0,
      dest_buf_ := List.replicate dest_buf_size 0, offset_ := 0, src_buf_size_ := 0,
      ctx_ := ret.2, getBuf := false, gptr := 0, egptr := 0, trace := [] }

/-- The refill at the head of the loop of `underflow`. -/
def refill (s : LZ4InputBuffer E) : LZ4InputBuffer E :=
  if s.offset_ = s.src_buf_size_ then
    let r := s.source_.sgetn s.src_buf_.length
    { s with source_ := r.2, src_buf_ := store r.1 s.src_buf_,
             src_buf_size_ := r.1.length, offset_ := 0,
             trace := s.trace ++ [DEvent.refill r.1.length] }
  else s

/-- The decompress call of `underflow`. -/
def callEngine (s : LZ4InputBuffer E) : DResult E.DCtx :=
  let src_size := sizeSub s.src_buf_size_ s.offset_
  let dest_size := s.dest_buf_.length
  E.LZ4F_decompress s.ctx_ dest_size ((s.src_buf_.drop s.offset_).take src_size)

/-- The state after the decompress call of `underflow` returned `r`: the engine
has written `dest_buf_`; the offset is not yet advanced. -/
def written (s : LZ4InputBuffer E) (r : DResult E.DCtx) : LZ4InputBuffer E :=
  { s with
    ctx_ := r.ctx, dest_buf_ := store r.out s.dest_buf_,
    trace := s.trace ++ [DEvent.decompress s.offset_ (sizeSub s.src_buf_size_ s.offset_)
      r.consumed r.out r.ret] }

/-- Method `LZ4InputBuffer::underflow`; `fuel` bounds the iterations of its
loop, `none` meaning the bound was reached. -/
def underflow : Nat → LZ4InputBuffer E → Option (Res Int × LZ4InputBuffer E)
  | 0, _ => none
  | fuel + 1, s =>
    let s1 := s.refill
    if s1.src_buf_size_ = 0 then some (Res.ok eof, s1)
    else
      let r := s1.callEngine
      let s2 := s1.written r
      if E.LZ4F_isError r.ret then
        some (Res.throw ("LZ4 decompression failed: " ++ E.LZ4F_getErrorName r.ret), s2)
      else
        let written_size := r.out.length
        let s3 := { s2 with offset_ := sizeAdd s2.offset_ r.consumed }
        if written_size = 0 then underflow fuel s3
        else
          let s4 := { s3 with getBuf := true, gptr := 0, egptr := written_size }
          some (Res.ok (to_int_type (s4.dest_buf_.getD s4.gptr 0)), s4)

/-- The get area `[gptr, egptr)`. -/
def getArea (s : LZ4InputBuffer E) : List Byte :=
  ((if s.getBuf then s.dest_buf_ else s.src_buf_).take s.egptr).drop s.gptr

/-- A caller that reads until end-of-stream, as for `LZ4IStreamBuf`. -/
def readAll : Nat → LZ4InputBuffer E → Option (List Byte × Res Unit × LZ4InputBuffer E)
  | 0, _ => none
  | fuel + 1, s =>
    match underflow (fuel + 1) s with
    | none => none
    | some (Res.throw e, s1) => some ([], Res.throw e, s1)
    | some (Res.assertFailed, s1) => some ([], Res.assertFailed, s1)
    | some (Res.ok ch, s1) =>
      if ch = eof then some ([], Res.ok (), s1)
      else
        match readAll fuel { s1 with gptr := s1.egptr } with
        | none => none
        | some (rest, r, s2) => some (s1.getArea ++ rest, r, s2)

/-- A program run: construct the reader on a source and read until
end-of-stream. -/
def readFrom (E : Engine) (fuel : Nat) (source : Source) (src_buf_size dest_buf_size : Nat) :
    Option (List Byte × Res Unit) :=
  match create E source src_buf_size dest_buf_size with
  | Res.ok s =>
    match readAll fuel s with
    | some r => some (r.1, r.2.1)
    | none => none
  | Res.throw e => some ([], Res.throw e)
  | Res.assertFailed => some ([], Res.assertFailed)

end LZ4InputBuffer

/-! ## Reading the record of iterations -/

/-- The input offset after some iterations: a refill sets it to `0`, a
decompress call advances it by the consumed count. -/
def offsetAfter : Nat → List DEvent → Nat
  | o, [] => o
  | _, DEvent.refill _ :: evs => offsetAfter 0 evs
  | o, DEvent.decompress _ _ c _ _ :: evs => offsetAfter (sizeAdd o c) evs

/-- The number of valid bytes in the input buffer after some iterations: a refill
sets it to what it obtained. -/
def sizeAfter : Nat → List DEvent → Nat
  | n, [] => n
  | _, DEvent.refill g :: evs => sizeAfter g evs
  | n, DEvent.decompress _ _ _ _ _ :: evs => sizeAfter n evs

/-- The iterations are placed as the loop places them, from input offset `o` and
size `n`: a refill happens only when the input buffer is fully consumed
(`o = n`), and a decompress call only when it is not, at offset `o`, offered
the `n - o` unconsumed bytes. -/
def Placed : Nat → Nat → List DEvent → Prop
  | _, _, [] => True
  | o, n, DEvent.refill g :: evs => o = n ∧ Placed 0 g evs
  | o, n, DEvent.decompress a f c _ _ :: evs =>
    o ≠ n ∧ a = o ∧ f = sizeSub n o ∧ Placed (sizeAdd o c) n evs

/-- The event is a decompress call that produced no output and no error. -/
def DEvent.silent (isErr : Nat → Bool) : DEvent → Prop
  | DEvent.refill _ => True
  | DEvent.decompress _ _ _ out ret => out = [] ∧ isErr ret = false

/-- What one `underflow` did, in the words of the specification: `evs` are its
iterations (at least one), `o` the input offset before, `res` what it returned, `area` the
staging buffer and `o1` the input offset after.  Every engine call before the
last event produced nothing; the result is end-of-stream exactly when the last
event is a refill that obtained zero bytes; a character is returned exactly by
a last engine call that produced `out`, non-empty, which is then the staging
buffer, the character being its first byte and the offset having advanced by
the consumed counts; an error is thrown exactly by a last engine call that
reported one. -/
def UnderflowSpec (isErr : Nat → Bool) (o : Nat) (evs : List DEvent) (res : Res Int)
    (area : List Byte) (o1 : Nat) : Prop :=
  evs ≠ [] ∧
  (∀ ev ∈ evs.dropLast, DEvent.silent isErr ev) ∧
  (res = Res.ok eof ↔ evs.getLast? = some (DEvent.refill 0)) ∧
  (res = Res.ok eof → o1 = offsetAfter o evs) ∧
  (∀ c, res = Res.ok c → c ≠ eof →
    ∃ off offered consumed out ret,
      evs.getLast? = some (DEvent.decompress off offered consumed out ret) ∧
      out ≠ [] ∧ isErr ret = false ∧ area = out ∧ c = to_int_type (out.headD 0) ∧
      o1 = offsetAfter o evs) ∧
  (∀ e, res = Res.throw e →
    ∃ off offered consumed out ret,
      evs.getLast? = some (DEvent.decompress off offered consumed out ret) ∧ isErr ret = true) ∧
  res ≠ Res.assertFailed

/-- What the specification says a reader holds (§3, §4.3): the upstream
source, the decompression context, the compressed input buffer with its
offset/size pair, and the decompressed staging buffer. -/
structure ReaderView (D : Type) where
  source : Source
  ctx : D
  input : List Byte
  offset : Nat
  size : Nat
  staging : List Byte

/-- The view of a `LZ4IStreamBuf`. -/
def LZ4IStreamBuf.view {E : Engine} (s : LZ4IStreamBuf E) : ReaderView E.DCtx :=
  { source := s.m_source, ctx := s.m_context, input := s.m_src_buffer,
    offset := s.m_src_offset, size := s.m_src_size, staging := s.m_read_area }

/-- The view of a `LZ4InputBuffer`. -/
def LZ4InputBuffer.view {E : Engine} (s : LZ4InputBuffer E) : ReaderView E.DCtx :=
  { source := s.source_, ctx := s.ctx_, input := s.src_buf_,
    offset := s.offset_, size := s.src_buf_size_, staging := s.dest_buf_ }

/-- The iterations `evs` are the ones the loop of §4.3 of the specification
makes from the view `v`, and they end in the view `v1`; `dec` is the
decompression call of the engine.  (a) A refill happens exactly where the input
buffer is fully consumed: it pulls up to the extent of the input buffer from the
source, what it obtained lies at the start of the input buffer, the offset is
`0` and the size the number of bytes obtained.  (b) An engine call happens only
where unconsumed input remains: the engine is fed its context, the extent of
the staging buffer and exactly the unconsumed portion `input[offset, size)`;
the event records the consumed count, the output and the return value the
engine reported; afterwards the engine's output lies at the start of the
staging buffer, the context is the one the engine left, and the offset has
advanced by the consumed count. -/
def Iterates {D : Type} (dec : D → Nat → List Byte → DResult D) :
    ReaderView D → List DEvent → ReaderView D → Prop
  | v, [], v1 => v1 = v
  | v, DEvent.refill g :: evs, v1 =>
    v.offset = v.size ∧ g = (v.source.sgetn v.input.length).1.length ∧
    Iterates dec
      { v with
        source := (v.source.sgetn v.input.length).2,
        input := store (v.source.sgetn v.input.length).1 v.input,
        offset := 0, size := (v.source.sgetn v.input.length).1.length } evs v1
  | v, DEvent.decompress a f c out ret :: evs, v1 =>
    v.offset ≠ v.size ∧ a = v.offset ∧ f = sizeSub v.size v.offset ∧
    c = (dec v.ctx v.staging.length
      ((v.input.drop v.offset).take (sizeSub v.size v.offset))).consumed ∧
    out = (dec v.ctx v.staging.length
      ((v.input.drop v.offset).take (sizeSub v.size v.offset))).out ∧
    ret = (dec v.ctx v.staging.length
      ((v.input.drop v.offset).take (sizeSub v.size v.offset))).ret ∧
    Iterates dec
      { v with
        ctx := (dec v.ctx v.staging.length
          ((v.input.drop v.offset).take (sizeSub v.size v.offset))).ctx,
        staging := store (dec v.ctx v.staging.length
          ((v.input.drop v.offset).take (sizeSub v.size v.offset))).out v.staging,
        offset := sizeAdd v.offset (dec v.ctx v.staging.length
          ((v.input.drop v.offset).take (sizeSub v.size v.offset))).consumed } evs v1

/-! ## What the adapters ask of the codec -/

/-- Successive `LZ4F_compressUpdate` calls, one per piece, each with a
destination of `cap` bytes: the final context, the bytes stored by the calls in
order, and whether no call reported an error. -/
def Engine.updates (E : Engine) (cap : Nat) : E.CCtx → List (List Byte) → E.CCtx × List Byte × Bool
  | ctx, [] => (ctx, [], true)
  | ctx, p :: ps =>
    let r := E.LZ4F_compressUpdate ctx cap p
    let rest := Engine.updates E cap r.ctx ps
    (rest.1, r.out ++ rest.2.1, !E.LZ4F_isError r.ret && rest.2.2)

/-- One whole frame made by the encoder alone: header, one update per piece,
footer; with whether every call succeeded. -/
def Engine.frame (E : Engine) (cap : Nat) (p : Preferences) (pieces : List (List Byte)) :
    List Byte × Bool :=
  let c := E.LZ4F_createCompressionContext
  let h := E.LZ4F_compressBegin c.2 cap p
  let u := E.updates cap h.ctx pieces
  let f := E.LZ4F_compressEnd u.1 cap
  (h.out ++ u.2.1 ++ f.out,
    !E.LZ4F_isError c.1 && !E.LZ4F_isError h.ret && u.2.2 && !E.LZ4F_isError f.ret)

/-- The streaming decoder turns the compressed bytes `c` into `b`, however `c`
is cut into calls: some relation `R d cs bs` (context `d` has still to read `cs`
and to deliver `bs`) holds at the start, is kept by every call that is offered
a non-empty prefix of `cs` and a non-empty destination, each such call
succeeding, consuming no more than offered and making progress; and nothing is
left to deliver once all of `c` is consumed. -/
def Engine.DecodesTo (E : Engine) (c b : List Byte) : Prop :=
  ∃ R : E.DCtx → List Byte → List Byte → Prop,
    R E.LZ4F_createDecompressionContext.2 c b ∧
    (∀ d bs, R d [] bs → bs = []) ∧
    (∀ d cs bs src rest cap, R d cs bs → src ≠ [] → cs = src ++ rest → 0 < cap →
      E.LZ4F_isError (E.LZ4F_decompress d cap src).ret = false ∧
      (E.LZ4F_decompress d cap src).consumed ≤ src.length ∧
      0 < (E.LZ4F_decompress d cap src).consumed + (E.LZ4F_decompress d cap src).out.length ∧
      ∃ bs1, bs = (E.LZ4F_decompress d cap src).out ++ bs1 ∧
        R (E.LZ4F_decompress d cap src).ctx (cs.drop (E.LZ4F_decompress d cap src).consumed) bs1)

/-- The codec contract of the round trip: a compression call that reports no
error returns the number of bytes it stored; the decompression context can be
created; and the decoder inverts the encoder on every frame (header, blocks,
footer) the encoder makes without error with destinations of `cap` bytes; such
a call stores no more than its destination holds. -/
structure Engine.Codec (E : Engine) (cap : Nat) (p : Preferences) : Prop where
  begin_size : ∀ ctx n q, E.LZ4F_isError (E.LZ4F_compressBegin ctx n q).ret = false →
    (E.LZ4F_compressBegin ctx n q).ret = (E.LZ4F_compressBegin ctx n q).out.length ∧
    (E.LZ4F_compressBegin ctx n q).out.length ≤ n
  update_size : ∀ ctx n src, E.LZ4F_isError (E.LZ4F_compressUpdate ctx n src).ret = false →
    (E.LZ4F_compressUpdate ctx n src).ret = (E.LZ4F_compressUpdate ctx n src).out.length ∧
    (E.LZ4F_compressUpdate ctx n src).out.length ≤ n
  end_size : ∀ ctx n, E.LZ4F_isError (E.LZ4F_compressEnd ctx n).ret = false →
    (E.LZ4F_compressEnd ctx n).ret = (E.LZ4F_compressEnd ctx n).out.length ∧
    (E.LZ4F_compressEnd ctx n).out.length ≤ n
  dctx_ok : E.LZ4F_isError E.LZ4F_createDecompressionContext.1 = false
  inverts : ∀ pieces, (E.frame cap p pieces).2 = true →
    E.DecodesTo (E.frame cap p pieces).1 pieces.flatten

/-! ## A small codec with a framed format

Frame: the magic byte `0x4C`, then the data with every byte shifted by the
dictionary key and `0xFF` written as `0xFF 0x01`, then the end mark
`0xFF 0x00`.  It stands for the library wherever a concrete run is evaluated. -/

/-- Error code `LZ4F_ERROR_GENERIC` as a `size_t`. -/
def ERROR_GENERIC : Nat := SIZE_MOD - 1

/-- Error code `LZ4F_ERROR_dstMaxSize_tooSmall` as a `size_t`. -/
def ERROR_dstMaxSize_tooSmall : Nat := SIZE_MOD - 11

/-- Error code `LZ4F_ERROR_frameType_unknown` as a `size_t`. -/
def ERROR_frameType_unknown : Nat := SIZE_MOD - 13

/-- A `size_t` is an error code when it lies in the top range. -/
def isErrorCode (n : Nat) : Bool := decide (SIZE_MOD - 32 < n)

/-- Function `LZ4F_getErrorName` for the codes the small codec returns. -/
def escErrorName (n : Nat) : String :=
  if n = ERROR_GENERIC then "ERROR_GENERIC"
  else if n = ERROR_dstMaxSize_tooSmall then "ERROR_dstMaxSize_tooSmall"
  else if n = ERROR_frameType_unknown then "ERROR_frameType_unknown"
  else "Unspecified error code"

/-- Compression context of the small codec: stage (1 between begin and end) and
the dictionary key. -/
structure EscCCtx where
  stage : Nat
  key : Byte
  deriving DecidableEq, Repr

/-- Decoder stage of the small codec. -/
inductive EscDCtx where
  | hdr
  | data
  | esc
  deriving DecidableEq, Repr

/-- One data byte on the wire. -/
def escByte (x : Byte) : List Byte := if x = 255 then [255, 1] else [x]

/-- The data bytes on the wire, shifted by the key. -/
def escBytes (k : Byte) : List Byte → List Byte
  | [] => []
  | x :: xs => escByte (x + k) ++ escBytes k xs

/-- Begin of the small codec: the magic byte. -/
def escBegin (k : Byte) (cap : Nat) : CResult EscCCtx :=
  if cap < 1 then { ctx := { stage := 0, key := k }, ret := ERROR_dstMaxSize_tooSmall, out := [] }
  else { ctx := { stage := 1, key := k }, ret := 1, out := [76] }

/-- Update of the small codec: refuses a destination the data does not fit in. -/
def escUpdate (c : EscCCtx) (cap : Nat) (src : List Byte) : CResult EscCCtx :=
  if c.stage ≠ 1 then { ctx := c, ret := ERROR_GENERIC, out := [] }
  else if cap < (escBytes c.key src).length then
    { ctx := c, ret := ERROR_dstMaxSize_tooSmall, out := [] }
  else { ctx := c, ret := (escBytes c.key src).length, out := escBytes c.key src }

/-- End of the small codec: the end mark. -/
def escEnd (c : EscCCtx) (cap : Nat) : CResult EscCCtx :=
  if c.stage ≠ 1 then { ctx := c, ret := ERROR_GENERIC, out := [] }
  else if cap < 2 then { ctx := c, ret := ERROR_dstMaxSize_tooSmall, out := [] }
  else { ctx := { c with stage := 0 }, ret := 2, out := [255, 0] }

/-- Decoder of the small codec: reads one byte per call. -/
def escDecompress (k : Byte) (d : EscDCtx) (cap : Nat) (src : List Byte) : DResult EscDCtx :=
  match src with
  | [] => { ctx := d, ret := 1, out := [], consumed := 0 }
  | x :: _ =>
    match d with
    | EscDCtx.hdr =>
      if x = 76 then { ctx := EscDCtx.data, ret := 1, out := [], consumed := 1 }
      else { ctx := EscDCtx.hdr, ret := ERROR_frameType_unknown, out := [], consumed := 0 }
    | EscDCtx.data =>
      if x = 255 then { ctx := EscDCtx.esc, ret := 1, out := [], consumed := 1 }
      else if cap = 0 then { ctx := EscDCtx.data, ret := 1, out := [], consumed := 0 }
      else { ctx := EscDCtx.data, ret := 1, out := [x - k], consumed := 1 }
    | EscDCtx.esc =>
      if x = 0 then { ctx := EscDCtx.hdr, ret := 0, out := [], consumed := 1 }
      else if x = 1 then
        if cap = 0 then { ctx := EscDCtx.esc, ret := 1, out := [], consumed := 0 }
        else { ctx := EscDCtx.data, ret := 1, out := [255 - k], consumed := 1 }
      else { ctx := EscDCtx.esc, ret := ERROR_GENERIC, out := [], consumed := 0 }

/-- The dictionary key the decoder of the small codec finds behind the
`dict` pointer: the first of the `size` bytes there.  Behind a pointer to an
`LZ4F_CDict` object lie the fields of that object, not the dictionary; this
codec reads `0xD1` there. -/
def escKeyAt (p : VoidPtr (List Byte)) (size : Nat) : Byte :=
  match p with
  | VoidPtr.bytes b => (b.take size).headD 0
  | VoidPtr.cdict _ => 209

/-- The small codec as an `Engine`. -/
def escEngine : Engine :=
  { CCtx := EscCCtx
    DCtx := EscDCtx
    CDict := List Byte
    LZ4F_isError := isErrorCode
    LZ4F_getErrorName := escErrorName
    LZ4F_HEADER_SIZE_MAX := 19
    LZ4F_compressBound := fun n _ => 2 * n + 2
    LZ4F_createCompressionContext := (0, { stage := 0, key := 0 })
    LZ4F_createCDict := fun b => some b
    LZ4F_compressBegin := fun _ cap _ => escBegin 0 cap
    LZ4F_compressBegin_usingCDict := fun _ cap d _ =>
      match d with
      | some b => escBegin (b.headD 0) cap
      | none => escBegin 0 cap
    LZ4F_compressUpdate := escUpdate
    LZ4F_compressEnd := escEnd
    LZ4F_createDecompressionContext := (0, EscDCtx.hdr)
    LZ4F_decompress := escDecompress 0
    LZ4F_decompress_usingDict := fun d cap src p size => escDecompress (escKeyAt p size) d cap src }

/-- An engine whose compression calls all report `LZ4F_ERROR_GENERIC`. -/
def failingEngine : Engine :=
  { escEngine with
    LZ4F_compressBegin := fun c _ _ => { ctx := c, ret := ERROR_GENERIC, out := [] }
    LZ4F_compressBegin_usingCDict := fun c _ _ _ => { ctx := c, ret := ERROR_GENERIC, out := [] }
    LZ4F_compressUpdate := fun c _ _ => { ctx := c, ret := ERROR_GENERIC, out := [] }
    LZ4F_compressEnd := fun c _ => { ctx := c, ret := ERROR_GENERIC, out := [] } }

/-- The small codec with an update call that does not look at the stage. -/
def laxEngine : Engine :=
  { escEngine with
    LZ4F_compressUpdate := fun c cap src => escUpdate { c with stage := 1 } cap src }

/-- The small codec with an update call that always reports `LZ4F_ERROR_GENERIC`. -/
def updateFailingEngine : Engine :=
  { escEngine with
    LZ4F_compressUpdate := fun c _ _ => { ctx := c, ret := ERROR_GENERIC, out := [] } }

/-- The small codec with an end call that always reports `LZ4F_ERROR_GENERIC`. -/
def endFailingEngine : Engine :=
  { escEngine with
    LZ4F_compressEnd := fun c _ => { ctx := c, ret := ERROR_GENERIC, out := [] } }

/-! ## The bound formula of lz4frame -/

/-- Function `LZ4F_getBlockSize` of lz4frame.c. -/
def LZ4F_getBlockSize : BlockSizeID → Nat
  | BlockSizeID.LZ4F_default => 65536
  | BlockSizeID.LZ4F_max64KB => 65536
  | BlockSizeID.LZ4F_max256KB => 262144
  | BlockSizeID.LZ4F_max1MB => 1048576
  | BlockSizeID.LZ4F_max4MB => 4194304

/-- Function `LZ4F_compressBound_internal` of lz4frame.c (block header and
checksum sizes are 4). -/
def LZ4F_compressBound_internal (srcSize : Nat) (p : Preferences) (alreadyBuffered : Nat) : Nat :=
  let flush : Bool := decide (p.autoFlush ≠ 0) || decide (srcSize = 0)
  let blockSize := LZ4F_getBlockSize p.blockSizeID
  let maxBuffered := blockSize - 1
  let bufferedSize := min alreadyBuffered maxBuffered
  let maxSrcSize := srcSize + bufferedSize
  let nbFullBlocks := maxSrcSize / blockSize
  let partialBlockSize := maxSrcSize % blockSize
  let lastBlockSize := if flush then partialBlockSize else 0
  let nbBlocks := nbFullBlocks + (if lastBlockSize > 0 then 1 else 0)
  let blockCRCSize := 4 * p.blockChecksumFlag
  let frameEnd := 4 + p.contentChecksumFlag * 4
  (4 + blockCRCSize) * nbBlocks + blockSize * nbFullBlocks + lastBlockSize + frameEnd

/-- Function `LZ4F_compressBound` of lz4frame.c, for non-null preferences. -/
def LZ4F_compressBound (srcSize : Nat) (p : Preferences) : Nat :=
  if p.autoFlush ≠ 0 then LZ4F_compressBound_internal srcSize p 0
  else LZ4F_compressBound_internal srcSize p (SIZE_MOD - 1)


/-! ## Scenarios

Small programs that drive the adapters; the theorems on single runs evaluate
them. -/

/-- A writer run as `LZ4OStreamBuf.writeAndClose`, from a given value of the
static `is_open`; returns also the value the static has afterwards. -/
def LZ4OStreamBuf.runFrom (E : Engine) (g : Statics) (compression_level_ : Int)
    (chunks : List (List Byte)) : Res Unit × Statics × Sink :=
  match LZ4OStreamBuf.create E [] compression_level_ none with
  | (Res.ok _, some w) =>
    match w.writeChunks chunks with
    | (Res.ok _, w1) =>
      ((LZ4OStreamBuf.close g w1).1, (LZ4OStreamBuf.close g w1).2.1,
        (LZ4OStreamBuf.close g w1).2.2.m_sink)
    | (Res.throw e, w1) => (Res.throw e, g, w1.m_sink)
    | (Res.assertFailed, w1) => (Res.assertFailed, g, w1.m_sink)
  | (Res.ok _, none) => (Res.ok (), g, [])
  | (Res.throw e, _) => (Res.throw e, g, [])
  | (Res.assertFailed, _) => (Res.assertFailed, g, [])

/-- What a program observes when it closes a writer and then writes to it: the
results of `close`, of `sputc` and of `sync`, a count (the put pointer after
`sputc`, or the number of times the context was freed), and the sink after
`close` and after `sync`. -/
structure AfterClose where
  closed : Res Unit
  put : Res Int
  synced : Res Int
  count : Nat
  sinkAtClose : Sink
  sinkAtEnd : Sink
  deriving DecidableEq, Repr

/-- Construct a `LZ4OStreamBuf`, close it, then `sputc c` and `sync` (the sink
answering 0 to `pubsync`); the count is the put pointer after `sputc`. -/
def LZ4OStreamBuf.writeAfterClose (E : Engine) (c : Byte) : Option AfterClose :=
  match LZ4OStreamBuf.create E [] 0 none with
  | (Res.ok _, some w) =>
    some {
      closed := (LZ4OStreamBuf.close Statics.start w).1
      put := ((LZ4OStreamBuf.close Statics.start w).2.2.sputc c).1
      synced := (((LZ4OStreamBuf.close Statics.start w).2.2.sputc c).2.sync 0).1
      count := ((LZ4OStreamBuf.close Statics.start w).2.2.sputc c).2.pptr
      sinkAtClose := (LZ4OStreamBuf.close Statics.start w).2.2.m_sink
      sinkAtEnd := (((LZ4OStreamBuf.close Statics.start w).2.2.sputc c).2.sync 0).2.m_sink }
  | _ => none

/-- Construct a `LZ4OutputBuffer` with a 4-byte `src_buf_` on a fresh stream,
close it, then `sputc c` and `sync`; the count is the number of times the
context was freed, the sinks are what the stream buffer received. -/
def LZ4OutputBuffer.writeAfterClose (E : Engine) (ndebug : Bool) (c : Byte) :
    Option AfterClose :=
  match LZ4OutputBuffer.create E 4 ndebug (OStream.fresh true) 0 with
  | (Res.ok _, some w) =>
    some {
      closed := (LZ4OutputBuffer.close w).1
      put := ((LZ4OutputBuffer.close w).2.sputc c).1
      synced := (((LZ4OutputBuffer.close w).2.sputc c).2.sync).1
      count := (LZ4OutputBuffer.close w).2.freed
      sinkAtClose := (LZ4OutputBuffer.close w).2.sink_.received
      sinkAtEnd := (((LZ4OutputBuffer.close w).2.sputc c).2.sync).2.sink_.received }
  | _ => none

/-- A `LZ4IStreamBuf` on the small codec, 4-byte buffers, as constructed, whose
source holds the frame of the bytes 1 2 and returns it in reads of 2 bytes. -/
def LZ4IStreamBuf.sample : LZ4IStreamBuf escEngine :=
  { m_source := { data := [76, 1, 2, 255, 0], sched := [2, 2, 2] },
    m_context := EscDCtx.hdr, m_dictionary := none,
    m_src_buffer := [0, 0, 0, 0], m_read_area := [0, 0, 0, 0],
    m_src_offset := 0, m_src_size := 0, gptr := 0, egptr := 0, trace := [] }

/-- A `LZ4InputBuffer` on the small codec, 4-byte buffers, as constructed, whose
source holds the frame of the bytes 1 2 and returns it in reads of 2 bytes. -/
def LZ4InputBuffer.sample : LZ4InputBuffer escEngine :=
  { source_ := { data := [76, 1, 2, 255, 0], sched := [2, 2, 2] },
    src_buf_ := [0, 0, 0, 0], dest_buf_ := [0, 0, 0, 0], offset_ := 0, src_buf_size_ := 0,
    ctx_ := EscDCtx.hdr, getBuf := false, gptr := 0, egptr := 0, trace := [] }

/-- A `LZ4InputBuffer` on the small codec, 4-byte buffers, as constructed, whose
source holds the frame of the bytes 1 2 and returns all it is asked for. -/
def LZ4InputBuffer.sampleWhole : LZ4InputBuffer escEngine :=
  { source_ := { data := [76, 1, 2, 255, 0], sched := [] },
    src_buf_ := [0, 0, 0, 0], dest_buf_ := [0, 0, 0, 0], offset_ := 0, src_buf_size_ := 0,
    ctx_ := EscDCtx.hdr, getBuf := false, gptr := 0, egptr := 0, trace := [] }

/-- What a program observes around a flush: the result of `sync`, the result of
a `sputc` made after it, the put pointer after `sync`, and the sink after
`sync`. -/
structure AroundSync where
  synced : Res Int
  later : Res Int
  pptr : Nat
  sink : Sink
  deriving DecidableEq, Repr

/-- Construct a `LZ4OStreamBuf`, `sputc 5`, `sync` (the sink answering 0 to
`pubsync`), then `sputc 6`. -/
def LZ4OStreamBuf.syncScenario (E : Engine) : Option AroundSync :=
  match LZ4OStreamBuf.create E [] 0 none with
  | (Res.ok _, some w) =>
    some {
      synced := ((w.sputc 5).2.sync 0).1
      later := (((w.sputc 5).2.sync 0).2.sputc 6).1
      pptr := ((w.sputc 5).2.sync 0).2.pptr
      sink := ((w.sputc 5).2.sync 0).2.m_sink }
  | _ => none

/-- Construct a `LZ4OutputBuffer` with a 4-byte `src_buf_` on a fresh stream,
`sputc 5`, `sync`, then `sputc 6`; the sink is what the stream buffer
received. -/
def LZ4OutputBuffer.syncScenario (E : Engine) (ndebug : Bool) : Option AroundSync :=
  match LZ4OutputBuffer.create E 4 ndebug (OStream.fresh true) 0 with
  | (Res.ok _, some w) =>
    some {
      synced := ((w.sputc 5).2.sync).1
      later := (((w.sputc 5).2.sync).2.sputc 6).1
      pptr := ((w.sputc 5).2.sync).2.pptr
      sink := ((w.sputc 5).2.sync).2.sink_.received }
  | _ => none

/-- What a program observes when the update call of a flush fails in a
`LZ4OutputBuffer`: the result of `sync`, the result of a `sputc` made after it,
the stream after `sync`, and the result of a `close` made after `sync` with the
stream after it. -/
structure AfterFailedUpdate where
  synced : Res Int
  later : Res Int
  stream : OStream
  closed : Res Unit
  atClose : OStream
  deriving DecidableEq, Repr

/-- Construct a `LZ4OutputBuffer` with a 4-byte `src_buf_` on a fresh stream, on
the engine whose update call fails; `sputc 5`, `sync`, then `sputc 6`, or
`close`. -/
def LZ4OutputBuffer.failedUpdateScenario (negativeCountFails : Bool) :
    Option AfterFailedUpdate :=
  match LZ4OutputBuffer.create updateFailingEngine 4 false (OStream.fresh negativeCountFails) 0 with
  | (Res.ok _, some w) =>
    some {
      synced := ((w.sputc 5).2.sync).1
      later := (((w.sputc 5).2.sync).2.sputc 6).1
      stream := ((w.sputc 5).2.sync).2.sink_
      closed := (((w.sputc 5).2.sync).2.close).1
      atClose := (((w.sputc 5).2.sync).2.close).2.sink_ }
  | _ => none

/-- A `LZ4OStreamBuf` on the failing engine, 4-byte buffers, header sent, one
byte staged. -/
def LZ4OStreamBuf.sampleFailing : LZ4OStreamBuf failingEngine :=
  { m_sink := [SinkEvent.write [76] 1], m_compression_ctx := { stage := 1, key := 0 },
    m_preferences := DEFAULT_PREFERENCES, m_dictionary := none,
    m_write_area := [5, 0, 0, 0], m_compression_buffer := [76, 0, 0, 0], pptr := 1, epptr := 3 }

/-- A `LZ4OStreamBuf` on the engine whose end call fails, 4-byte buffers, header
sent, one byte staged. -/
def LZ4OStreamBuf.sampleEndFailing : LZ4OStreamBuf endFailingEngine :=
  { m_sink := [SinkEvent.write [76] 1], m_compression_ctx := { stage := 1, key := 0 },
    m_preferences := DEFAULT_PREFERENCES, m_dictionary := none,
    m_write_area := [5, 0, 0, 0], m_compression_buffer := [76, 0, 0, 0], pptr := 1, epptr := 3 }

/-- A `LZ4OutputBuffer` on the failing engine, 4-byte `src_buf_`, header sent,
one byte staged. -/
def LZ4OutputBuffer.sampleFailing : LZ4OutputBuffer failingEngine :=
  { sink_ := { received := [SinkEvent.write [76] 1], counts := [1], badbit := false,
               negativeCountFails := true },
    src_buf_ := [5, 0, 0, 0],
    dest_buf_ := [76, 0, 0, 0, 0, 0, 0, 0, 0, 0], ctx_ := { stage := 1, key := 0 },
    preferences_ := LZ4F_INIT_PREFERENCES, closed_ := false, pptr := 1, epptr := 3,
    NDEBUG := false, freed := 0 }

/-- A `LZ4OStreamBuf` on the small codec, 4-byte buffers, header sent, two bytes
staged. -/
def LZ4OStreamBuf.sample : LZ4OStreamBuf escEngine :=
  { m_sink := [SinkEvent.write [76] 1], m_compression_ctx := { stage := 1, key := 0 },
    m_preferences := DEFAULT_PREFERENCES, m_dictionary := none,
    m_write_area := [5, 6, 0, 0], m_compression_buffer := [76, 0, 0, 0], pptr := 2, epptr := 3 }

/-- A `LZ4OutputBuffer` on the small codec, 4-byte `src_buf_`, header sent, two
bytes staged. -/
def LZ4OutputBuffer.sample : LZ4OutputBuffer escEngine :=
  { sink_ := { received := [SinkEvent.write [76] 1], counts := [1], badbit := false,
               negativeCountFails := true },
    src_buf_ := [5, 6, 0, 0],
    dest_buf_ := [76, 0, 0, 0, 0, 0, 0, 0, 0, 0], ctx_ := { stage := 1, key := 0 },
    preferences_ := LZ4F_INIT_PREFERENCES, closed_ := false, pptr := 2, epptr := 3,
    NDEBUG := false, freed := 0 }

/-- Load a dictionary from `bytes`, write `b` through a `LZ4OStreamBuf`
constructed with it, and read what reached the sink through a `LZ4IStreamBuf`
constructed with the same dictionary. -/
def dictRoundTrip (E : Engine) (fuel : Nat) (bytes b : List Byte) :
    Option (List Byte × Res Unit) :=
  match LZ4Dictionary.loadFromResource E
      { FindResource := true, SizeofResource := bytes.length, LoadResource := true,
        LockResource := some bytes } with
  | Res.ok d =>
    LZ4IStreamBuf.readFrom E fuel
      { data := sinkBytes (LZ4OStreamBuf.writeAndClose E 0 (some d) [b]).2, sched := [] }
      (some d) 4
  | _ => none

/-- The small codec with the bound function and the header size of lz4frame. -/
def lz4BoundEngine : Engine :=
  { escEngine with
    LZ4F_compressBound := LZ4F_compressBound
    LZ4F_HEADER_SIZE_MAX := 19 }

/-! ## Invariants used by the proofs -/

/-- Shape of a `LZ4OStreamBuf` between calls: both buffers have `cap` bytes, the
put area ends one byte before the end of `m_write_area`, and the put pointer is
inside it. -/
structure WInv {E : Engine} (w : LZ4OStreamBuf E) (cap : Nat) : Prop where
  area : w.m_write_area.length = cap
  cbuf : w.m_compression_buffer.length = cap
  ep : w.epptr = cap - 1
  pp : w.pptr ≤ w.epptr
  pos : 0 < cap

/-- The bytes staged in the put area of a `LZ4OStreamBuf`. -/
def LZ4OStreamBuf.staged {E : Engine} (w : LZ4OStreamBuf E) : List Byte :=
  w.m_write_area.take w.pptr

/-- The unconsumed part of the input buffer of a `LZ4IStreamBuf`. -/
def LZ4IStreamBuf.pending {E : Engine} (s : LZ4IStreamBuf E) : List Byte :=
  (s.m_src_buffer.drop s.m_src_offset).take (s.m_src_size - s.m_src_offset)

/-- Shape of a `LZ4IStreamBuf` between calls, for a reader without dictionary
that has still to read `cs` (the unconsumed part of its input buffer followed by
what the source holds). -/
structure RInv {E : Engine} (s : LZ4IStreamBuf E) (cs : List Byte) : Prop where
  nodict : s.m_dictionary = none
  off : s.m_src_offset ≤ s.m_src_size
  size : s.m_src_size ≤ s.m_src_buffer.length
  buf : s.m_src_buffer.length < SIZE_MOD
  bufpos : 0 < s.m_src_buffer.length
  areapos : 0 < s.m_read_area.length
  rest : cs = s.pending ++ s.m_source.data

/-- Every decompress call that is offered a non-empty input and a non-empty
destination reports an error, or consumes no more than it was offered and
consumes or produces at least one byte. -/
def Engine.DecoderProgress (E : Engine) : Prop :=
  (∀ d cap src, src ≠ [] → 0 < cap →
    E.LZ4F_isError (E.LZ4F_decompress d cap src).ret = true ∨
    ((E.LZ4F_decompress d cap src).consumed ≤ src.length ∧
      0 < (E.LZ4F_decompress d cap src).consumed + (E.LZ4F_decompress d cap src).out.length)) ∧
  (∀ d cap src p size, src ≠ [] → 0 < cap →
    E.LZ4F_isError (E.LZ4F_decompress_usingDict d cap src p size).ret = true ∨
    ((E.LZ4F_decompress_usingDict d cap src p size).consumed ≤ src.length ∧
      0 < (E.LZ4F_decompress_usingDict d cap src p size).consumed +
        (E.LZ4F_decompress_usingDict d cap src p size).out.length))

/-- A `LZ4IStreamBuf` whose offset and size lie inside its input buffer, whose
buffer extent is a `size_t`, and whose read area is not empty. -/
structure LZ4IStreamBuf.WF {E : Engine} (s : LZ4IStreamBuf E) : Prop where
  off : s.m_src_offset ≤ s.m_src_size
  size : s.m_src_size ≤ s.m_src_buffer.length
  buf : s.m_src_buffer.length < SIZE_MOD
  areapos : 0 < s.m_read_area.length

/-- A `LZ4InputBuffer` whose offset and size lie inside its input buffer, whose
buffer extent is a `size_t`, and whose destination buffer is not empty. -/
structure LZ4InputBuffer.WF {E : Engine} (s : LZ4InputBuffer E) : Prop where
  off : s.offset_ ≤ s.src_buf_size_
  size : s.src_buf_size_ ≤ s.src_buf_.length
  buf : s.src_buf_.length < SIZE_MOD
  areapos : 0 < s.dest_buf_.length

/-- The relation that shows the decoder of the small codec inverts its encoder. -/
def escRel (d : EscDCtx) (cs bs : List Byte) : Prop :=
  match d with
  | EscDCtx.hdr => (cs = [] ∧ bs = []) ∨ cs = 76 :: (escBytes 0 bs ++ [255, 0])
  | EscDCtx.data => cs = escBytes 0 bs ++ [255, 0]
  | EscDCtx.esc => (cs = [0] ∧ bs = []) ∨ ∃ bs1, bs = 255 :: bs1 ∧ cs = 1 :: (escBytes 0 bs1 ++ [255, 0])

/-- The engine never reports consuming more bytes than it was offered. -/
def Engine.ConsumesAtMostOffered (E : Engine) : Prop :=
  (∀ d cap src, (E.LZ4F_decompress d cap src).consumed ≤ src.length) ∧
  (∀ d cap src p size, (E.LZ4F_decompress_usingDict d cap src p size).consumed ≤ src.length)

/-- The input offset of a `LZ4IStreamBuf` lies inside the valid bytes, which lie
inside the input buffer, whose extent is a `size_t`. -/
structure LZ4IStreamBuf.InBounds {E : Engine} (s : LZ4IStreamBuf E) : Prop where
  off : s.m_src_offset ≤ s.m_src_size
  size : s.m_src_size ≤ s.m_src_buffer.length
  buf : s.m_src_buffer.length < SIZE_MOD

/-- The input offset of a `LZ4InputBuffer` lies inside the valid bytes, which
lie inside the input buffer, whose extent is a `size_t`. -/
structure LZ4InputBuffer.InBounds {E : Engine} (s : LZ4InputBuffer E) : Prop where
  off : s.offset_ ≤ s.src_buf_size_
  size : s.src_buf_size_ ≤ s.src_buf_.length
  buf : s.src_buf_.length < SIZE_MOD

/-- The decompress call a `LZ4IStreamBuf` makes in this state is offered
`m_src_size - m_src_offset` bytes, at least one, and the slice it is handed has
that many bytes and ends inside the input buffer. -/
def LZ4IStreamBuf.OfferInside {E : Engine} (s : LZ4IStreamBuf E) : Prop :=
  0 < s.m_src_size - s.m_src_offset ∧
  sizeSub s.m_src_size s.m_src_offset = s.m_src_size - s.m_src_offset ∧
  ((s.m_src_buffer.drop s.m_src_offset).take
    (sizeSub s.m_src_size s.m_src_offset)).length = s.m_src_size - s.m_src_offset ∧
  s.m_src_offset + (s.m_src_size - s.m_src_offset) ≤ s.m_src_buffer.length

/-- The decompress call a `LZ4InputBuffer` makes in this state is offered
`src_buf_size_ - offset_` bytes, at least one, and the slice it is handed has
that many bytes and ends inside the input buffer. -/
def LZ4InputBuffer.OfferInside {E : Engine} (s : LZ4InputBuffer E) : Prop :=
  0 < s.src_buf_size_ - s.offset_ ∧
  sizeSub s.src_buf_size_ s.offset_ = s.src_buf_size_ - s.offset_ ∧
  ((s.src_buf_.drop s.offset_).take
    (sizeSub s.src_buf_size_ s.offset_)).length = s.src_buf_size_ - s.offset_ ∧
  s.offset_ + (s.src_buf_size_ - s.offset_) ≤ s.src_buf_.length

/-- The iteration stays inside an input buffer of `cap` bytes: a refill obtains
no more than `cap` bytes; a decompress call is offered at least one byte, the
offered bytes end inside the buffer, and no more than offered are consumed. -/
def DEvent.inside (cap : Nat) : DEvent → Prop
  | DEvent.refill g => g ≤ cap
  | DEvent.decompress a f c _ _ => 0 < f ∧ a + f ≤ cap ∧ c ≤ f

/-- The small codec with a decompress call that reports one consumed byte more
than it was offered. -/
def greedyEngine : Engine :=
  { escEngine with
    LZ4F_decompress := fun d cap src =>
      { escDecompress 0 d cap src with consumed := src.length + 1 } }

/-- The input offset and the input size of a `LZ4IStreamBuf` on `greedyEngine`
(4-byte buffers, source `76 1 2 255 0` in reads of 2 bytes) after the first
iteration of the loop of `underflow`. -/
def greedyFirstIteration : Option (Nat × Nat) :=
  match LZ4IStreamBuf.create greedyEngine { data := [76, 1, 2, 255, 0], sched := [2, 2, 2] }
      none 4 with
  | Res.ok s =>
    some ((s.refill.advance s.refill.callEngine).m_src_offset,
      (s.refill.advance s.refill.callEngine).m_src_size)
  | _ => none

/-! ## Basic facts -/

theorem to_char_type_to_int_type (c : Byte) : to_char_type (to_int_type c) = c := by
  have h : ((c.val : Int) % 256).toNat = c.val := by omega
  unfold to_char_type to_int_type
  rw [h]
  apply Fin.ext
  simp [Fin.ofNat]

theorem to_int_type_ne_eof (c : Byte) : to_int_type c ≠ eof := by
  unfold to_int_type eof
  omega

theorem sizeSub_eq (a b : Nat) (hb : b ≤ a) (ha : a < SIZE_MOD) : sizeSub a b = a - b := by
  unfold sizeSub
  have h1 : b % SIZE_MOD = b := Nat.mod_eq_of_lt (by omega)
  rw [h1]
  have h2 : a + SIZE_MOD - b = (a - b) + SIZE_MOD := by omega
  rw [h2, Nat.add_mod_right]
  exact Nat.mod_eq_of_lt (by omega)

theorem sizeAdd_eq (a b : Nat) (h : a + b < SIZE_MOD) : sizeAdd a b = a + b := by
  unfold sizeAdd
  exact Nat.mod_eq_of_lt h

theorem take_store (out buf : List Byte) : (store out buf).take out.length = out := by
  simp [store]

theorem length_store (out buf : List Byte) (h : out.length ≤ buf.length) :
    (store out buf).length = buf.length := by
  simp [store]
  omega

theorem take_succ_set (l : List Byte) (n : Nat) (c : Byte) (h : n < l.length) :
    (l.set n c).take (n + 1) = l.take n ++ [c] := by
  induction l generalizing n with
  | nil => simp at h
  | cons x l ih =>
    cases n with
    | zero => simp
    | succ n =>
      simp only [List.length_cons, Nat.add_lt_add_iff_right] at h
      simp [ih n h]

theorem sinkBytes_append (a b : Sink) : sinkBytes (a ++ b) = sinkBytes a ++ sinkBytes b := by
  induction a with
  | nil => rfl
  | cons e a ih =>
    cases e with
    | write s n => simp [sinkBytes, ih]
    | sync => simp [sinkBytes, ih]

theorem updates_append (E : Engine) (cap : Nat) (ps qs : List (List Byte)) (ctx : E.CCtx) :
    E.updates cap ctx (ps ++ qs) =
      ((E.updates cap (E.updates cap ctx ps).1 qs).1,
       (E.updates cap ctx ps).2.1 ++ (E.updates cap (E.updates cap ctx ps).1 qs).2.1,
       (E.updates cap ctx ps).2.2 && (E.updates cap (E.updates cap ctx ps).1 qs).2.2) := by
  induction ps generalizing ctx with
  | nil => simp [Engine.updates]
  | cons p ps ih =>
    have h := ih (E.LZ4F_compressUpdate ctx cap p).ctx
    simp only [List.cons_append, Engine.updates]
    simp only [List.append_eq, h]
    simp [Bool.and_assoc]

/-! ## The writer `LZ4OStreamBuf` -/

namespace LZ4OStreamBuf

variable {E : Engine}

theorem compress_buffer_ok (w w1 : LZ4OStreamBuf E) (v : Nat)
    (hsz : ∀ ctx n src, E.LZ4F_isError (E.LZ4F_compressUpdate ctx n src).ret = false →
      (E.LZ4F_compressUpdate ctx n src).ret = (E.LZ4F_compressUpdate ctx n src).out.length ∧
      (E.LZ4F_compressUpdate ctx n src).out.length ≤ n)
    (h : w.compress_buffer = (Res.ok v, w1)) :
    E.LZ4F_isError (E.LZ4F_compressUpdate w.m_compression_ctx w.m_compression_buffer.length
      (w.m_write_area.take w.pptr)).ret = false ∧
    w1 = { w with
      m_compression_ctx := (E.LZ4F_compressUpdate w.m_compression_ctx
        w.m_compression_buffer.length (w.m_write_area.take w.pptr)).ctx,
      m_compression_buffer := store (E.LZ4F_compressUpdate w.m_compression_ctx
        w.m_compression_buffer.length (w.m_write_area.take w.pptr)).out w.m_compression_buffer,
      pptr := 0, epptr := w.m_write_area.length - 1,
      m_sink := w.m_sink ++ [SinkEvent.write (E.LZ4F_compressUpdate w.m_compression_ctx
        w.m_compression_buffer.length (w.m_write_area.take w.pptr)).out
        (E.LZ4F_compressUpdate w.m_compression_ctx
        w.m_compression_buffer.length (w.m_write_area.take w.pptr)).out.length] } := by
  unfold compress_buffer at h
  by_cases he : E.LZ4F_isError (E.LZ4F_compressUpdate w.m_compression_ctx
      w.m_compression_buffer.length (w.m_write_area.take w.pptr)).ret = true
  · simp [he] at h
  · have he1 : E.LZ4F_isError (E.LZ4F_compressUpdate w.m_compression_ctx
      w.m_compression_buffer.length (w.m_write_area.take w.pptr)).ret = false := by
      simpa using he
    have hs := hsz _ _ _ he1
    simp only [he1] at h
    simp only [Bool.false_eq_true, if_false, Prod.mk.injEq, Res.ok.injEq] at h
    refine ⟨he1, ?_⟩
    rw [← h.2, hs.1, take_store]

theorem sputn_spec
    (hsz : ∀ ctx n src, E.LZ4F_isError (E.LZ4F_compressUpdate ctx n src).ret = false →
      (E.LZ4F_compressUpdate ctx n src).ret = (E.LZ4F_compressUpdate ctx n src).out.length ∧
      (E.LZ4F_compressUpdate ctx n src).out.length ≤ n)
    (cap : Nat) (xs : List Byte) :
    ∀ (w w1 : LZ4OStreamBuf E), WInv w cap → w.sputn xs = (Res.ok (), w1) →
      ∃ ps, (E.updates cap w.m_compression_ctx ps).2.2 = true ∧
        (E.updates cap w.m_compression_ctx ps).1 = w1.m_compression_ctx ∧
        sinkBytes w1.m_sink = sinkBytes w.m_sink ++ (E.updates cap w.m_compression_ctx ps).2.1 ∧
        w.staged ++ xs = ps.flatten ++ w1.staged ∧ WInv w1 cap := by
  induction xs with
  | nil =>
    intro w w1 hw h
    simp only [sputn, Prod.mk.injEq, true_and] at h
    subst h
    exact ⟨[], by simp [Engine.updates], by simp [Engine.updates], by simp [Engine.updates],
      by simp, hw⟩
  | cons c cs ih =>
    intro w w1 hw h
    rcases hc : w.sputc c with ⟨r, w2⟩
    cases r with
    | throw e => simp [sputn, hc] at h
    | assertFailed => simp [sputn, hc] at h
    | ok v =>
      have h2 : w2.sputn cs = (Res.ok (), w1) := by simpa [sputn, hc] using h
      unfold sputc at hc
      by_cases hlt : w.pptr < w.epptr
      · simp only [hlt, if_true, Prod.mk.injEq] at hc
        have hw2 : WInv w2 cap := by
          rw [← hc.2]
          have := hw.ep
          exact ⟨by simp [hw.area], hw.cbuf, hw.ep, by simp; omega, hw.pos⟩
        obtain ⟨ps, h1, h3, h4, h5, h6⟩ := ih w2 w1 hw2 h2
        have hst : w2.staged = w.staged ++ [c] := by
          rw [← hc.2]
          have := hw.ep
          have := hw.area
          exact take_succ_set _ _ _ (by omega)
        have hctx : w2.m_compression_ctx = w.m_compression_ctx := by rw [← hc.2]
        have hsink : w2.m_sink = w.m_sink := by rw [← hc.2]
        rw [hctx] at h1 h3 h4
        rw [hsink] at h4
        refine ⟨ps, h1, h3, h4, ?_, h6⟩
        rw [← h5, hst]
        simp
      · simp only [hlt, if_false] at hc
        unfold overflow at hc
        rcases hb : compress_buffer { w with
            m_write_area := w.m_write_area.set w.pptr (to_char_type (to_int_type c)),
            pptr := w.pptr + 1 } with ⟨rb, w3⟩
        simp only [hb] at hc
        cases rb with
        | throw e => simp at hc
        | assertFailed => simp at hc
        | ok vb =>
          simp only [Prod.mk.injEq] at hc
          have hw3 : w3 = w2 := hc.2
          subst hw3
          obtain ⟨he, heq⟩ := compress_buffer_ok _ _ _ hsz hb
          simp only [to_char_type_to_int_type, List.length_set] at he heq
          have hpe : w.pptr = w.epptr := by have := hw.pp; omega
          have hep := hw.ep
          have harea := hw.area
          have hcb := hw.cbuf
          have hpos := hw.pos
          rw [hcb] at he heq
          have hpiece : (w.m_write_area.set w.pptr c).take (w.pptr + 1) = w.staged ++ [c] :=
            take_succ_set _ _ _ (by omega)
          rw [hpiece] at he heq
          have hlen := (hsz w.m_compression_ctx cap (w.staged ++ [c]) he).2
          have hw3 : WInv w3 cap := by
            rw [heq]
            exact ⟨by simp [harea], by rw [length_store _ _ (by omega)]; exact hcb,
              by simp [harea], by simp, hpos⟩
          obtain ⟨ps, h1, h3, h4, h5, h6⟩ := ih w3 w1 hw3 h2
          have hctx : w3.m_compression_ctx =
              (E.LZ4F_compressUpdate w.m_compression_ctx cap (w.staged ++ [c])).ctx := by
            rw [heq]
          have hsink : w3.m_sink = w.m_sink ++ [SinkEvent.write
              (E.LZ4F_compressUpdate w.m_compression_ctx cap (w.staged ++ [c])).out
              (E.LZ4F_compressUpdate w.m_compression_ctx cap (w.staged ++ [c])).out.length] := by
            rw [heq]
          have hst : w3.staged = [] := by
            rw [heq]
            simp [staged]
          rw [hctx] at h1 h3 h4
          rw [hsink] at h4
          rw [hst] at h5
          refine ⟨(w.staged ++ [c]) :: ps, ?_, ?_, ?_, ?_, h6⟩
          · simp [Engine.updates, he, h1]
          · simp [Engine.updates, h3]
          · simp [Engine.updates, h4, sinkBytes_append, sinkBytes]
          · simp only [List.flatten_cons, List.append_assoc]
            simp only [List.nil_append] at h5
            rw [← h5]
            simp

theorem sputn_append (xs ys : List Byte) :
    ∀ w : LZ4OStreamBuf E, w.sputn (xs ++ ys) =
      match w.sputn xs with
      | (Res.ok _, w1) => w1.sputn ys
      | (Res.throw e, w1) => (Res.throw e, w1)
      | (Res.assertFailed, w1) => (Res.assertFailed, w1) := by
  induction xs with
  | nil => intro w; simp [sputn]
  | cons c cs ih =>
    intro w
    simp only [List.cons_append, sputn]
    rcases hc : w.sputc c with ⟨r, w2⟩
    cases r with
    | ok v => exact ih w2
    | throw e => rfl
    | assertFailed => rfl

theorem writeChunks_eq_sputn (chunks : List (List Byte)) :
    ∀ w : LZ4OStreamBuf E, w.writeChunks chunks = w.sputn chunks.flatten := by
  induction chunks with
  | nil => intro w; simp [writeChunks, sputn]
  | cons c cs ih =>
    intro w
    simp only [writeChunks, List.flatten_cons, sputn_append]
    rcases hc : w.sputn c with ⟨r, w2⟩
    cases r with
    | ok v => simp only [ih w2]
    | throw e => rfl
    | assertFailed => rfl

theorem create_ok (E : Engine) (lvl : Int) (w : LZ4OStreamBuf E)
    (hsz : ∀ ctx n q, E.LZ4F_isError (E.LZ4F_compressBegin ctx n q).ret = false →
      (E.LZ4F_compressBegin ctx n q).ret = (E.LZ4F_compressBegin ctx n q).out.length ∧
      (E.LZ4F_compressBegin ctx n q).out.length ≤ n)
    (h : create E [] lvl none = (Res.ok (), some w)) :
    E.LZ4F_isError E.LZ4F_createCompressionContext.1 = false ∧
    E.LZ4F_isError (E.LZ4F_compressBegin E.LZ4F_createCompressionContext.2
      (internal_buffer_size E (DEFAULT_PREFERENCES.withLevel lvl))
      (DEFAULT_PREFERENCES.withLevel lvl)).ret = false ∧
    w.m_compression_ctx = (E.LZ4F_compressBegin E.LZ4F_createCompressionContext.2
      (internal_buffer_size E (DEFAULT_PREFERENCES.withLevel lvl))
      (DEFAULT_PREFERENCES.withLevel lvl)).ctx ∧
    sinkBytes w.m_sink = (E.LZ4F_compressBegin E.LZ4F_createCompressionContext.2
      (internal_buffer_size E (DEFAULT_PREFERENCES.withLevel lvl))
      (DEFAULT_PREFERENCES.withLevel lvl)).out ∧
    w.staged = [] ∧
    WInv w (internal_buffer_size E (DEFAULT_PREFERENCES.withLevel lvl)) := by
  unfold create at h
  by_cases hc : E.LZ4F_isError E.LZ4F_createCompressionContext.1 = true
  · simp [hc] at h
  · have hc1 : E.LZ4F_isError E.LZ4F_createCompressionContext.1 = false := by simpa using hc
    simp only [hc1, Bool.false_eq_true, if_false, Prod.mk.injEq, Option.some.injEq] at h
    obtain ⟨h1, h2⟩ := h
    unfold initialize_stream at h1 h2
    simp only [List.length_replicate] at h1 h2
    by_cases hb : E.LZ4F_isError (E.LZ4F_compressBegin E.LZ4F_createCompressionContext.2
      (internal_buffer_size E (DEFAULT_PREFERENCES.withLevel lvl))
      (DEFAULT_PREFERENCES.withLevel lvl)).ret = true
    · simp [hb] at h1
    · have hb1 : E.LZ4F_isError (E.LZ4F_compressBegin E.LZ4F_createCompressionContext.2
        (internal_buffer_size E (DEFAULT_PREFERENCES.withLevel lvl))
        (DEFAULT_PREFERENCES.withLevel lvl)).ret = false := by simpa using hb
      have hs := hsz _ _ _ hb1
      simp only [hb1, Bool.false_eq_true, if_false] at h2
      have hpos : 0 < internal_buffer_size E (DEFAULT_PREFERENCES.withLevel lvl) := by
        unfold internal_buffer_size
        omega
      refine ⟨hc1, hb1, ?_, ?_, ?_, ?_⟩
      · rw [← h2]
      · rw [← h2]
        simp [sinkBytes, hs.1, take_store]
      · rw [← h2]
        simp [staged]
      · rw [← h2]
        exact ⟨by simp, by
          simp only
          rw [length_store _ _ (by simpa using hs.2)]
          simp, by simp, by simp, hpos⟩

theorem close_ok (w w1 : LZ4OStreamBuf E) (g1 : Statics) (cap : Nat) (hw : WInv w cap)
    (hszu : ∀ ctx n src, E.LZ4F_isError (E.LZ4F_compressUpdate ctx n src).ret = false →
      (E.LZ4F_compressUpdate ctx n src).ret = (E.LZ4F_compressUpdate ctx n src).out.length ∧
      (E.LZ4F_compressUpdate ctx n src).out.length ≤ n)
    (hsze : ∀ ctx n, E.LZ4F_isError (E.LZ4F_compressEnd ctx n).ret = false →
      (E.LZ4F_compressEnd ctx n).ret = (E.LZ4F_compressEnd ctx n).out.length ∧
      (E.LZ4F_compressEnd ctx n).out.length ≤ n)
    (h : close Statics.start w = (Res.ok (), g1, w1)) :
    E.LZ4F_isError (E.LZ4F_compressUpdate w.m_compression_ctx cap w.staged).ret = false ∧
    E.LZ4F_isError (E.LZ4F_compressEnd
      (E.LZ4F_compressUpdate w.m_compression_ctx cap w.staged).ctx cap).ret = false ∧
    sinkBytes w1.m_sink = sinkBytes w.m_sink ++
      (E.LZ4F_compressUpdate w.m_compression_ctx cap w.staged).out ++
      (E.LZ4F_compressEnd (E.LZ4F_compressUpdate w.m_compression_ctx cap w.staged).ctx cap).out := by
  unfold close at h
  simp only [Statics.start, if_true] at h
  rcases hb : w.compress_buffer with ⟨rb, w2⟩
  rw [hb] at h
  cases rb with
  | throw e => simp at h
  | assertFailed => simp at h
  | ok vb =>
    obtain ⟨he, heq⟩ := compress_buffer_ok _ _ _ hszu hb
    have hcb := hw.cbuf
    rw [hcb] at he heq
    have hst : w.m_write_area.take w.pptr = w.staged := rfl
    rw [hst] at he heq
    have hlen := (hszu _ _ _ he).2
    have hcb2 : w2.m_compression_buffer.length = cap := by
      rw [heq]
      simp only
      rw [length_store _ _ (by omega)]
      exact hcb
    have hctx2 : w2.m_compression_ctx =
        (E.LZ4F_compressUpdate w.m_compression_ctx cap w.staged).ctx := by rw [heq]
    have hsink2 : w2.m_sink = w.m_sink ++ [SinkEvent.write
        (E.LZ4F_compressUpdate w.m_compression_ctx cap w.staged).out
        (E.LZ4F_compressUpdate w.m_compression_ctx cap w.staged).out.length] := by rw [heq]
    simp only [hcb2, hctx2] at h
    by_cases hf : E.LZ4F_isError (E.LZ4F_compressEnd
        (E.LZ4F_compressUpdate w.m_compression_ctx cap w.staged).ctx cap).ret = true
    · simp [hf] at h
    · have hf1 : E.LZ4F_isError (E.LZ4F_compressEnd
        (E.LZ4F_compressUpdate w.m_compression_ctx cap w.staged).ctx cap).ret = false := by
        simpa using hf
      have hs := hsze _ _ hf1
      simp only [hf1, Bool.false_eq_true, if_false, Prod.mk.injEq, true_and] at h
      refine ⟨he, hf1, ?_⟩
      rw [← h.2]
      simp [hsink2, sinkBytes_append, sinkBytes, hs.1, take_store]

theorem writeAndClose_frame (E : Engine) (lvl : Int) (chunks : List (List Byte))
    (hE : E.Codec (internal_buffer_size E (DEFAULT_PREFERENCES.withLevel lvl))
      (DEFAULT_PREFERENCES.withLevel lvl))
    (h : (writeAndClose E lvl none chunks).1 = Res.ok ()) :
    ∃ pieces,
      (E.frame (internal_buffer_size E (DEFAULT_PREFERENCES.withLevel lvl))
        (DEFAULT_PREFERENCES.withLevel lvl) pieces).2 = true ∧
      sinkBytes (writeAndClose E lvl none chunks).2 =
        (E.frame (internal_buffer_size E (DEFAULT_PREFERENCES.withLevel lvl))
          (DEFAULT_PREFERENCES.withLevel lvl) pieces).1 ∧
      pieces.flatten = chunks.flatten := by
  unfold writeAndClose at h ⊢
  rcases hcr : create E [] lvl none with ⟨rc, ow⟩
  simp only [hcr] at h ⊢
  cases rc with
  | throw e => simp at h
  | assertFailed => simp at h
  | ok u =>
    cases ow with
    | none =>
      exfalso
      unfold create at hcr
      by_cases hc : E.LZ4F_isError E.LZ4F_createCompressionContext.1 = true
      · simp [hc] at hcr
      · simp [hc] at hcr
    | some w =>
      obtain ⟨h1, h2, h3, h4, h5, h6⟩ := create_ok E lvl w hE.begin_size hcr
      rcases hwr : w.writeChunks chunks with ⟨rw1, w1⟩
      simp only [hwr] at h ⊢
      cases rw1 with
      | throw e => simp at h
      | assertFailed => simp at h
      | ok u1 =>
        rw [writeChunks_eq_sputn] at hwr
        obtain ⟨ps, k1, k2, k3, k4, k5⟩ := sputn_spec hE.update_size _ _ w w1 h6 hwr
        rcases hcl : close Statics.start w1 with ⟨rcl, g1, w2⟩
        simp only [hcl] at h ⊢
        subst h
        obtain ⟨c1, c2, c3⟩ := close_ok w1 w2 g1 _ k5 hE.update_size hE.end_size hcl
        refine ⟨ps ++ [w1.staged], ?_, ?_, ?_⟩
        · simp only [Engine.frame, updates_append, Engine.updates]
          rw [← h3, k2]
          simp [h1, h2, k1, c1, c2]
        · simp only [Engine.frame, updates_append, Engine.updates]
          rw [← h3, k2, c3, k3, h4]
          simp
        · rw [h5] at k4
          simp only [List.nil_append] at k4
          simp [k4]

end LZ4OStreamBuf

/-! ## The reader `LZ4IStreamBuf` -/

theorem Source.sgetn_spec (src : Source) (n : Nat) (hn : 0 < n) :
    (src.sgetn n).1 ++ (src.sgetn n).2.data = src.data ∧ (src.sgetn n).1.length ≤ n ∧
    ((src.sgetn n).1 = [] → src.data = []) := by
  unfold Source.sgetn
  cases hs : src.sched with
  | nil =>
    simp only [List.take_append_drop, List.length_take, true_and]
    refine ⟨by omega, ?_⟩
    intro h
    cases hd : src.data with
    | nil => rfl
    | cons x xs =>
      rw [hd] at h
      obtain ⟨k, hk⟩ : ∃ k, n = k + 1 := ⟨n - 1, by omega⟩
      rw [hk] at h
      simp at h
  | cons m ms =>
    simp only [List.take_append_drop, List.length_take, true_and]
    refine ⟨by omega, ?_⟩
    intro h
    cases hd : src.data with
    | nil => rfl
    | cons x xs =>
      rw [hd] at h
      obtain ⟨k, hk⟩ : ∃ k, min n (max m 1) = k + 1 := ⟨min n (max m 1) - 1, by omega⟩
      rw [hk] at h
      simp at h

namespace LZ4IStreamBuf

variable {E : Engine}

theorem pending_length (s : LZ4IStreamBuf E) (h2 : s.m_src_size ≤ s.m_src_buffer.length) :
    s.pending.length = s.m_src_size - s.m_src_offset := by
  simp [pending]
  omega

theorem refill_of_eq (s : LZ4IStreamBuf E) (he : s.m_src_offset = s.m_src_size) :
    s.refill = { s with
      m_source := (s.m_source.sgetn s.m_src_buffer.length).2,
      m_src_buffer := store (s.m_source.sgetn s.m_src_buffer.length).1 s.m_src_buffer,
      m_src_size := (s.m_source.sgetn s.m_src_buffer.length).1.length, m_src_offset := 0,
      trace := s.trace ++ [DEvent.refill (s.m_source.sgetn s.m_src_buffer.length).1.length] } := by
  unfold refill
  rw [if_pos he]

theorem refill_of_ne (s : LZ4IStreamBuf E) (he : ¬ s.m_src_offset = s.m_src_size) :
    s.refill = s := by
  unfold refill
  rw [if_neg he]

theorem refill_spec (s : LZ4IStreamBuf E) (cs : List Byte) (h : RInv s cs) :
    RInv s.refill cs ∧ s.refill.m_context = s.m_context ∧
    s.refill.m_read_area = s.m_read_area ∧
    (s.refill.m_src_size = 0 → cs = []) ∧
    (s.refill.m_src_size ≠ 0 → s.refill.m_src_offset < s.refill.m_src_size) := by
  by_cases he : s.m_src_offset = s.m_src_size
  · rw [refill_of_eq s he]
    obtain ⟨g1, g2, g3⟩ := Source.sgetn_spec s.m_source s.m_src_buffer.length h.bufpos
    have hp : s.pending = [] := by simp [pending, he]
    have hcs : cs = s.m_source.data := by rw [h.rest, hp]; rfl
    have hlen : (store (s.m_source.sgetn s.m_src_buffer.length).1 s.m_src_buffer).length =
        s.m_src_buffer.length := length_store _ _ g2
    refine ⟨⟨h.nodict, Nat.zero_le _, ?_, ?_, ?_, h.areapos, ?_⟩, rfl, rfl, ?_, ?_⟩
    · show _ ≤ (store _ _).length
      rw [hlen]; exact g2
    · show (store _ _).length < _
      rw [hlen]; exact h.buf
    · show 0 < (store _ _).length
      rw [hlen]; exact h.bufpos
    · show cs = (((store _ _).drop 0).take (_ - 0)) ++ _
      rw [List.drop_zero, Nat.sub_zero, take_store, hcs, g1]
    · intro h0
      rw [hcs]
      exact g3 (List.length_eq_zero.mp h0)
    · intro h0
      exact Nat.pos_of_ne_zero h0
  · rw [refill_of_ne s he]
    have := h.off
    exact ⟨h, rfl, rfl, by omega, by omega⟩

theorem advance_inv (t : LZ4IStreamBuf E) (cs : List Byte) (r : DResult E.DCtx)
    (h : RInv t cs) (hc : r.consumed ≤ t.pending.length) :
    RInv (t.advance r) (cs.drop r.consumed) := by
  have hsz := h.size
  have hbuf := h.buf
  have hoff := h.off
  have hplen := pending_length t hsz
  have hadd : sizeAdd t.m_src_offset r.consumed = t.m_src_offset + r.consumed :=
    sizeAdd_eq _ _ (by omega)
  refine ⟨h.nodict, ?_, hsz, hbuf, h.bufpos, ?_, ?_⟩
  · show sizeAdd t.m_src_offset r.consumed ≤ t.m_src_size
    rw [hadd]; omega
  · show 0 < (store _ _).length
    have := h.areapos
    simp [store]
    omega
  · show _ = ((t.m_src_buffer.drop (sizeAdd t.m_src_offset r.consumed)).take
      (t.m_src_size - sizeAdd t.m_src_offset r.consumed)) ++ t.m_source.data
    rw [hadd, h.rest, List.drop_append_of_le_length hc]
    unfold pending
    rw [List.drop_take, List.drop_drop, Nat.sub_sub]

theorem RInv_congr (s t : LZ4IStreamBuf E) (cs : List Byte) (h : RInv s cs)
    (h1 : t.m_dictionary = s.m_dictionary) (h2 : t.m_src_offset = s.m_src_offset)
    (h3 : t.m_src_size = s.m_src_size) (h4 : t.m_src_buffer = s.m_src_buffer)
    (h5 : t.m_read_area = s.m_read_area) (h6 : t.m_source = s.m_source) : RInv t cs := by
  refine ⟨by rw [h1]; exact h.nodict, by rw [h2, h3]; exact h.off, by rw [h3, h4]; exact h.size,
    by rw [h4]; exact h.buf, by rw [h4]; exact h.bufpos, by rw [h5]; exact h.areapos, ?_⟩
  unfold pending
  rw [h2, h3, h4, h6]
  exact h.rest

theorem callEngine_eq (t : LZ4IStreamBuf E) (cs : List Byte) (h : RInv t cs) :
    t.callEngine = E.LZ4F_decompress t.m_context t.m_read_area.length t.pending := by
  have h1 := h.off
  have h2 := h.size
  have h3 := h.buf
  unfold callEngine dictArgs
  rw [h.nodict, sizeSub_eq _ _ h1 (by omega)]
  rfl

theorem underflow_succ (f : Nat) (s : LZ4IStreamBuf E) :
    underflow (f + 1) s =
      if s.refill.m_src_size = 0 then some (Res.ok eof, s.refill)
      else if E.LZ4F_isError s.refill.callEngine.ret then
        some (Res.throw "Error during LZ4 decompression", s.refill.advance s.refill.callEngine)
      else if s.refill.callEngine.out.length > 0 then
        some (Res.ok (to_int_type ((s.refill.advance s.refill.callEngine).m_read_area.getD 0 0)),
          { s.refill.advance s.refill.callEngine with
            gptr := 0, egptr := s.refill.callEngine.out.length })
      else underflow f (s.refill.advance s.refill.callEngine) := rfl

theorem underflow_spec (R : E.DCtx → List Byte → List Byte → Prop)
    (hR0 : ∀ d bs, R d [] bs → bs = [])
    (hstep : ∀ d cs bs src rest cap, R d cs bs → src ≠ [] → cs = src ++ rest → 0 < cap →
      E.LZ4F_isError (E.LZ4F_decompress d cap src).ret = false ∧
      (E.LZ4F_decompress d cap src).consumed ≤ src.length ∧
      0 < (E.LZ4F_decompress d cap src).consumed + (E.LZ4F_decompress d cap src).out.length ∧
      ∃ bs1, bs = (E.LZ4F_decompress d cap src).out ++ bs1 ∧
        R (E.LZ4F_decompress d cap src).ctx (cs.drop (E.LZ4F_decompress d cap src).consumed) bs1)
    (fuel : Nat) :
    ∀ (s : LZ4IStreamBuf E) (cs bs : List Byte), cs.length < fuel → RInv s cs →
      R s.m_context cs bs →
      (bs = [] ∧ ∃ s1, underflow fuel s = some (Res.ok eof, s1)) ∨
      (∃ s1 out bs1 cs1, out ≠ [] ∧ bs = out ++ bs1 ∧
        underflow fuel s = some (Res.ok (to_int_type (out.headD 0)), s1) ∧
        s1.getArea = out ∧ RInv { s1 with gptr := s1.egptr } cs1 ∧ R s1.m_context cs1 bs1 ∧
        cs1.length ≤ cs.length) := by
  induction fuel with
  | zero => intro s cs bs h; omega
  | succ f ih =>
    intro s cs bs hlt hinv hR
    obtain ⟨r1, r2, r3, r4, r5⟩ := refill_spec s cs hinv
    rw [underflow_succ]
    rw [← r2] at hR
    generalize s.refill = t at r1 r2 r3 r4 r5 hR ⊢
    by_cases h0 : t.m_src_size = 0
    · left
      have hcs := r4 h0
      subst hcs
      exact ⟨hR0 _ _ hR, t, by rw [if_pos h0]⟩
    · rw [if_neg h0]
      have hoff := r5 h0
      have hplen := pending_length t r1.size
      have hpne : t.pending ≠ [] := by
        intro hnil
        rw [hnil] at hplen
        simp at hplen
        omega
      obtain ⟨e1, e2, e3, bs1, e4, e5⟩ :=
        hstep t.m_context cs bs t.pending t.m_source.data t.m_read_area.length
          hR hpne r1.rest r1.areapos
      rw [← callEngine_eq t cs r1] at e1 e2 e3 e4 e5
      generalize t.callEngine = r at e1 e2 e3 e4 e5 ⊢
      have hinv2 := advance_inv t cs r r1 e2
      have hcslen : cs.length ≥ t.pending.length := by
        rw [r1.rest]
        simp
      rw [e1]
      simp only [Bool.false_eq_true, if_false]
      by_cases hout : r.out.length > 0
      · right
        rw [if_pos hout]
        refine ⟨{ t.advance r with gptr := 0, egptr := r.out.length }, r.out, bs1,
          cs.drop r.consumed, ?_, e4, ?_, ?_,
          RInv_congr _ _ _ hinv2 rfl rfl rfl rfl rfl rfl, e5, ?_⟩
        · intro hnil
          rw [hnil] at hout
          simp at hout
        · have hh : (t.advance r).m_read_area.getD 0 0 = r.out.headD 0 := by
            show (store r.out t.m_read_area).getD 0 0 = _
            cases ho : r.out with
            | nil => rw [ho] at hout; simp at hout
            | cons x xs => simp [store]
          rw [hh]
        · show ((store r.out t.m_read_area).take r.out.length).drop 0 = r.out
          rw [take_store, List.drop_zero]
        · simp
      · rw [if_neg hout]
        have hout0 : r.out = [] := by
          apply List.length_eq_zero.mp
          omega
        rw [hout0] at e4 e3
        simp only [List.nil_append] at e4
        simp only [List.length_nil, Nat.add_zero] at e3
        subst e4
        have hlen1 : (cs.drop r.consumed).length < f := by
          simp only [List.length_drop]
          omega
        rcases ih _ _ bs hlen1 hinv2 e5 with ⟨k1, s1, k2⟩ | ⟨s1, out, bs2, cs2, k1, k2, k3, k4, k5, k6, k7⟩
        · left
          exact ⟨k1, s1, k2⟩
        · right
          refine ⟨s1, out, bs2, cs2, k1, k2, k3, k4, k5, k6, ?_⟩
          simp only [List.length_drop] at k7
          omega

theorem readAll_spec (R : E.DCtx → List Byte → List Byte → Prop)
    (hR0 : ∀ d bs, R d [] bs → bs = [])
    (hstep : ∀ d cs bs src rest cap, R d cs bs → src ≠ [] → cs = src ++ rest → 0 < cap →
      E.LZ4F_isError (E.LZ4F_decompress d cap src).ret = false ∧
      (E.LZ4F_decompress d cap src).consumed ≤ src.length ∧
      0 < (E.LZ4F_decompress d cap src).consumed + (E.LZ4F_decompress d cap src).out.length ∧
      ∃ bs1, bs = (E.LZ4F_decompress d cap src).out ++ bs1 ∧
        R (E.LZ4F_decompress d cap src).ctx (cs.drop (E.LZ4F_decompress d cap src).consumed) bs1)
    (fuel : Nat) :
    ∀ (s : LZ4IStreamBuf E) (cs bs : List Byte), cs.length + bs.length < fuel → RInv s cs →
      R s.m_context cs bs → ∃ s1, readAll fuel s = some (bs, Res.ok (), s1) := by
  induction fuel with
  | zero => intro s cs bs h; omega
  | succ f ih =>
    intro s cs bs hlt hinv hR
    rcases underflow_spec R hR0 hstep (f + 1) s cs bs (by omega) hinv hR with
      ⟨k1, s1, k2⟩ | ⟨s1, out, bs1, cs1, k1, k2, k3, k4, k5, k6, k7⟩
    · refine ⟨s1, ?_⟩
      simp only [readAll, k2, if_true, k1]
    · have hlen : cs1.length + bs1.length < f := by
        have : 0 < out.length := List.length_pos.mpr k1
        rw [k2] at hlt
        simp only [List.length_append] at hlt
        omega
      obtain ⟨s2, h2⟩ := ih { s1 with gptr := s1.egptr } cs1 bs1 hlen k5 k6
      refine ⟨s2, ?_⟩
      simp only [readAll, k3, to_int_type_ne_eof, if_false, h2, k4, k2]

theorem readFrom_spec (E : Engine) (c b : List Byte) (sched : List Nat) (n : Nat)
    (hn : 0 < n) (hn2 : n < SIZE_MOD)
    (hd : E.LZ4F_isError E.LZ4F_createDecompressionContext.1 = false)
    (h : E.DecodesTo c b) (fuel : Nat) (hf : c.length + b.length < fuel) :
    readFrom E fuel { data := c, sched := sched } none n = some (b, Res.ok ()) := by
  obtain ⟨R, hR, hR0, hstep⟩ := h
  unfold readFrom create
  simp only [hd, Bool.false_eq_true, if_false]
  have hinv : RInv ({
      m_source := { data := c, sched := sched },
      m_context := E.LZ4F_createDecompressionContext.2, m_dictionary := none,
      m_src_buffer := List.replicate n 0, m_read_area := List.replicate n 0,
      m_src_offset := 0, m_src_size := 0, gptr := 0, egptr := 0, trace := [] } :
      LZ4IStreamBuf E) c :=
    ⟨rfl, Nat.le_refl _, Nat.zero_le _, by simpa using hn2, by simpa using hn,
      by simpa using hn, by simp [pending]⟩
  obtain ⟨s1, h1⟩ := readAll_spec R hR0 hstep fuel _ c b hf hinv hR
  simp only [h1]

end LZ4IStreamBuf

/-! ## The small codec meets the contract -/

theorem isErrorCode_generic : isErrorCode ERROR_GENERIC = true := by decide

theorem isErrorCode_tooSmall : isErrorCode ERROR_dstMaxSize_tooSmall = true := by decide

theorem escBytes_append (k : Byte) (xs ys : List Byte) :
    escBytes k (xs ++ ys) = escBytes k xs ++ escBytes k ys := by
  induction xs with
  | nil => rfl
  | cons x xs ih => simp [escBytes, ih]

theorem esc_updates (cap : Nat) (k : Byte) (pieces : List (List Byte)) :
    (escEngine.updates cap { stage := 1, key := k } pieces).2.2 = true →
    (escEngine.updates cap { stage := 1, key := k } pieces).1 = { stage := 1, key := k } ∧
    (escEngine.updates cap { stage := 1, key := k } pieces).2.1 = escBytes k pieces.flatten := by
  induction pieces with
  | nil => intro _; exact ⟨rfl, rfl⟩
  | cons p ps ih =>
    intro h
    have hu : escEngine.LZ4F_compressUpdate { stage := 1, key := k } cap p =
        escUpdate { stage := 1, key := k } cap p := rfl
    simp only [Engine.updates, hu] at h ⊢
    unfold escUpdate at h ⊢
    by_cases hc : cap < (escBytes k p).length
    · simp [hc, escEngine, isErrorCode_tooSmall] at h
    · simp only [hc, if_false, ne_eq, not_true_eq_false] at h ⊢
      simp only [Bool.and_eq_true] at h
      obtain ⟨i1, i2⟩ := ih h.2
      rw [i1, i2]
      simp [escBytes_append]

theorem escRel_done (d : EscDCtx) (bs : List Byte) (h : escRel d [] bs) : bs = [] := by
  cases d with
  | hdr =>
    rcases h with ⟨_, h2⟩ | h
    · exact h2
    · simp at h
  | data =>
    unfold escRel at h
    simp at h
  | esc =>
    rcases h with ⟨h1, _⟩ | ⟨bs1, _, h2⟩
    · simp at h1
    · simp at h2

theorem escRel_step (d : EscDCtx) (cs bs src rest : List Byte) (cap : Nat)
    (hR : escRel d cs bs) (hsrc : src ≠ []) (hcs : cs = src ++ rest) (hcap : 0 < cap) :
    isErrorCode (escDecompress 0 d cap src).ret = false ∧
    (escDecompress 0 d cap src).consumed ≤ src.length ∧
    0 < (escDecompress 0 d cap src).consumed + (escDecompress 0 d cap src).out.length ∧
    ∃ bs1, bs = (escDecompress 0 d cap src).out ++ bs1 ∧
      escRel (escDecompress 0 d cap src).ctx (cs.drop (escDecompress 0 d cap src).consumed) bs1 := by
  cases src with
  | nil => exact absurd rfl hsrc
  | cons x xs =>
    have hcap0 : ¬ cap = 0 := by omega
    subst hcs
    cases d with
    | hdr =>
      rcases hR with ⟨h1, _⟩ | h
      · simp at h1
      · simp only [List.cons_append, List.cons.injEq] at h
        obtain ⟨hx, ht⟩ := h
        subst hx
        refine ⟨by simp [escDecompress]; decide, by simp [escDecompress],
          by simp [escDecompress], bs, by simp [escDecompress], ?_⟩
        simp only [escDecompress, if_true, List.cons_append, List.drop_succ_cons, List.drop_zero]
        exact ht
    | data =>
      unfold escRel at hR
      cases bs with
      | nil =>
        simp only [escBytes, List.nil_append, List.cons_append, List.cons.injEq] at hR
        obtain ⟨hx, ht⟩ := hR
        subst hx
        refine ⟨by simp [escDecompress]; decide, by simp [escDecompress],
          by simp [escDecompress], [], by simp [escDecompress], ?_⟩
        simp only [escDecompress, if_true, List.cons_append, List.drop_succ_cons, List.drop_zero]
        exact Or.inl ⟨ht, rfl⟩
      | cons y ys =>
        simp only [escBytes, add_zero, escByte] at hR
        by_cases hy : y = 255
        · simp only [hy, if_true, List.cons_append, List.nil_append, List.cons.injEq] at hR
          obtain ⟨hx, ht⟩ := hR
          subst hx
          refine ⟨by simp [escDecompress]; decide, by simp [escDecompress],
            by simp [escDecompress], y :: ys, by simp [escDecompress], ?_⟩
          simp only [escDecompress, if_true, List.cons_append, List.drop_succ_cons, List.drop_zero]
          exact Or.inr ⟨ys, by rw [hy], ht⟩
        · simp only [hy, if_false, List.cons_append, List.nil_append, List.cons.injEq] at hR
          obtain ⟨hx, ht⟩ := hR
          subst hx
          refine ⟨by simp [escDecompress, hy, hcap0]; decide, by simp [escDecompress, hy, hcap0],
            by simp [escDecompress, hy, hcap0], ys, by simp [escDecompress, hy, hcap0], ?_⟩
          simp only [escDecompress, hy, hcap0, if_false, List.cons_append, List.drop_succ_cons,
            List.drop_zero]
          exact ht
    | esc =>
      rcases hR with ⟨h1, h2⟩ | ⟨bs1, h1, h2⟩
      · simp only [List.cons_append, List.cons.injEq] at h1
        obtain ⟨hx, ht⟩ := h1
        subst hx
        subst h2
        refine ⟨by simp [escDecompress]; decide, by simp [escDecompress],
          by simp [escDecompress], [], by simp [escDecompress], ?_⟩
        simp only [escDecompress, if_true, List.cons_append, List.drop_succ_cons, List.drop_zero]
        exact Or.inl ⟨ht, rfl⟩
      · simp only [List.cons_append, List.cons.injEq] at h2
        obtain ⟨hx, ht⟩ := h2
        subst hx
        subst h1
        have h10 : ¬ (1 : Byte) = 0 := by decide
        refine ⟨by simp [escDecompress, h10, hcap0]; decide, by simp [escDecompress, h10, hcap0],
          by simp [escDecompress, h10, hcap0], bs1, by simp [escDecompress, h10, hcap0], ?_⟩
        simp only [escDecompress, h10, hcap0, if_false, if_true, List.cons_append,
          List.drop_succ_cons, List.drop_zero]
        exact ht

theorem escEngine_decodes (b : List Byte) :
    escEngine.DecodesTo (76 :: (escBytes 0 b ++ [255, 0])) b :=
  ⟨escRel, Or.inr rfl, escRel_done, escRel_step⟩

theorem escEngine_codec (cap : Nat) (p : Preferences) : escEngine.Codec cap p where
  begin_size := by
    intro ctx n q h
    have hb : escEngine.LZ4F_compressBegin ctx n q = escBegin 0 n := rfl
    have he : escEngine.LZ4F_isError = isErrorCode := rfl
    rw [hb, he] at h
    rw [hb]
    unfold escBegin at h ⊢
    by_cases hn : n < 1
    · simp [hn, isErrorCode_tooSmall] at h
    · simp only [hn, if_false]
      exact ⟨rfl, by simp; omega⟩
  update_size := by
    intro ctx n src h
    have hb : escEngine.LZ4F_compressUpdate ctx n src = escUpdate ctx n src := rfl
    have he : escEngine.LZ4F_isError = isErrorCode := rfl
    rw [hb, he] at h
    rw [hb]
    unfold escUpdate at h ⊢
    by_cases hs : ctx.stage ≠ 1
    · simp [hs, isErrorCode_generic] at h
    · by_cases hn : n < (escBytes ctx.key src).length
      · simp [hs, hn, isErrorCode_tooSmall] at h
      · simp only [hs, hn, if_false]
        exact ⟨trivial, by omega⟩
  end_size := by
    intro ctx n h
    have hb : escEngine.LZ4F_compressEnd ctx n = escEnd ctx n := rfl
    have he : escEngine.LZ4F_isError = isErrorCode := rfl
    rw [hb, he] at h
    rw [hb]
    unfold escEnd at h ⊢
    by_cases hs : ctx.stage ≠ 1
    · simp [hs, isErrorCode_generic] at h
    · by_cases hn : n < 2
      · simp [hs, hn, isErrorCode_tooSmall] at h
      · simp only [hs, hn, if_false]
        exact ⟨rfl, by simp; omega⟩
  dctx_ok := by decide
  inverts := by
    intro pieces h
    have hf : escEngine.frame cap p pieces =
        ((escBegin 0 cap).out ++ (escEngine.updates cap (escBegin 0 cap).ctx pieces).2.1 ++
          (escEnd (escEngine.updates cap (escBegin 0 cap).ctx pieces).1 cap).out,
         !isErrorCode 0 && !isErrorCode (escBegin 0 cap).ret &&
          (escEngine.updates cap (escBegin 0 cap).ctx pieces).2.2 &&
          !isErrorCode (escEnd (escEngine.updates cap (escBegin 0 cap).ctx pieces).1 cap).ret) := rfl
    rw [hf] at h ⊢
    simp only [Bool.and_eq_true, Bool.not_eq_true'] at h
    obtain ⟨⟨⟨_, h2⟩, h3⟩, h4⟩ := h
    have hb : escBegin 0 cap = { ctx := { stage := 1, key := 0 }, ret := 1, out := [76] } := by
      unfold escBegin at h2 ⊢
      by_cases hn : cap < 1
      · simp [hn, isErrorCode_tooSmall] at h2
      · simp only [hn, if_false]
    rw [hb] at h3 h4 ⊢
    obtain ⟨u1, u2⟩ := esc_updates cap 0 pieces h3
    simp only [u1, u2] at h4 ⊢
    have hend : (escEnd { stage := 1, key := 0 } cap).out = [255, 0] := by
      unfold escEnd at h4 ⊢
      by_cases hn : cap < 2
      · simp [hn, isErrorCode_tooSmall] at h4
      · simp [hn]
    rw [hend]
    exact escEngine_decodes pieces.flatten

/-! ## Round trip -/

theorem writeAndClose_chunks (E : Engine) (lvl : Int) (chunks : List (List Byte)) :
    LZ4OStreamBuf.writeAndClose E lvl none chunks =
      LZ4OStreamBuf.writeAndClose E lvl none [chunks.flatten] := by
  unfold LZ4OStreamBuf.writeAndClose
  simp only [LZ4OStreamBuf.writeChunks_eq_sputn, List.flatten_cons, List.flatten_nil,
    List.append_nil]

/-- Round trip of a run the writer completes: for every byte sequence `b`,
writing `b` through a freshly constructed `LZ4OStreamBuf` (program start, empty
sink, one `sputn` call) and closing it, then reading the bytes that reached the
sink through a freshly constructed `LZ4IStreamBuf` until end-of-stream, delivers
exactly `b` and ends with a normal end-of-stream, for every engine that meets
the codec contract (its decoder inverts its encoder on header, blocks, footer),
provided the writer run reported no error; any fuel above the number of
compressed plus original bytes is enough for the reading to finish. -/
theorem roundtrip_of_completed_write (E : Engine) (lvl : Int) (b : List Byte) (n : Nat)
    (hn : 0 < n) (hn2 : n < SIZE_MOD)
    (hE : E.Codec (LZ4OStreamBuf.internal_buffer_size E (DEFAULT_PREFERENCES.withLevel lvl))
      (DEFAULT_PREFERENCES.withLevel lvl))
    (hrun : (LZ4OStreamBuf.writeAndClose E lvl none [b]).1 = Res.ok ())
    (fuel : Nat)
    (hfuel : (sinkBytes (LZ4OStreamBuf.writeAndClose E lvl none [b]).2).length + b.length < fuel) :
    LZ4IStreamBuf.readFrom E fuel
      { data := sinkBytes (LZ4OStreamBuf.writeAndClose E lvl none [b]).2, sched := [] } none n =
      some (b, Res.ok ()) := by
  obtain ⟨pieces, h1, h2, h3⟩ := LZ4OStreamBuf.writeAndClose_frame E lvl [b] hE hrun
  have hb : pieces.flatten = b := by simpa using h3
  have hdec := hE.inverts pieces h1
  rw [← h2, hb] at hdec
  exact LZ4IStreamBuf.readFrom_spec E _ b [] n hn hn2 hE.dctx_ok hdec fuel hfuel

/-- Chunking of a run the writer completes: for every byte sequence given as a
list of chunks (one `sputn` call per chunk) and every schedule of how many bytes
the source returns per read (at least one while bytes remain), the reader
delivers exactly the concatenation of the chunks, in order, for every engine
that meets the codec contract, provided the writer run reported no error. -/
theorem chunking_of_completed_write (E : Engine) (lvl : Int) (chunks : List (List Byte))
    (sched : List Nat) (n : Nat) (hn : 0 < n) (hn2 : n < SIZE_MOD)
    (hE : E.Codec (LZ4OStreamBuf.internal_buffer_size E (DEFAULT_PREFERENCES.withLevel lvl))
      (DEFAULT_PREFERENCES.withLevel lvl))
    (hrun : (LZ4OStreamBuf.writeAndClose E lvl none chunks).1 = Res.ok ())
    (fuel : Nat)
    (hfuel : (sinkBytes (LZ4OStreamBuf.writeAndClose E lvl none chunks).2).length +
      chunks.flatten.length < fuel) :
    LZ4IStreamBuf.readFrom E fuel
      { data := sinkBytes (LZ4OStreamBuf.writeAndClose E lvl none chunks).2, sched := sched }
      none n = some (chunks.flatten, Res.ok ()) := by
  obtain ⟨pieces, h1, h2, h3⟩ := LZ4OStreamBuf.writeAndClose_frame E lvl chunks hE hrun
  have hdec := hE.inverts pieces h1
  rw [← h2, h3] at hdec
  exact LZ4IStreamBuf.readFrom_spec E _ _ sched n hn hn2 hE.dctx_ok hdec fuel hfuel

set_option maxRecDepth 100000 in
/-- Runs the writer completes, with the small codec: the empty sequence, a
single byte, and 25 bytes (one full staging buffer flushed by `overflow`, the
rest by `close`) come back as written. -/
theorem roundtrip_of_completed_write_examples :
    LZ4IStreamBuf.readFrom escEngine 10
      { data := sinkBytes (LZ4OStreamBuf.writeAndClose escEngine 0 none [[]]).2, sched := [] }
      none 4 = some ([], Res.ok ()) ∧
    LZ4IStreamBuf.readFrom escEngine 10
      { data := sinkBytes (LZ4OStreamBuf.writeAndClose escEngine 0 none [[255]]).2, sched := [] }
      none 4 = some ([255], Res.ok ()) ∧
    LZ4IStreamBuf.readFrom escEngine 100
      { data := sinkBytes (LZ4OStreamBuf.writeAndClose escEngine 0 none
          [[1, 2, 3, 4, 5, 6, 7, 8, 9, 10, 11, 12, 13, 14, 15, 16, 17, 18, 19, 20, 21, 22, 23,
            24, 25]]).2, sched := [] }
      none 4 = some ([1, 2, 3, 4, 5, 6, 7, 8, 9, 10, 11, 12, 13, 14, 15, 16, 17, 18, 19, 20,
        21, 22, 23, 24, 25], Res.ok ()) :=
  ⟨roundtrip_of_completed_write escEngine 0 [] 4 (by decide) (by decide) (escEngine_codec _ _)
      (by decide) 10 (by decide),
   roundtrip_of_completed_write escEngine 0 [255] 4 (by decide) (by decide) (escEngine_codec _ _)
      (by decide) 10 (by decide),
   roundtrip_of_completed_write escEngine 0 _ 4 (by decide) (by decide) (escEngine_codec _ _)
      (by decide) 100 (by decide)⟩

set_option maxRecDepth 100000 in
/-- A run the writer completes, with the small codec: 25 bytes written in chunks
of 3, 7, 0 and 15 bytes, read back through a source that returns 1, 2, 3, 1, 1
bytes and then all it is asked for, into 4-byte buffers. -/
theorem chunking_of_completed_write_example :
    LZ4IStreamBuf.readFrom escEngine 100
      { data := sinkBytes (LZ4OStreamBuf.writeAndClose escEngine 0 none
          [[1, 2, 3], [4, 5, 6, 7, 8, 9, 10], [],
            [11, 12, 13, 14, 15, 16, 17, 18, 19, 20, 21, 22, 23, 24, 25]]).2,
        sched := [1, 2, 3, 1, 1] }
      none 4 = some ([[1, 2, 3], [4, 5, 6, 7, 8, 9, 10], [],
          [11, 12, 13, 14, 15, 16, 17, 18, 19, 20, 21, 22, 23, 24, 25]].flatten, Res.ok ()) :=
  chunking_of_completed_write escEngine 0 _ [1, 2, 3, 1, 1] 4 (by decide) (by decide)
    (escEngine_codec _ _) (by decide) 100 (by decide)

set_option maxRecDepth 100000 in
/-- C1 (evaluation at the failing input): the round trip holds for every run the
writer completes (first part), but the writer does not complete every run.  The
small codec meets the codec contract; its `LZ4OStreamBuf` has buffers of 20
bytes, and writing 20 bytes `0xFF` (40 bytes on the wire) and closing throws the
writing error from `overflow`, the sink holds the header only, and reading it
back delivers nothing instead of the 20 bytes.  With the sizes of lz4frame
(buffers of 262152 bytes) the destination is too small for the 32768th full
staging buffer in a row: the engine then holds 8 * 32767 bytes and checks the
destination against 524300.  And a writer constructed after another writer of
the program was closed, given the bytes 1 2 and closed, reports success but has
sent only its header: reading delivers nothing. -/
theorem roundtrip_fails_when_writer_drops_bytes :
    (∀ (E : Engine) (lvl : Int) (b : List Byte) (n fuel : Nat), 0 < n → n < SIZE_MOD →
      E.Codec (LZ4OStreamBuf.internal_buffer_size E (DEFAULT_PREFERENCES.withLevel lvl))
        (DEFAULT_PREFERENCES.withLevel lvl) →
      (LZ4OStreamBuf.writeAndClose E lvl none [b]).1 = Res.ok () →
      (sinkBytes (LZ4OStreamBuf.writeAndClose E lvl none [b]).2).length + b.length < fuel →
      LZ4IStreamBuf.readFrom E fuel
        { data := sinkBytes (LZ4OStreamBuf.writeAndClose E lvl none [b]).2, sched := [] }
        none n = some (b, Res.ok ())) ∧
    escEngine.Codec (LZ4OStreamBuf.internal_buffer_size escEngine (DEFAULT_PREFERENCES.withLevel 0))
      (DEFAULT_PREFERENCES.withLevel 0) ∧
    LZ4OStreamBuf.writeAndClose escEngine 0 none [List.replicate 20 255] =
      (Res.throw "Error during LZ4 stream writing", [SinkEvent.write [76] 1]) ∧
    LZ4IStreamBuf.readFrom escEngine 10
      { data := sinkBytes (LZ4OStreamBuf.writeAndClose escEngine 0 none
          [List.replicate 20 255]).2, sched := [] } none 4 = some ([], Res.ok ()) ∧
    LZ4OStreamBuf.internal_buffer_size lz4BoundEngine (DEFAULT_PREFERENCES.withLevel 0) = 262152 ∧
    LZ4F_compressBound_internal 262152 (DEFAULT_PREFERENCES.withLevel 0) (8 * 32766) = 262152 ∧
    LZ4F_compressBound_internal 262152 (DEFAULT_PREFERENCES.withLevel 0) (8 * 32767) = 524300 ∧
    LZ4OStreamBuf.runFrom escEngine { is_open := false } 0 [[1, 2]] =
      (Res.ok (), { is_open := false }, [SinkEvent.write [76] 1]) ∧
    LZ4IStreamBuf.readFrom escEngine 10
      { data := sinkBytes (LZ4OStreamBuf.runFrom escEngine { is_open := false } 0
          [[1, 2]]).2.2, sched := [] } none 4 = some ([], Res.ok ()) := by
  refine ⟨?_, escEngine_codec _ _, by decide, by decide, by decide, by decide, by decide,
    by decide, by decide⟩
  intro E lvl b n fuel hn hn2 hE hrun hfuel
  exact roundtrip_of_completed_write E lvl b n hn hn2 hE hrun fuel hfuel

set_option maxRecDepth 100000 in
/-- C2 (evaluation at the failing input): however the bytes are split into
`sputn` calls, the writer does what one call with all the bytes does (first
part), and for every run the writer completes the reader delivers all the bytes
in order, however the source splits its reads (second part).  But the writer
does not complete every run: with the small codec (buffers of 20 bytes), 40
bytes of which the last 20 are `0xFF`, written in one call or in calls of 7 and
33 bytes, pass the first staging-buffer boundary (20 bytes reach the sink) and
are stopped at the second, where `overflow` throws the writing error; the 20
staged bytes never reach the sink, and the reader, its source returning 3, then
4 bytes, then all it is asked for, delivers the first 20 bytes and a normal
end-of-stream. -/
theorem bytes_lost_at_staging_buffer_boundary :
    (∀ (E : Engine) (lvl : Int) (chunks : List (List Byte)),
      LZ4OStreamBuf.writeAndClose E lvl none chunks =
        LZ4OStreamBuf.writeAndClose E lvl none [chunks.flatten]) ∧
    (∀ (E : Engine) (lvl : Int) (chunks : List (List Byte)) (sched : List Nat) (n fuel : Nat),
      0 < n → n < SIZE_MOD →
      E.Codec (LZ4OStreamBuf.internal_buffer_size E (DEFAULT_PREFERENCES.withLevel lvl))
        (DEFAULT_PREFERENCES.withLevel lvl) →
      (LZ4OStreamBuf.writeAndClose E lvl none chunks).1 = Res.ok () →
      (sinkBytes (LZ4OStreamBuf.writeAndClose E lvl none chunks).2).length +
        chunks.flatten.length < fuel →
      LZ4IStreamBuf.readFrom E fuel
        { data := sinkBytes (LZ4OStreamBuf.writeAndClose E lvl none chunks).2, sched := sched }
        none n = some (chunks.flatten, Res.ok ())) ∧
    LZ4OStreamBuf.writeAndClose escEngine 0 none
        [[1, 2, 3, 4, 5, 6, 7, 8, 9, 10, 11, 12, 13, 14, 15, 16, 17, 18, 19, 20] ++
          List.replicate 20 255] =
      (Res.throw "Error during LZ4 stream writing",
        [SinkEvent.write [76] 1,
         SinkEvent.write [1, 2, 3, 4, 5, 6, 7, 8, 9, 10, 11, 12, 13, 14, 15, 16, 17, 18, 19, 20]
           20]) ∧
    LZ4OStreamBuf.writeAndClose escEngine 0 none
        [[1, 2, 3, 4, 5, 6, 7],
         [8, 9, 10, 11, 12, 13, 14, 15, 16, 17, 18, 19, 20] ++ List.replicate 20 255] =
      (Res.throw "Error during LZ4 stream writing",
        [SinkEvent.write [76] 1,
         SinkEvent.write [1, 2, 3, 4, 5, 6, 7, 8, 9, 10, 11, 12, 13, 14, 15, 16, 17, 18, 19, 20]
           20]) ∧
    LZ4IStreamBuf.readFrom escEngine 100
      { data := sinkBytes (LZ4OStreamBuf.writeAndClose escEngine 0 none
          [[1, 2, 3, 4, 5, 6, 7],
           [8, 9, 10, 11, 12, 13, 14, 15, 16, 17, 18, 19, 20] ++ List.replicate 20 255]).2,
        sched := [3, 4] } none 4 =
      some ([1, 2, 3, 4, 5, 6, 7, 8, 9, 10, 11, 12, 13, 14, 15, 16, 17, 18, 19, 20],
        Res.ok ()) := by
  refine ⟨writeAndClose_chunks, ?_, by decide, by decide, by decide⟩
  intro E lvl chunks sched n fuel hn hn2 hE hrun hfuel
  exact chunking_of_completed_write E lvl chunks sched n hn hn2 hE hrun fuel hfuel

/-! ## Closing -/

theorem LZ4OutputBuffer.close_idempotent {E : Engine} (w w1 : LZ4OutputBuffer E)
    (h : w.close = (Res.ok (), w1)) : w1.closed_ = true ∧ w1.close = (Res.ok (), w1) := by
  have hc : w1.closed_ = true := by
    unfold LZ4OutputBuffer.close at h
    by_cases hcl : w.closed_ = true
    · simp only [hcl, if_true, Prod.mk.injEq, true_and] at h
      rw [← h]; exact hcl
    · simp only [hcl, Bool.false_eq_true, if_false] at h
      rcases hs : w.sync with ⟨r, w2⟩
      rw [hs] at h
      cases r with
      | throw e => simp at h
      | assertFailed => simp at h
      | ok v =>
        simp only at h
        rcases hf : w2.writeFooter with ⟨r2, w3⟩
        rw [hf] at h
        cases r2 with
        | throw e => simp at h
        | assertFailed => simp at h
        | ok v2 =>
          simp only [Prod.mk.injEq, true_and] at h
          rw [← h]
  refine ⟨hc, ?_⟩
  unfold LZ4OutputBuffer.close
  simp [hc]

set_option maxRecDepth 100000 in
/-- C3 (evaluation at the failing input): `LZ4OStreamBuf::close` of any instance
does nothing once the program-wide static `is_open` is false, and a successful
`close` leaves it false.  With the small codec: the first writer of a program,
given the bytes 1 2, sends header, data, a sync and the footer; a second writer,
given the bytes 3 4 5 and closed, has sent only its header: its staged bytes are
not flushed and its footer is written zero times. -/
theorem close_of_later_instance_writes_no_footer :
    (∀ (E : Engine) (w : LZ4OStreamBuf E),
      LZ4OStreamBuf.close { is_open := false } w = (Res.ok (), { is_open := false }, w)) ∧
    (∀ (E : Engine) (g g1 : Statics) (w w1 : LZ4OStreamBuf E), g.is_open = true →
      LZ4OStreamBuf.close g w = (Res.ok (), g1, w1) → g1.is_open = false) ∧
    LZ4OStreamBuf.runFrom escEngine Statics.start 0 [[1, 2]] =
      (Res.ok (), { is_open := false },
        [SinkEvent.write [76] 1, SinkEvent.write [1, 2] 2, SinkEvent.sync,
          SinkEvent.write [255, 0] 2]) ∧
    LZ4OStreamBuf.runFrom escEngine { is_open := false } 0 [[3, 4, 5]] =
      (Res.ok (), { is_open := false }, [SinkEvent.write [76] 1]) := by
  refine ⟨?_, ?_, by decide, by decide⟩
  · intro E w
    simp [LZ4OStreamBuf.close]
  · intro E g g1 w w1 hg h
    unfold LZ4OStreamBuf.close at h
    simp only [hg, if_true] at h
    rcases hb : w.compress_buffer with ⟨rb, w2⟩
    rw [hb] at h
    cases rb with
    | throw e => simp at h
    | assertFailed => simp at h
    | ok v =>
      simp only at h
      by_cases hf : E.LZ4F_isError (E.LZ4F_compressEnd w2.m_compression_ctx
          w2.m_compression_buffer.length).ret = true
      · simp [hf] at h
      · simp only [hf, Bool.false_eq_true, if_false, Prod.mk.injEq, true_and] at h
        rw [← h.1]

set_option maxRecDepth 100000 in
/-- C5 (evaluation at the failing input): after `close ( )` a `LZ4OStreamBuf`
still accepts `sputc` (it returns the character, the byte is staged) and `sync`
still hands the staged byte to the engine: the small codec refuses the call
because its stage is over, so `sync` throws the writing error, not a
closed-stream error; an engine that does not look at its stage gets the byte
compressed and sent to the sink after the footer.  A `LZ4OutputBuffer` built
with `NDEBUG` does the same on its freed context; built without, `sync` stops
at `assert ( !closed_ )`. -/
theorem write_after_close_is_not_rejected :
    LZ4OStreamBuf.writeAfterClose escEngine 7 =
      some { closed := Res.ok (), put := Res.ok 7,
             synced := Res.throw "Error during LZ4 stream writing", count := 1,
             sinkAtClose := [SinkEvent.write [76] 1, SinkEvent.write [] 0, SinkEvent.sync,
               SinkEvent.write [255, 0] 2],
             sinkAtEnd := [SinkEvent.write [76] 1, SinkEvent.write [] 0, SinkEvent.sync,
               SinkEvent.write [255, 0] 2] } ∧
    LZ4OStreamBuf.writeAfterClose laxEngine 7 =
      some { closed := Res.ok (), put := Res.ok 7, synced := Res.ok 0, count := 1,
             sinkAtClose := [SinkEvent.write [76] 1, SinkEvent.write [] 0, SinkEvent.sync,
               SinkEvent.write [255, 0] 2],
             sinkAtEnd := [SinkEvent.write [76] 1, SinkEvent.write [] 0, SinkEvent.sync,
               SinkEvent.write [255, 0] 2, SinkEvent.write [7] 1, SinkEvent.sync] } ∧
    LZ4OutputBuffer.writeAfterClose laxEngine true 7 =
      some { closed := Res.ok (), put := Res.ok 7, synced := Res.ok 0, count := 1,
             sinkAtClose := [SinkEvent.write [76] 1, SinkEvent.write [] 0,
               SinkEvent.write [255, 0] 2],
             sinkAtEnd := [SinkEvent.write [76] 1, SinkEvent.write [] 0,
               SinkEvent.write [255, 0] 2, SinkEvent.write [7] 1] } ∧
    LZ4OutputBuffer.writeAfterClose laxEngine false 7 =
      some { closed := Res.ok (), put := Res.ok 7, synced := Res.assertFailed, count := 1,
             sinkAtClose := [SinkEvent.write [76] 1, SinkEvent.write [] 0,
               SinkEvent.write [255, 0] 2],
             sinkAtEnd := [SinkEvent.write [76] 1, SinkEvent.write [] 0,
               SinkEvent.write [255, 0] 2] } := by
  refine ⟨by decide, by decide, by decide, by decide⟩

/-! ## One call of `underflow` -/

theorem offsetAfter_append (o : Nat) (pre evs : List DEvent) :
    offsetAfter o (pre ++ evs) = offsetAfter (offsetAfter o pre) evs := by
  induction pre generalizing o with
  | nil => rfl
  | cons e pre ih =>
    cases e with
    | refill g => simp [offsetAfter, ih]
    | decompress a b c d r => simp [offsetAfter, ih]

theorem UnderflowSpec_prepend (isErr : Nat → Bool) (o : Nat) (pre evs : List DEvent)
    (res : Res Int) (area : List Byte) (o1 : Nat)
    (hpre : ∀ ev ∈ pre, DEvent.silent isErr ev)
    (h : UnderflowSpec isErr (offsetAfter o pre) evs res area o1) :
    UnderflowSpec isErr o (pre ++ evs) res area o1 := by
  obtain ⟨h0, h1, h2, h3, h4, h5, h6⟩ := h
  have hl : (pre ++ evs).getLast? = evs.getLast? := List.getLast?_append_of_ne_nil _ h0
  have hd : (pre ++ evs).dropLast = pre ++ evs.dropLast := List.dropLast_append_of_ne_nil _ h0
  refine ⟨by simp [h0], ?_, ?_, ?_, ?_, ?_, h6⟩
  · intro ev hev
    rw [hd, List.mem_append] at hev
    rcases hev with hev | hev
    · exact hpre ev hev
    · exact h1 ev hev
  · rw [hl]; exact h2
  · rw [offsetAfter_append]; exact h3
  · rw [hl, offsetAfter_append]; exact h4
  · rw [hl]; exact h5

theorem Placed_append (o n : Nat) (pre evs : List DEvent) (h1 : Placed o n pre)
    (h2 : Placed (offsetAfter o pre) (sizeAfter n pre) evs) : Placed o n (pre ++ evs) := by
  induction pre generalizing o n with
  | nil => exact h2
  | cons e pre ih =>
    cases e with
    | refill g => exact ⟨h1.1, ih 0 g h1.2 h2⟩
    | decompress a f c out r => exact ⟨h1.1, h1.2.1, h1.2.2.1, ih _ _ h1.2.2.2 h2⟩

theorem sizeAfter_snoc (n : Nat) (pre : List DEvent) (a f c : Nat) (out : List Byte)
    (r : Nat) : sizeAfter n (pre ++ [DEvent.decompress a f c out r]) = sizeAfter n pre := by
  induction pre generalizing n with
  | nil => rfl
  | cons e pre ih =>
    cases e with
    | refill g => exact ih g
    | decompress a1 f1 c1 out1 r1 => exact ih n

theorem UnderflowSpec_eof (isErr : Nat → Bool) (o : Nat) (area : List Byte) :
    UnderflowSpec isErr o [DEvent.refill 0] (Res.ok eof) area 0 := by
  refine ⟨by simp, by simp, by simp, fun _ => rfl, ?_, ?_, by simp⟩
  · intro c hc hne
    simp only [Res.ok.injEq] at hc
    exact absurd hc.symm hne
  · intro e he
    simp at he

theorem UnderflowSpec_throw (isErr : Nat → Bool) (o a b c r o1 : Nat) (out area : List Byte)
    (e : String) (hr : isErr r = true) :
    UnderflowSpec isErr o [DEvent.decompress a b c out r] (Res.throw e) area o1 := by
  refine ⟨by simp, by simp, by simp, by simp, by simp, ?_, by simp⟩
  intro e1 _
  exact ⟨a, b, c, out, r, rfl, hr⟩

theorem UnderflowSpec_char (isErr : Nat → Bool) (o a b c r : Nat) (out : List Byte)
    (hr : isErr r = false) (hout : out ≠ []) :
    UnderflowSpec isErr o [DEvent.decompress a b c out r] (Res.ok (to_int_type (out.headD 0)))
      out (sizeAdd o c) := by
  refine ⟨by simp, by simp, ?_, ?_, ?_, by simp, by simp⟩
  · simp [to_int_type_ne_eof]
  · intro h
    simp only [Res.ok.injEq] at h
    exact absurd h (to_int_type_ne_eof _)
  · intro c1 hc _
    simp only [Res.ok.injEq] at hc
    exact ⟨a, b, c, out, r, rfl, hout, hr, rfl, hc.symm, rfl⟩

namespace LZ4IStreamBuf

variable {E : Engine}

theorem refill_trace (s : LZ4IStreamBuf E) (h0 : s.m_src_size = 0 → s.m_src_offset = 0) :
    ∃ pre, s.refill.trace = s.trace ++ pre ∧
      (∀ ev ∈ pre, DEvent.silent E.LZ4F_isError ev) ∧
      offsetAfter s.m_src_offset pre = s.refill.m_src_offset ∧
      (s.refill.m_src_size = 0 → pre = [DEvent.refill 0] ∧ s.refill.m_src_offset = 0) := by
  by_cases he : s.m_src_offset = s.m_src_size
  · rw [refill_of_eq s he]
    refine ⟨[DEvent.refill (s.m_source.sgetn s.m_src_buffer.length).1.length], rfl, ?_, rfl, ?_⟩
    · intro ev hev
      simp only [List.mem_singleton] at hev
      subst hev
      trivial
    · intro hz
      have hz1 : (s.m_source.sgetn s.m_src_buffer.length).1.length = 0 := hz
      rw [hz1]
      exact ⟨rfl, rfl⟩
  · rw [refill_of_ne s he]
    refine ⟨[], by simp, by simp, rfl, ?_⟩
    intro hz
    exact absurd ((h0 hz).trans hz.symm) he

theorem underflow_trace (fuel : Nat) :
    ∀ (s s1 : LZ4IStreamBuf E) (res : Res Int), (s.m_src_size = 0 → s.m_src_offset = 0) →
      underflow fuel s = some (res, s1) →
      ∃ evs, s1.trace = s.trace ++ evs ∧
        UnderflowSpec E.LZ4F_isError s.m_src_offset evs res s1.getArea s1.m_src_offset ∧
        (s1.m_src_size = 0 → s1.m_src_offset = 0) := by
  induction fuel with
  | zero => intro s s1 res _ h; simp [underflow] at h
  | succ f ih =>
    intro s s1 res h0 h
    obtain ⟨pre, p1, p2, p3, p4⟩ := refill_trace s h0
    rw [underflow_succ] at h
    generalize s.refill = t at p1 p3 p4 h
    by_cases hz : t.m_src_size = 0
    · rw [if_pos hz] at h
      simp only [Option.some.injEq, Prod.mk.injEq] at h
      obtain ⟨h1, h2⟩ := h
      subst h1 h2
      obtain ⟨q1, q2⟩ := p4 hz
      refine ⟨pre, p1, ?_, fun _ => q2⟩
      rw [q1, q2]
      exact UnderflowSpec_eof _ _ _
    · rw [if_neg hz] at h
      generalize hr : t.callEngine = r at h
      by_cases herr : E.LZ4F_isError r.ret = true
      · rw [if_pos herr] at h
        simp only [Option.some.injEq, Prod.mk.injEq] at h
        obtain ⟨h1, h2⟩ := h
        subst h1 h2
        refine ⟨pre ++ [DEvent.decompress t.m_src_offset
          (sizeSub t.m_src_size t.m_src_offset) r.consumed r.out r.ret], ?_, ?_, ?_⟩
        · show t.trace ++ _ = _
          rw [p1, List.append_assoc]
        · apply UnderflowSpec_prepend _ _ _ _ _ _ _ p2
          exact UnderflowSpec_throw _ _ _ _ _ _ _ _ _ _ herr
        · intro hs
          exact absurd hs hz
      · rw [if_neg herr] at h
        have herr1 : E.LZ4F_isError r.ret = false := by simpa using herr
        by_cases hout : r.out.length > 0
        · rw [if_pos hout] at h
          simp only [Option.some.injEq, Prod.mk.injEq] at h
          obtain ⟨h1, h2⟩ := h
          subst h1 h2
          have hne : r.out ≠ [] := by
            intro hnil
            rw [hnil] at hout
            simp at hout
          have hh : (t.advance r).m_read_area.getD 0 0 = r.out.headD 0 := by
            show (store r.out t.m_read_area).getD 0 0 = _
            cases ho : r.out with
            | nil => exact absurd ho hne
            | cons x xs => simp [store]
          have ha : ({ t.advance r with gptr := 0, egptr := r.out.length } :
              LZ4IStreamBuf E).getArea = r.out := by
            show ((store r.out t.m_read_area).take r.out.length).drop 0 = r.out
            rw [take_store, List.drop_zero]
          refine ⟨pre ++ [DEvent.decompress t.m_src_offset
            (sizeSub t.m_src_size t.m_src_offset) r.consumed r.out r.ret], ?_, ?_, ?_⟩
          · show t.trace ++ _ = _
            rw [p1, List.append_assoc]
          · apply UnderflowSpec_prepend _ _ _ _ _ _ _ p2
            rw [hh, ha, p3]
            exact UnderflowSpec_char _ _ _ _ _ _ _ herr1 hne
          · intro hs
            exact absurd hs hz
        · rw [if_neg hout] at h
          have hout0 : r.out = [] := by
            apply List.length_eq_zero.mp
            omega
          obtain ⟨evs, e1, e2, e3⟩ := ih (t.advance r) s1 res (fun hs => absurd hs hz) h
          refine ⟨(pre ++ [DEvent.decompress t.m_src_offset
            (sizeSub t.m_src_size t.m_src_offset) r.consumed r.out r.ret]) ++ evs, ?_, ?_, e3⟩
          · rw [e1]
            show t.trace ++ _ ++ evs = _
            rw [p1]
            simp
          · apply UnderflowSpec_prepend
            · intro ev hev
              rw [List.mem_append] at hev
              rcases hev with hev | hev
              · exact p2 ev hev
              · simp only [List.mem_singleton] at hev
                subst hev
                exact ⟨hout0, herr1⟩
            · rw [offsetAfter_append, p3]
              exact e2

theorem refill_placed (s : LZ4IStreamBuf E) :
    ∃ pre, s.refill.trace = s.trace ++ pre ∧ Placed s.m_src_offset s.m_src_size pre ∧
      offsetAfter s.m_src_offset pre = s.refill.m_src_offset ∧
      sizeAfter s.m_src_size pre = s.refill.m_src_size ∧
      (s.refill.m_src_size ≠ 0 → s.refill.m_src_offset ≠ s.refill.m_src_size) := by
  by_cases he : s.m_src_offset = s.m_src_size
  · rw [refill_of_eq s he]
    refine ⟨[DEvent.refill (s.m_source.sgetn s.m_src_buffer.length).1.length], rfl,
      ⟨he, trivial⟩, rfl, rfl, ?_⟩
    intro h0 h1
    exact h0 h1.symm
  · rw [refill_of_ne s he]
    exact ⟨[], by simp, trivial, rfl, rfl, fun _ => he⟩

theorem underflow_placed (fuel : Nat) :
    ∀ (s s1 : LZ4IStreamBuf E) (res : Res Int), underflow fuel s = some (res, s1) →
      ∃ evs, s1.trace = s.trace ++ evs ∧ Placed s.m_src_offset s.m_src_size evs := by
  induction fuel with
  | zero => intro s s1 res h; simp [underflow] at h
  | succ f ih =>
    intro s s1 res h
    obtain ⟨pre, p1, p2, p3, p4, p5⟩ := refill_placed s
    rw [underflow_succ] at h
    generalize s.refill = t at p1 p3 p4 p5 h
    by_cases hz : t.m_src_size = 0
    · rw [if_pos hz] at h
      simp only [Option.some.injEq, Prod.mk.injEq] at h
      rw [← h.2]
      exact ⟨pre, p1, p2⟩
    · rw [if_neg hz] at h
      have hne := p5 hz
      generalize hr : t.callEngine = r at h
      have hone : Placed (offsetAfter s.m_src_offset pre) (sizeAfter s.m_src_size pre)
          [DEvent.decompress t.m_src_offset (sizeSub t.m_src_size t.m_src_offset)
            r.consumed r.out r.ret] := by
        rw [p3, p4]
        exact ⟨hne, rfl, rfl, trivial⟩
      have hpl := Placed_append _ _ _ _ p2 hone
      have htr : (t.advance r).trace = s.trace ++ (pre ++ [DEvent.decompress t.m_src_offset
          (sizeSub t.m_src_size t.m_src_offset) r.consumed r.out r.ret]) := by
        show t.trace ++ _ = _
        rw [p1, List.append_assoc]
      by_cases herr : E.LZ4F_isError r.ret = true
      · rw [if_pos herr] at h
        simp only [Option.some.injEq, Prod.mk.injEq] at h
        rw [← h.2]
        exact ⟨_, htr, hpl⟩
      · rw [if_neg herr] at h
        by_cases hout : r.out.length > 0
        · rw [if_pos hout] at h
          simp only [Option.some.injEq, Prod.mk.injEq] at h
          rw [← h.2]
          exact ⟨_, htr, hpl⟩
        · rw [if_neg hout] at h
          obtain ⟨evs, e1, e2⟩ := ih (t.advance r) s1 res h
          refine ⟨(pre ++ [DEvent.decompress t.m_src_offset
            (sizeSub t.m_src_size t.m_src_offset) r.consumed r.out r.ret]) ++ evs, ?_, ?_⟩
          · rw [e1, htr, List.append_assoc]
          · apply Placed_append _ _ _ _ hpl
            rw [offsetAfter_append, p3]
            have hs : sizeAfter s.m_src_size (pre ++ [DEvent.decompress t.m_src_offset
                (sizeSub t.m_src_size t.m_src_offset) r.consumed r.out r.ret]) =
                t.m_src_size := by
              rw [sizeAfter_snoc]
              exact p4
            rw [hs]
            exact e2

end LZ4IStreamBuf

namespace LZ4InputBuffer

variable {E : Engine}

theorem input_refill_of_eq (s : LZ4InputBuffer E) (he : s.offset_ = s.src_buf_size_) :
    s.refill = { s with
      source_ := (s.source_.sgetn s.src_buf_.length).2,
      src_buf_ := store (s.source_.sgetn s.src_buf_.length).1 s.src_buf_,
      src_buf_size_ := (s.source_.sgetn s.src_buf_.length).1.length, offset_ := 0,
      trace := s.trace ++ [DEvent.refill (s.source_.sgetn s.src_buf_.length).1.length] } := by
  unfold refill
  rw [if_pos he]

theorem input_refill_of_ne (s : LZ4InputBuffer E) (he : ¬ s.offset_ = s.src_buf_size_) :
    s.refill = s := by
  unfold refill
  rw [if_neg he]

theorem input_underflow_succ (f : Nat) (s : LZ4InputBuffer E) :
    underflow (f + 1) s =
      if s.refill.src_buf_size_ = 0 then some (Res.ok eof, s.refill)
      else if E.LZ4F_isError s.refill.callEngine.ret then
        some (Res.throw ("LZ4 decompression failed: " ++
          E.LZ4F_getErrorName s.refill.callEngine.ret), s.refill.written s.refill.callEngine)
      else if s.refill.callEngine.out.length = 0 then
        underflow f { s.refill.written s.refill.callEngine with
          offset_ := sizeAdd s.refill.offset_ s.refill.callEngine.consumed }
      else
        some (Res.ok (to_int_type ((s.refill.written s.refill.callEngine).dest_buf_.getD 0 0)),
          { s.refill.written s.refill.callEngine with
            offset_ := sizeAdd s.refill.offset_ s.refill.callEngine.consumed,
            getBuf := true, gptr := 0, egptr := s.refill.callEngine.out.length }) := rfl

theorem input_refill_trace (s : LZ4InputBuffer E) (h0 : s.src_buf_size_ = 0 → s.offset_ = 0) :
    ∃ pre, s.refill.trace = s.trace ++ pre ∧
      (∀ ev ∈ pre, DEvent.silent E.LZ4F_isError ev) ∧
      offsetAfter s.offset_ pre = s.refill.offset_ ∧
      (s.refill.src_buf_size_ = 0 → pre = [DEvent.refill 0] ∧ s.refill.offset_ = 0) := by
  by_cases he : s.offset_ = s.src_buf_size_
  · rw [input_refill_of_eq s he]
    refine ⟨[DEvent.refill (s.source_.sgetn s.src_buf_.length).1.length], rfl, ?_, rfl, ?_⟩
    · intro ev hev
      simp only [List.mem_singleton] at hev
      subst hev
      trivial
    · intro hz
      have hz1 : (s.source_.sgetn s.src_buf_.length).1.length = 0 := hz
      rw [hz1]
      exact ⟨rfl, rfl⟩
  · rw [input_refill_of_ne s he]
    refine ⟨[], by simp, by simp, rfl, ?_⟩
    intro hz
    exact absurd ((h0 hz).trans hz.symm) he

theorem input_underflow_trace (fuel : Nat) :
    ∀ (s s1 : LZ4InputBuffer E) (res : Res Int), (s.src_buf_size_ = 0 → s.offset_ = 0) →
      underflow fuel s = some (res, s1) →
      ∃ evs, s1.trace = s.trace ++ evs ∧
        UnderflowSpec E.LZ4F_isError s.offset_ evs res s1.getArea s1.offset_ ∧
        (s1.src_buf_size_ = 0 → s1.offset_ = 0) := by
  induction fuel with
  | zero => intro s s1 res _ h; simp [underflow] at h
  | succ f ih =>
    intro s s1 res h0 h
    obtain ⟨pre, p1, p2, p3, p4⟩ := input_refill_trace s h0
    rw [input_underflow_succ] at h
    generalize s.refill = t at p1 p3 p4 h
    by_cases hz : t.src_buf_size_ = 0
    · rw [if_pos hz] at h
      simp only [Option.some.injEq, Prod.mk.injEq] at h
      obtain ⟨h1, h2⟩ := h
      subst h1 h2
      obtain ⟨q1, q2⟩ := p4 hz
      refine ⟨pre, p1, ?_, fun _ => q2⟩
      rw [q1, q2]
      exact UnderflowSpec_eof _ _ _
    · rw [if_neg hz] at h
      generalize hr : t.callEngine = r at h
      by_cases herr : E.LZ4F_isError r.ret = true
      · rw [if_pos herr] at h
        simp only [Option.some.injEq, Prod.mk.injEq] at h
        obtain ⟨h1, h2⟩ := h
        subst h1 h2
        refine ⟨pre ++ [DEvent.decompress t.offset_
          (sizeSub t.src_buf_size_ t.offset_) r.consumed r.out r.ret], ?_, ?_, ?_⟩
        · show t.trace ++ _ = _
          rw [p1, List.append_assoc]
        · apply UnderflowSpec_prepend _ _ _ _ _ _ _ p2
          exact UnderflowSpec_throw _ _ _ _ _ _ _ _ _ _ herr
        · intro hs
          exact absurd hs hz
      · rw [if_neg herr] at h
        have herr1 : E.LZ4F_isError r.ret = false := by simpa using herr
        by_cases hout : r.out.length = 0
        · rw [if_pos hout] at h
          have hout0 : r.out = [] := List.length_eq_zero.mp hout
          obtain ⟨evs, e1, e2, e3⟩ := ih
            { t.written r with offset_ := sizeAdd t.offset_ r.consumed } s1 res
            (fun hs => absurd hs hz) h
          refine ⟨(pre ++ [DEvent.decompress t.offset_
            (sizeSub t.src_buf_size_ t.offset_) r.consumed r.out r.ret]) ++ evs, ?_, ?_, e3⟩
          · rw [e1]
            show t.trace ++ _ ++ evs = _
            rw [p1]
            simp
          · apply UnderflowSpec_prepend
            · intro ev hev
              rw [List.mem_append] at hev
              rcases hev with hev | hev
              · exact p2 ev hev
              · simp only [List.mem_singleton] at hev
                subst hev
                exact ⟨hout0, herr1⟩
            · rw [offsetAfter_append, p3]
              exact e2
        · rw [if_neg hout] at h
          simp only [Option.some.injEq, Prod.mk.injEq] at h
          obtain ⟨h1, h2⟩ := h
          subst h1 h2
          have hne : r.out ≠ [] := by
            intro hnil
            rw [hnil] at hout
            simp at hout
          have hh : (t.written r).dest_buf_.getD 0 0 = r.out.headD 0 := by
            show (store r.out t.dest_buf_).getD 0 0 = _
            cases ho : r.out with
            | nil => exact absurd ho hne
            | cons x xs => simp [store]
          have ha : ({ t.written r with
              offset_ := sizeAdd t.offset_ r.consumed,
              getBuf := true, gptr := 0, egptr := r.out.length } :
              LZ4InputBuffer E).getArea = r.out := by
            show ((store r.out t.dest_buf_).take r.out.length).drop 0 = r.out
            rw [take_store, List.drop_zero]
          refine ⟨pre ++ [DEvent.decompress t.offset_
            (sizeSub t.src_buf_size_ t.offset_) r.consumed r.out r.ret], ?_, ?_, ?_⟩
          · show t.trace ++ _ = _
            rw [p1, List.append_assoc]
          · apply UnderflowSpec_prepend _ _ _ _ _ _ _ p2
            rw [hh, ha, p3]
            exact UnderflowSpec_char _ _ _ _ _ _ _ herr1 hne
          · intro hs
            exact absurd hs hz

theorem input_refill_placed (s : LZ4InputBuffer E) :
    ∃ pre, s.refill.trace = s.trace ++ pre ∧ Placed s.offset_ s.src_buf_size_ pre ∧
      offsetAfter s.offset_ pre = s.refill.offset_ ∧
      sizeAfter s.src_buf_size_ pre = s.refill.src_buf_size_ ∧
      (s.refill.src_buf_size_ ≠ 0 → s.refill.offset_ ≠ s.refill.src_buf_size_) := by
  by_cases he : s.offset_ = s.src_buf_size_
  · rw [input_refill_of_eq s he]
    refine ⟨[DEvent.refill (s.source_.sgetn s.src_buf_.length).1.length], rfl,
      ⟨he, trivial⟩, rfl, rfl, ?_⟩
    intro h0 h1
    exact h0 h1.symm
  · rw [input_refill_of_ne s he]
    exact ⟨[], by simp, trivial, rfl, rfl, fun _ => he⟩

theorem input_underflow_placed (fuel : Nat) :
    ∀ (s s1 : LZ4InputBuffer E) (res : Res Int), underflow fuel s = some (res, s1) →
      ∃ evs, s1.trace = s.trace ++ evs ∧ Placed s.offset_ s.src_buf_size_ evs := by
  induction fuel with
  | zero => intro s s1 res h; simp [underflow] at h
  | succ f ih =>
    intro s s1 res h
    obtain ⟨pre, p1, p2, p3, p4, p5⟩ := input_refill_placed s
    rw [input_underflow_succ] at h
    generalize s.refill = t at p1 p3 p4 p5 h
    by_cases hz : t.src_buf_size_ = 0
    · rw [if_pos hz] at h
      simp only [Option.some.injEq, Prod.mk.injEq] at h
      rw [← h.2]
      exact ⟨pre, p1, p2⟩
    · rw [if_neg hz] at h
      have hne := p5 hz
      generalize hr : t.callEngine = r at h
      have hone : Placed (offsetAfter s.offset_ pre) (sizeAfter s.src_buf_size_ pre)
          [DEvent.decompress t.offset_ (sizeSub t.src_buf_size_ t.offset_)
            r.consumed r.out r.ret] := by
        rw [p3, p4]
        exact ⟨hne, rfl, rfl, trivial⟩
      have hpl := Placed_append _ _ _ _ p2 hone
      have htr : (t.written r).trace = s.trace ++ (pre ++ [DEvent.decompress t.offset_
          (sizeSub t.src_buf_size_ t.offset_) r.consumed r.out r.ret]) := by
        show t.trace ++ _ = _
        rw [p1, List.append_assoc]
      by_cases herr : E.LZ4F_isError r.ret = true
      · rw [if_pos herr] at h
        simp only [Option.some.injEq, Prod.mk.injEq] at h
        rw [← h.2]
        exact ⟨_, htr, hpl⟩
      · rw [if_neg herr] at h
        by_cases hout : r.out.length = 0
        · rw [if_pos hout] at h
          obtain ⟨evs, e1, e2⟩ := ih
            { t.written r with offset_ := sizeAdd t.offset_ r.consumed } s1 res h
          refine ⟨(pre ++ [DEvent.decompress t.offset_
            (sizeSub t.src_buf_size_ t.offset_) r.consumed r.out r.ret]) ++ evs, ?_, ?_⟩
          · rw [e1]
            show (t.written r).trace ++ evs = _
            rw [htr, List.append_assoc]
          · apply Placed_append _ _ _ _ hpl
            rw [offsetAfter_append, p3]
            have hs : sizeAfter s.src_buf_size_ (pre ++ [DEvent.decompress t.offset_
                (sizeSub t.src_buf_size_ t.offset_) r.consumed r.out r.ret]) =
                t.src_buf_size_ := by
              rw [sizeAfter_snoc]
              exact p4
            rw [hs]
            exact e2
        · rw [if_neg hout] at h
          simp only [Option.some.injEq, Prod.mk.injEq] at h
          rw [← h.2]
          exact ⟨_, htr, hpl⟩

end LZ4InputBuffer

theorem Source.sgetn_length (src : Source) (n : Nat) :
    (src.sgetn n).1.length ≤ n ∧
    (src.sgetn n).1.length + (src.sgetn n).2.data.length = src.data.length := by
  unfold Source.sgetn
  cases hs : src.sched with
  | nil =>
    simp only [List.length_take, List.length_drop]
    omega
  | cons m ms =>
    simp only [List.length_take, List.length_drop]
    omega

namespace LZ4IStreamBuf

variable {E : Engine}

theorem refill_WF (s : LZ4IStreamBuf E) (h : s.WF) :
    s.refill.WF ∧
    (s.refill.m_src_size - s.refill.m_src_offset) + s.refill.m_source.data.length =
      (s.m_src_size - s.m_src_offset) + s.m_source.data.length ∧
    (s.refill.m_src_size ≠ 0 → s.refill.m_src_offset < s.refill.m_src_size) := by
  by_cases he : s.m_src_offset = s.m_src_size
  · rw [refill_of_eq s he]
    obtain ⟨g1, g2⟩ := Source.sgetn_length s.m_source s.m_src_buffer.length
    have hlen : (store (s.m_source.sgetn s.m_src_buffer.length).1 s.m_src_buffer).length =
        s.m_src_buffer.length := length_store _ _ g1
    refine ⟨⟨Nat.zero_le _, ?_, ?_, h.areapos⟩, ?_, ?_⟩
    · show _ ≤ (store _ _).length
      rw [hlen]; exact g1
    · show (store _ _).length < _
      rw [hlen]; exact h.buf
    · show (s.m_source.sgetn s.m_src_buffer.length).1.length - 0 +
        (s.m_source.sgetn s.m_src_buffer.length).2.data.length = _
      rw [he]
      omega
    · intro h0
      exact Nat.pos_of_ne_zero h0
  · rw [refill_of_ne s he]
    have := h.off
    exact ⟨h, rfl, by omega⟩

theorem underflow_returns (hE : E.DecoderProgress) (fuel : Nat) :
    ∀ s : LZ4IStreamBuf E, s.WF →
      (s.m_src_size - s.m_src_offset) + s.m_source.data.length < fuel →
      ∃ res s1, underflow fuel s = some (res, s1) := by
  induction fuel with
  | zero => intro s _ h; omega
  | succ f ih =>
    intro s hs hlt
    obtain ⟨w1, w2, w3⟩ := refill_WF s hs
    rw [underflow_succ]
    rw [← w2] at hlt
    generalize s.refill = t at w1 w2 w3 hlt
    by_cases hz : t.m_src_size = 0
    · exact ⟨_, _, by rw [if_pos hz]⟩
    · rw [if_neg hz]
      have hoff := w3 hz
      have hsz := w1.size
      have hbuf := w1.buf
      have hsub : sizeSub t.m_src_size t.m_src_offset = t.m_src_size - t.m_src_offset :=
        sizeSub_eq _ _ (by omega) (by omega)
      have hplen : ((t.m_src_buffer.drop t.m_src_offset).take
          (sizeSub t.m_src_size t.m_src_offset)).length = t.m_src_size - t.m_src_offset := by
        rw [hsub]
        simp
        omega
      have hpne : (t.m_src_buffer.drop t.m_src_offset).take
          (sizeSub t.m_src_size t.m_src_offset) ≠ [] := by
        intro hnil
        rw [hnil] at hplen
        simp at hplen
        omega
      have hprog : E.LZ4F_isError t.callEngine.ret = true ∨
          (t.callEngine.consumed ≤ t.m_src_size - t.m_src_offset ∧
            0 < t.callEngine.consumed + t.callEngine.out.length) := by
        unfold callEngine
        cases hd : t.dictArgs with
        | none =>
          simp only
          rw [← hplen]
          exact hE.1 _ _ _ hpne w1.areapos
        | some d =>
          simp only
          rw [← hplen]
          exact hE.2 _ _ _ _ _ hpne w1.areapos
      generalize t.callEngine = r at hprog
      by_cases herr : E.LZ4F_isError r.ret = true
      · exact ⟨_, _, by rw [if_pos herr]⟩
      · rw [if_neg herr]
        by_cases hout : r.out.length > 0
        · exact ⟨_, _, by rw [if_pos hout]⟩
        · rw [if_neg hout]
          rcases hprog with hp | ⟨hp1, hp2⟩
          · exact absurd hp herr
          · have hout0 : r.out = [] := by
              apply List.length_eq_zero.mp
              omega
            have hadd : sizeAdd t.m_src_offset r.consumed = t.m_src_offset + r.consumed :=
              sizeAdd_eq _ _ (by omega)
            apply ih
            · refine ⟨?_, hsz, hbuf, ?_⟩
              · show sizeAdd t.m_src_offset r.consumed ≤ t.m_src_size
                rw [hadd]; omega
              · show 0 < (store r.out t.m_read_area).length
                rw [hout0]
                simpa [store] using w1.areapos
            · show t.m_src_size - sizeAdd t.m_src_offset r.consumed + t.m_source.data.length < f
              rw [hadd]
              omega

end LZ4IStreamBuf

namespace LZ4InputBuffer

variable {E : Engine}

theorem input_refill_WF (s : LZ4InputBuffer E) (h : s.WF) :
    s.refill.WF ∧
    (s.refill.src_buf_size_ - s.refill.offset_) + s.refill.source_.data.length =
      (s.src_buf_size_ - s.offset_) + s.source_.data.length ∧
    (s.refill.src_buf_size_ ≠ 0 → s.refill.offset_ < s.refill.src_buf_size_) := by
  by_cases he : s.offset_ = s.src_buf_size_
  · rw [input_refill_of_eq s he]
    obtain ⟨g1, g2⟩ := Source.sgetn_length s.source_ s.src_buf_.length
    have hlen : (store (s.source_.sgetn s.src_buf_.length).1 s.src_buf_).length =
        s.src_buf_.length := length_store _ _ g1
    refine ⟨⟨Nat.zero_le _, ?_, ?_, h.areapos⟩, ?_, ?_⟩
    · show _ ≤ (store _ _).length
      rw [hlen]; exact g1
    · show (store _ _).length < _
      rw [hlen]; exact h.buf
    · show (s.source_.sgetn s.src_buf_.length).1.length - 0 +
        (s.source_.sgetn s.src_buf_.length).2.data.length = _
      rw [he]
      omega
    · intro h0
      exact Nat.pos_of_ne_zero h0
  · rw [input_refill_of_ne s he]
    have := h.off
    exact ⟨h, rfl, by omega⟩

theorem input_underflow_returns (hE : E.DecoderProgress) (fuel : Nat) :
    ∀ s : LZ4InputBuffer E, s.WF →
      (s.src_buf_size_ - s.offset_) + s.source_.data.length < fuel →
      ∃ res s1, underflow fuel s = some (res, s1) := by
  induction fuel with
  | zero => intro s _ h; omega
  | succ f ih =>
    intro s hs hlt
    obtain ⟨w1, w2, w3⟩ := input_refill_WF s hs
    rw [input_underflow_succ]
    rw [← w2] at hlt
    generalize s.refill = t at w1 w2 w3 hlt
    by_cases hz : t.src_buf_size_ = 0
    · exact ⟨_, _, by rw [if_pos hz]⟩
    · rw [if_neg hz]
      have hoff := w3 hz
      have hsz := w1.size
      have hbuf := w1.buf
      have hsub : sizeSub t.src_buf_size_ t.offset_ = t.src_buf_size_ - t.offset_ :=
        sizeSub_eq _ _ (by omega) (by omega)
      have hplen : ((t.src_buf_.drop t.offset_).take
          (sizeSub t.src_buf_size_ t.offset_)).length = t.src_buf_size_ - t.offset_ := by
        rw [hsub]
        simp
        omega
      have hpne : (t.src_buf_.drop t.offset_).take
          (sizeSub t.src_buf_size_ t.offset_) ≠ [] := by
        intro hnil
        rw [hnil] at hplen
        simp at hplen
        omega
      have hprog : E.LZ4F_isError t.callEngine.ret = true ∨
          (t.callEngine.consumed ≤ t.src_buf_size_ - t.offset_ ∧
            0 < t.callEngine.consumed + t.callEngine.out.length) := by
        unfold callEngine
        simp only
        rw [← hplen]
        exact hE.1 _ _ _ hpne w1.areapos
      generalize t.callEngine = r at hprog
      by_cases herr : E.LZ4F_isError r.ret = true
      · exact ⟨_, _, by rw [if_pos herr]⟩
      · rw [if_neg herr]
        by_cases hout : r.out.length = 0
        · rw [if_pos hout]
          rcases hprog with hp | ⟨hp1, hp2⟩
          · exact absurd hp herr
          · have hout0 : r.out = [] := List.length_eq_zero.mp hout
            have hadd : sizeAdd t.offset_ r.consumed = t.offset_ + r.consumed :=
              sizeAdd_eq _ _ (by omega)
            apply ih
            · refine ⟨?_, hsz, hbuf, ?_⟩
              · show sizeAdd t.offset_ r.consumed ≤ t.src_buf_size_
                rw [hadd]; omega
              · show 0 < (store r.out t.dest_buf_).length
                rw [hout0]
                simpa [store] using w1.areapos
            · show t.src_buf_size_ - sizeAdd t.offset_ r.consumed + t.source_.data.length < f
              rw [hadd]
              omega
        · exact ⟨_, _, by rw [if_neg hout]⟩

end LZ4InputBuffer

/-! ### The iterations are engine calls and source reads -/

namespace LZ4IStreamBuf

variable {E : Engine}

theorem refill_iterates (dec : E.DCtx → Nat → List Byte → DResult E.DCtx)
    (s : LZ4IStreamBuf E) :
    s.refill.m_dictionary = s.m_dictionary ∧
    (s.refill.m_src_size ≠ 0 → s.refill.m_src_offset ≠ s.refill.m_src_size) ∧
    ∃ pre, s.refill.trace = s.trace ++ pre ∧
      ∀ evs v1, Iterates dec s.refill.view evs v1 → Iterates dec s.view (pre ++ evs) v1 := by
  by_cases he : s.m_src_offset = s.m_src_size
  · rw [refill_of_eq s he]
    refine ⟨rfl, ?_, [DEvent.refill (s.m_source.sgetn s.m_src_buffer.length).1.length], rfl, ?_⟩
    · intro h0 h1
      exact h0 h1.symm
    · intro evs v1 h
      exact ⟨he, rfl, h⟩
  · rw [refill_of_ne s he]
    exact ⟨rfl, fun _ => he, [], by simp, fun evs v1 h => h⟩

theorem step_iterates (dec : E.DCtx → Nat → List Byte → DResult E.DCtx) (t : LZ4IStreamBuf E)
    (hdec : t.callEngine = dec t.m_context t.m_read_area.length
      ((t.m_src_buffer.drop t.m_src_offset).take (sizeSub t.m_src_size t.m_src_offset)))
    (hne : t.m_src_offset ≠ t.m_src_size) (evs : List DEvent) (v1 : ReaderView E.DCtx)
    (h : Iterates dec (t.advance t.callEngine).view evs v1) :
    Iterates dec t.view (DEvent.decompress t.m_src_offset
      (sizeSub t.m_src_size t.m_src_offset) t.callEngine.consumed t.callEngine.out
      t.callEngine.ret :: evs) v1 := by
  refine ⟨hne, rfl, rfl, congrArg DResult.consumed hdec, congrArg DResult.out hdec,
    congrArg DResult.ret hdec, ?_⟩
  rw [hdec] at h
  exact h

theorem underflow_iterates (dec : E.DCtx → Nat → List Byte → DResult E.DCtx)
    (dict : Option (LZ4Dictionary E))
    (hdec : ∀ t : LZ4IStreamBuf E, t.m_dictionary = dict →
      t.callEngine = dec t.m_context t.m_read_area.length
        ((t.m_src_buffer.drop t.m_src_offset).take (sizeSub t.m_src_size t.m_src_offset)))
    (fuel : Nat) :
    ∀ (s s1 : LZ4IStreamBuf E) (res : Res Int), s.m_dictionary = dict →
      underflow fuel s = some (res, s1) →
      ∃ evs, s1.trace = s.trace ++ evs ∧ Iterates dec s.view evs s1.view := by
  induction fuel with
  | zero => intro s s1 res _ h; simp [underflow] at h
  | succ f ih =>
    intro s s1 res hd h
    obtain ⟨r1, r2, pre, p1, p2⟩ := refill_iterates dec s
    rw [underflow_succ] at h
    have hdt : s.refill.m_dictionary = dict := r1.trans hd
    generalize s.refill = t at r2 p1 p2 h hdt
    by_cases hz : t.m_src_size = 0
    · rw [if_pos hz] at h
      simp only [Option.some.injEq, Prod.mk.injEq] at h
      rw [← h.2]
      refine ⟨pre, p1, ?_⟩
      have h3 := p2 [] t.view rfl
      rw [List.append_nil] at h3
      exact h3
    · rw [if_neg hz] at h
      have hstep := step_iterates dec t (hdec t hdt) (r2 hz)
      have htr : (t.advance t.callEngine).trace = s.trace ++ (pre ++ [DEvent.decompress
          t.m_src_offset (sizeSub t.m_src_size t.m_src_offset) t.callEngine.consumed
          t.callEngine.out t.callEngine.ret]) := by
        show t.trace ++ _ = _
        rw [p1, List.append_assoc]
      by_cases herr : E.LZ4F_isError t.callEngine.ret = true
      · rw [if_pos herr] at h
        simp only [Option.some.injEq, Prod.mk.injEq] at h
        rw [← h.2]
        exact ⟨_, htr, p2 _ _ (hstep [] _ rfl)⟩
      · rw [if_neg herr] at h
        by_cases hout : t.callEngine.out.length > 0
        · rw [if_pos hout] at h
          simp only [Option.some.injEq, Prod.mk.injEq] at h
          rw [← h.2]
          exact ⟨_, htr, p2 _ _ (hstep [] _ rfl)⟩
        · rw [if_neg hout] at h
          obtain ⟨evs, e1, e2⟩ := ih (t.advance t.callEngine) s1 res hdt h
          refine ⟨pre ++ (DEvent.decompress t.m_src_offset
            (sizeSub t.m_src_size t.m_src_offset) t.callEngine.consumed t.callEngine.out
            t.callEngine.ret :: evs), ?_, p2 _ _ (hstep evs _ e2)⟩
          rw [e1, htr]
          simp

end LZ4IStreamBuf

namespace LZ4InputBuffer

variable {E : Engine}

theorem input_refill_iterates (s : LZ4InputBuffer E) :
    (s.refill.src_buf_size_ ≠ 0 → s.refill.offset_ ≠ s.refill.src_buf_size_) ∧
    ∃ pre, s.refill.trace = s.trace ++ pre ∧
      ∀ evs v1, Iterates E.LZ4F_decompress s.refill.view evs v1 →
        Iterates E.LZ4F_decompress s.view (pre ++ evs) v1 := by
  by_cases he : s.offset_ = s.src_buf_size_
  · rw [input_refill_of_eq s he]
    refine ⟨?_, [DEvent.refill (s.source_.sgetn s.src_buf_.length).1.length], rfl, ?_⟩
    · intro h0 h1
      exact h0 h1.symm
    · intro evs v1 h
      exact ⟨he, rfl, h⟩
  · rw [input_refill_of_ne s he]
    exact ⟨fun _ => he, [], by simp, fun evs v1 h => h⟩

theorem input_step_iterates (t : LZ4InputBuffer E) (hne : t.offset_ ≠ t.src_buf_size_)
    (evs : List DEvent) (v1 : ReaderView E.DCtx)
    (h : Iterates E.LZ4F_decompress ({ t.written t.callEngine with
      offset_ := sizeAdd t.offset_ t.callEngine.consumed } : LZ4InputBuffer E).view evs v1) :
    Iterates E.LZ4F_decompress t.view (DEvent.decompress t.offset_
      (sizeSub t.src_buf_size_ t.offset_) t.callEngine.consumed t.callEngine.out
      t.callEngine.ret :: evs) v1 :=
  ⟨hne, rfl, rfl, rfl, rfl, rfl, h⟩

theorem input_underflow_iterates (fuel : Nat) :
    ∀ (s s1 : LZ4InputBuffer E) (res : Res Int), underflow fuel s = some (res, s1) →
      ∃ evs v1, s1.trace = s.trace ++ evs ∧ Iterates E.LZ4F_decompress s.view evs v1 ∧
        s1.view = { v1 with offset := s1.offset_ } ∧
        ((∀ e, res ≠ Res.throw e) → s1.offset_ = v1.offset) := by
  induction fuel with
  | zero => intro s s1 res h; simp [underflow] at h
  | succ f ih =>
    intro s s1 res h
    obtain ⟨r2, pre, p1, p2⟩ := input_refill_iterates s
    rw [input_underflow_succ] at h
    generalize s.refill = t at r2 p1 p2 h
    by_cases hz : t.src_buf_size_ = 0
    · rw [if_pos hz] at h
      simp only [Option.some.injEq, Prod.mk.injEq] at h
      rw [← h.2]
      refine ⟨pre, t.view, p1, ?_, rfl, fun _ => rfl⟩
      have h3 := p2 [] t.view rfl
      rw [List.append_nil] at h3
      exact h3
    · rw [if_neg hz] at h
      have hstep := input_step_iterates t (r2 hz)
      have htr : (t.written t.callEngine).trace = s.trace ++ (pre ++ [DEvent.decompress
          t.offset_ (sizeSub t.src_buf_size_ t.offset_) t.callEngine.consumed
          t.callEngine.out t.callEngine.ret]) := by
        show t.trace ++ _ = _
        rw [p1, List.append_assoc]
      by_cases herr : E.LZ4F_isError t.callEngine.ret = true
      · rw [if_pos herr] at h
        simp only [Option.some.injEq, Prod.mk.injEq] at h
        rw [← h.2, ← h.1]
        refine ⟨_, _, htr, p2 _ _ (hstep [] _ rfl), rfl, ?_⟩
        intro hno
        exact absurd rfl (hno _)
      · rw [if_neg herr] at h
        by_cases hout : t.callEngine.out.length = 0
        · rw [if_pos hout] at h
          obtain ⟨evs, v1, e1, e2, e3, e4⟩ := ih
            { t.written t.callEngine with
              offset_ := sizeAdd t.offset_ t.callEngine.consumed } s1 res h
          refine ⟨pre ++ (DEvent.decompress t.offset_
            (sizeSub t.src_buf_size_ t.offset_) t.callEngine.consumed t.callEngine.out
            t.callEngine.ret :: evs), v1, ?_, p2 _ _ (hstep evs _ e2), e3, e4⟩
          rw [e1]
          show (t.written t.callEngine).trace ++ evs = _
          rw [htr]
          simp
        · rw [if_neg hout] at h
          simp only [Option.some.injEq, Prod.mk.injEq] at h
          rw [← h.2]
          exact ⟨_, _, htr, p2 _ _ (hstep [] _ rfl), rfl, fun _ => rfl⟩

end LZ4InputBuffer

theorem escEngine_progress : escEngine.DecoderProgress := by
  have key : ∀ (k : Byte) (d : EscDCtx) (cap : Nat) (src : List Byte), src ≠ [] → 0 < cap →
      isErrorCode (escDecompress k d cap src).ret = true ∨
      ((escDecompress k d cap src).consumed ≤ src.length ∧
        0 < (escDecompress k d cap src).consumed + (escDecompress k d cap src).out.length) := by
    intro k d cap src hsrc hcap
    have hcap0 : ¬ cap = 0 := by omega
    cases src with
    | nil => exact absurd rfl hsrc
    | cons x xs =>
      cases d with
      | hdr =>
        by_cases hx : x = 76
        · right; simp [escDecompress, hx]
        · left; simp [escDecompress, hx]; decide
      | data =>
        by_cases hx : x = 255
        · right; simp [escDecompress, hx]
        · right; simp [escDecompress, hx, hcap0]
      | esc =>
        by_cases hx : x = 0
        · right; simp [escDecompress, hx]
        · by_cases hx1 : x = 1
          · right; simp [escDecompress, hx, hx1, hcap0]
          · left; simp [escDecompress, hx, hx1]; decide
  exact ⟨fun d cap src h1 h2 => key 0 d cap src h1 h2,
    fun d cap src p size h1 h2 => key (escKeyAt p size) d cap src h1 h2⟩

/-- C9: one `underflow` of either reader, started in a state whose offset and
size lie inside the input buffer, returns when the engine makes progress on
every call, and whenever it returns, its iterations `evs` (appended to the
record) are engine calls and source reads as `Iterates` says: a refill exactly
where the input buffer is fully consumed, obtaining what `sgetn` of the source
returns for the extent of the input buffer, else a call of `LZ4F_decompress`
(`LZ4F_decompress_usingDict` for a reader with a dictionary) on the context,
the extent of the staging buffer and the unconsumed bytes, the event holding
what that call reported and the state moving on as the call left it; and they
are as `UnderflowSpec` says: every engine call before the last iteration
produced nothing; the result is end-of-stream exactly when the last iteration
is a refill that obtained zero bytes; otherwise, unless the engine reported an
error, the last iteration is the first engine call that produced bytes, those
bytes are the staging buffer, the result is the first of them, and the input
offset has advanced by the consumed counts.  The source, context, input buffer,
offset, size and staging buffer after `underflow` are those the iterations
lead to (`LZ4InputBuffer` leaves the offset where it was when it throws). -/
theorem underflow_eof_or_first_output (E : Engine) (s : LZ4IStreamBuf E)
    (t : LZ4InputBuffer E) (hs : s.WF) (ht : t.WF) (hE : E.DecoderProgress) :
    (∃ fuel res s1, LZ4IStreamBuf.underflow fuel s = some (res, s1)) ∧
    (∀ fuel res s1, LZ4IStreamBuf.underflow fuel s = some (res, s1) →
      ∃ evs, s1.trace = s.trace ++ evs ∧ Placed s.m_src_offset s.m_src_size evs ∧
        UnderflowSpec E.LZ4F_isError s.m_src_offset evs res s1.getArea s1.m_src_offset ∧
        (s.m_dictionary = none → Iterates E.LZ4F_decompress s.view evs s1.view) ∧
        (∀ d, s.m_dictionary = some d →
          Iterates (fun c cap src => E.LZ4F_decompress_usingDict c cap src d.data d.size)
            s.view evs s1.view)) ∧
    (∃ fuel res t1, LZ4InputBuffer.underflow fuel t = some (res, t1)) ∧
    (∀ fuel res t1, LZ4InputBuffer.underflow fuel t = some (res, t1) →
      ∃ evs, t1.trace = t.trace ++ evs ∧ Placed t.offset_ t.src_buf_size_ evs ∧
        UnderflowSpec E.LZ4F_isError t.offset_ evs res t1.getArea t1.offset_ ∧
        ∃ v1, Iterates E.LZ4F_decompress t.view evs v1 ∧
          t1.view = { v1 with offset := t1.offset_ } ∧
          ((∀ e, res ≠ Res.throw e) → t1.offset_ = v1.offset)) := by
  refine ⟨⟨_, LZ4IStreamBuf.underflow_returns hE _ s hs (Nat.lt_succ_self _)⟩, ?_,
    ⟨_, LZ4InputBuffer.input_underflow_returns hE _ t ht (Nat.lt_succ_self _)⟩, ?_⟩
  · intro fuel res s1 h
    have h0 : s.m_src_size = 0 → s.m_src_offset = 0 := by
      have := hs.off
      omega
    obtain ⟨evs, e1, e2, _⟩ := LZ4IStreamBuf.underflow_trace fuel s s1 res h0 h
    obtain ⟨evs1, f1, f2⟩ := LZ4IStreamBuf.underflow_placed fuel s s1 res h
    have heq : evs1 = evs := List.append_cancel_left (f1.symm.trans e1)
    rw [heq] at f2
    refine ⟨evs, e1, f2, e2, ?_, ?_⟩
    · intro hd
      obtain ⟨evs2, g1, g2⟩ := LZ4IStreamBuf.underflow_iterates E.LZ4F_decompress none
        (fun u hu => by simp [LZ4IStreamBuf.callEngine, LZ4IStreamBuf.dictArgs, hu])
        fuel s s1 res hd h
      have heq2 : evs2 = evs := List.append_cancel_left (g1.symm.trans e1)
      rw [heq2] at g2
      exact g2
    · intro d hd
      obtain ⟨evs2, g1, g2⟩ := LZ4IStreamBuf.underflow_iterates
        (fun c cap src => E.LZ4F_decompress_usingDict c cap src d.data d.size) (some d)
        (fun u hu => by simp [LZ4IStreamBuf.callEngine, LZ4IStreamBuf.dictArgs, hu])
        fuel s s1 res hd h
      have heq2 : evs2 = evs := List.append_cancel_left (g1.symm.trans e1)
      rw [heq2] at g2
      exact g2
  · intro fuel res t1 h
    have h0 : t.src_buf_size_ = 0 → t.offset_ = 0 := by
      have := ht.off
      omega
    obtain ⟨evs, e1, e2, _⟩ := LZ4InputBuffer.input_underflow_trace fuel t t1 res h0 h
    obtain ⟨evs1, f1, f2⟩ := LZ4InputBuffer.input_underflow_placed fuel t t1 res h
    have heq : evs1 = evs := List.append_cancel_left (f1.symm.trans e1)
    rw [heq] at f2
    obtain ⟨evs2, v1, g1, g2, g3, g4⟩ := LZ4InputBuffer.input_underflow_iterates fuel t t1 res h
    have heq2 : evs2 = evs := List.append_cancel_left (g1.symm.trans e1)
    rw [heq2] at g2
    exact ⟨evs, e1, f2, e2, v1, g2, g3, g4⟩

set_option maxRecDepth 100000 in
/-- Witness of C9: two sample readers on the small codec, source `76 1 2 255 0`.
The `LZ4IStreamBuf`, its source returning 2 bytes per read, refills with 2
bytes, calls the decoder on `76 1` (header consumed, no output), then on `1`,
which gives the byte 1.  The `LZ4InputBuffer`, its source returning all it is
asked for, refills with 4 bytes, calls the decoder on `76 1 2 255` (header
consumed, no output), then on `1 2 255`, which gives the byte 1.  Both return 1,
the staging buffer is `1` and the offset is 2; the iterations are the engine
calls and the source read `Iterates` asks for. -/
theorem underflow_eof_or_first_output_witness :
    LZ4IStreamBuf.sample.WF ∧ LZ4InputBuffer.sampleWhole.WF ∧ escEngine.DecoderProgress ∧
    (∃ s1, LZ4IStreamBuf.underflow 5 LZ4IStreamBuf.sample = some (Res.ok 1, s1) ∧
      s1.getArea = [1] ∧ s1.m_src_offset = 2 ∧
      s1.trace = [DEvent.refill 2, DEvent.decompress 0 2 1 [] 1, DEvent.decompress 1 1 1 [1] 1] ∧
      Iterates escEngine.LZ4F_decompress LZ4IStreamBuf.sample.view
        [DEvent.refill 2, DEvent.decompress 0 2 1 [] 1, DEvent.decompress 1 1 1 [1] 1] s1.view ∧
      UnderflowSpec escEngine.LZ4F_isError 0
        [DEvent.refill 2, DEvent.decompress 0 2 1 [] 1, DEvent.decompress 1 1 1 [1] 1]
        (Res.ok 1) [1] 2) ∧
    (∃ t1, LZ4InputBuffer.underflow 5 LZ4InputBuffer.sampleWhole = some (Res.ok 1, t1) ∧
      t1.getArea = [1] ∧ t1.offset_ = 2 ∧
      t1.trace = [DEvent.refill 4, DEvent.decompress 0 4 1 [] 1, DEvent.decompress 1 3 1 [1] 1] ∧
      Iterates escEngine.LZ4F_decompress LZ4InputBuffer.sampleWhole.view
        [DEvent.refill 4, DEvent.decompress 0 4 1 [] 1, DEvent.decompress 1 3 1 [1] 1] t1.view ∧
      UnderflowSpec escEngine.LZ4F_isError 0
        [DEvent.refill 4, DEvent.decompress 0 4 1 [] 1, DEvent.decompress 1 3 1 [1] 1]
        (Res.ok 1) [1] 2) := by
  have hs : LZ4IStreamBuf.sample.WF := ⟨by decide, by decide, by decide, by decide⟩
  have ht : LZ4InputBuffer.sampleWhole.WF := ⟨by decide, by decide, by decide, by decide⟩
  obtain ⟨_, T2, _, T4⟩ := underflow_eof_or_first_output escEngine LZ4IStreamBuf.sample
    LZ4InputBuffer.sampleWhole hs ht escEngine_progress
  have c1 : (LZ4IStreamBuf.underflow 5 LZ4IStreamBuf.sample).map
      (fun p => (p.1, p.2.getArea, p.2.m_src_offset, p.2.trace)) =
      some (Res.ok 1, [1], 2,
        [DEvent.refill 2, DEvent.decompress 0 2 1 [] 1, DEvent.decompress 1 1 1 [1] 1]) := by
    decide
  have c2 : (LZ4InputBuffer.underflow 5 LZ4InputBuffer.sampleWhole).map
      (fun p => (p.1, p.2.getArea, p.2.offset_, p.2.trace)) =
      some (Res.ok 1, [1], 2,
        [DEvent.refill 4, DEvent.decompress 0 4 1 [] 1, DEvent.decompress 1 3 1 [1] 1]) := by
    decide
  obtain ⟨⟨r, s1⟩, a1, a2⟩ := Option.map_eq_some'.mp c1
  obtain ⟨⟨q, t1⟩, b1, b2⟩ := Option.map_eq_some'.mp c2
  simp only [Prod.mk.injEq] at a2 b2
  obtain ⟨a3, a4, a5, a6⟩ := a2
  obtain ⟨b3, b4, b5, b6⟩ := b2
  subst a3 b3
  obtain ⟨evs, e1, _, e3, e4, _⟩ := T2 5 _ s1 a1
  obtain ⟨fvs, f1, _, f3, v1, f4, f5, f6⟩ := T4 5 _ t1 b1
  have he : evs = s1.trace := by
    rw [e1]
    rfl
  have hf : fvs = t1.trace := by
    rw [f1]
    rfl
  rw [he, a6] at e3 e4
  rw [hf, b6] at f3 f4
  rw [a4, a5] at e3
  rw [b4, b5] at f3
  have hv : t1.view = v1 := by
    rw [f5, f6 (by intro e; simp)]
  refine ⟨hs, ht, escEngine_progress, ⟨s1, a1, a4, a5, a6, e4 rfl, e3⟩,
    ⟨t1, b1, b4, b5, b6, ?_, f3⟩⟩
  rw [hv]
  exact f4

/-! ## Truncated input -/

theorem toStreamsize_of_lt (n : Nat) (h : n < SIZE_MOD / 2) : toStreamsize n = (n : Int) := by
  have h1 : n % SIZE_MOD = n := Nat.mod_eq_of_lt (by unfold SIZE_MOD at h ⊢; omega)
  unfold toStreamsize
  rw [h1, if_pos h]

theorem OStream.write_good (o : OStream) (buf : List Byte) (n : Nat) (h : o.badbit = false) :
    o.write buf (n : Int) =
      { o with received := o.received ++ [SinkEvent.write (buf.take n) n],
               counts := o.counts ++ [(n : Int)] } := by
  unfold OStream.write
  simp [h]

set_option maxRecDepth 100000 in
/-- C6 (counterexample): with an engine whose update call reports
`LZ4F_ERROR_GENERIC`, `sync` of a `LZ4OutputBuffer` returns 0, no error
surfaces, and the error code has been handed to `write` as the byte count
(as a `std::streamsize` it is -1); the stream stores nothing, the next `sputc`
is accepted, and a later `close` reports success: with a library that sets
`badbit` on the negative count the footer is dropped, with one that does not
the footer follows the header and the staged byte is lost.  And after `sync` of
a `LZ4OStreamBuf` has thrown, the next `sputc` is accepted. -/
theorem engine_error_is_not_fatal :
    LZ4OutputBuffer.failedUpdateScenario true =
      some { synced := Res.ok 0, later := Res.ok 6,
             stream := { received := [SinkEvent.write [76] 1], counts := [1, -1],
                         badbit := true, negativeCountFails := true },
             closed := Res.ok (),
             atClose := { received := [SinkEvent.write [76] 1], counts := [1, -1, -1, 2],
                          badbit := true, negativeCountFails := true } } ∧
    LZ4OutputBuffer.failedUpdateScenario false =
      some { synced := Res.ok 0, later := Res.ok 6,
             stream := { received := [SinkEvent.write [76] 1], counts := [1, -1],
                         badbit := false, negativeCountFails := false },
             closed := Res.ok (),
             atClose := { received := [SinkEvent.write [76] 1, SinkEvent.write [255, 0] 2],
                          counts := [1, -1, -1, 2], badbit := false,
                          negativeCountFails := false } } ∧
    LZ4OStreamBuf.syncScenario updateFailingEngine =
      some { synced := Res.throw "Error during LZ4 stream writing", later := Res.ok 6,
             pptr := 1, sink := [SinkEvent.write [76] 1] } := by
  refine ⟨by decide, by decide, by decide⟩

/-- C6 (amended): in `LZ4OStreamBuf`, when the engine reports an error for the
compress-update call of a flush, `sync`, `overflow` and `close` throw and the
sink receives nothing, and a later `sputc` that finds room in the put area is
accepted all the same; when it reports one for the footer, `close` throws, the
sink has received the flush and the sync but no footer bytes, and the static
stays as it was; when it reports one for the header (`LZ4F_compressBegin` of
the first constructor, `LZ4F_compressBegin_usingCDict` of the second),
`initialize_stream` and the constructor throw and the sink receives nothing.
In `LZ4OutputBuffer`, when it reports one for the header or the footer,
`writeHeader` (and the constructor) or `writeFooter` (and `close`, which then
leaves the writer open and the context unfreed) throws, the message ending in
the name the engine gives the code, and `write` is not called on the stream for
that call. -/
theorem engine_error_throws_and_forwards_nothing (E : Engine) (w : LZ4OStreamBuf E)
    (g : Statics) (ch : Int) (pubsync : Int) (b : LZ4OutputBuffer E) :
    (E.LZ4F_isError (E.LZ4F_compressUpdate w.m_compression_ctx w.m_compression_buffer.length
        (w.m_write_area.take w.pptr)).ret = true →
      (w.sync pubsync).1 = Res.throw "Error during LZ4 stream writing" ∧
      (w.sync pubsync).2.m_sink = w.m_sink ∧
      (g.is_open = true →
        (LZ4OStreamBuf.close g w).1 = Res.throw "Error during LZ4 stream writing" ∧
        (LZ4OStreamBuf.close g w).2.2.m_sink = w.m_sink) ∧
      (w.pptr < w.epptr → ∀ c, ((w.sync pubsync).2.sputc c).1 = Res.ok (to_int_type c))) ∧
    (E.LZ4F_isError (E.LZ4F_compressUpdate w.m_compression_ctx w.m_compression_buffer.length
        ((w.m_write_area.set w.pptr (to_char_type ch)).take (w.pptr + 1))).ret = true →
      (w.overflow ch).1 = Res.throw "Error during LZ4 stream writing" ∧
      (w.overflow ch).2.m_sink = w.m_sink) ∧
    (g.is_open = true →
      E.LZ4F_isError (E.LZ4F_compressUpdate w.m_compression_ctx w.m_compression_buffer.length
        (w.m_write_area.take w.pptr)).ret = false →
      E.LZ4F_isError (E.LZ4F_compressEnd w.compress_buffer.2.m_compression_ctx
        w.compress_buffer.2.m_compression_buffer.length).ret = true →
      (LZ4OStreamBuf.close g w).1 = Res.throw "Error during LZ4 stream finalization" ∧
      (LZ4OStreamBuf.close g w).2.1 = g ∧
      (LZ4OStreamBuf.close g w).2.2.m_sink = w.compress_buffer.2.m_sink ++ [SinkEvent.sync]) ∧
    (w.m_dictionary = none →
      E.LZ4F_isError (E.LZ4F_compressBegin w.m_compression_ctx w.m_compression_buffer.length
        w.m_preferences).ret = true →
      w.initialize_stream.1 = Res.throw "Error during LZ4 stream initialization" ∧
      w.initialize_stream.2.m_sink = w.m_sink) ∧
    (∀ d, w.m_dictionary = some d →
      E.LZ4F_isError (E.LZ4F_compressBegin_usingCDict w.m_compression_ctx
        w.m_compression_buffer.length (asCDict d.data) w.m_preferences).ret = true →
      w.initialize_stream.1 = Res.throw "Error during LZ4 stream initialization" ∧
      w.initialize_stream.2.m_sink = w.m_sink) ∧
    (∀ (buffer : Sink) (lvl : Int),
      E.LZ4F_isError E.LZ4F_createCompressionContext.1 = false →
      E.LZ4F_isError (E.LZ4F_compressBegin E.LZ4F_createCompressionContext.2
        (LZ4OStreamBuf.internal_buffer_size E (DEFAULT_PREFERENCES.withLevel lvl))
        (DEFAULT_PREFERENCES.withLevel lvl)).ret = true →
      (LZ4OStreamBuf.create E buffer lvl none).1 =
        Res.throw "Error during LZ4 stream initialization" ∧
      ∃ w0, (LZ4OStreamBuf.create E buffer lvl none).2 = some w0 ∧ w0.m_sink = buffer) ∧
    (∀ (buffer : Sink) (lvl : Int) (d : LZ4Dictionary E),
      E.LZ4F_isError E.LZ4F_createCompressionContext.1 = false →
      E.LZ4F_isError (E.LZ4F_compressBegin_usingCDict E.LZ4F_createCompressionContext.2
        (LZ4OStreamBuf.internal_buffer_size E (DEFAULT_PREFERENCES.withLevel lvl))
        (asCDict d.data) (DEFAULT_PREFERENCES.withLevel lvl)).ret = true →
      (LZ4OStreamBuf.create E buffer lvl (some d)).1 =
        Res.throw "Error during LZ4 stream initialization" ∧
      ∃ w0, (LZ4OStreamBuf.create E buffer lvl (some d)).2 = some w0 ∧ w0.m_sink = buffer) ∧
    (E.LZ4F_isError (E.LZ4F_compressBegin b.ctx_ b.dest_buf_.length b.preferences_).ret = true →
      b.assertHolds (!b.closed_) = true →
      b.writeHeader.1 = Res.throw ("Failed to start LZ4 compression: " ++
        E.LZ4F_getErrorName (E.LZ4F_compressBegin b.ctx_ b.dest_buf_.length b.preferences_).ret) ∧
      b.writeHeader.2.sink_ = b.sink_) ∧
    (E.LZ4F_isError (E.LZ4F_compressEnd b.ctx_ b.dest_buf_.length).ret = true →
      b.assertHolds (!b.closed_) = true →
      b.writeFooter.1 = Res.throw ("Failed to end LZ4 compression: " ++
        E.LZ4F_getErrorName (E.LZ4F_compressEnd b.ctx_ b.dest_buf_.length).ret) ∧
      b.writeFooter.2.sink_ = b.sink_) ∧
    (b.closed_ = false →
      E.LZ4F_isError (E.LZ4F_compressEnd b.sync.2.ctx_ b.sync.2.dest_buf_.length).ret = true →
      b.close.1 = Res.throw ("Failed to end LZ4 compression: " ++
        E.LZ4F_getErrorName (E.LZ4F_compressEnd b.sync.2.ctx_ b.sync.2.dest_buf_.length).ret) ∧
      b.close.2.sink_ = b.sync.2.sink_ ∧ b.close.2.closed_ = false ∧
      b.close.2.freed = b.freed) ∧
    (∀ (n : Nat) (nd : Bool) (sink : OStream) (lvl : Int),
      E.LZ4F_isError E.LZ4F_createCompressionContext.1 = false →
      E.LZ4F_isError (E.LZ4F_compressBegin E.LZ4F_createCompressionContext.2
        (E.LZ4F_compressBound n (LZ4F_INIT_PREFERENCES.withLevel lvl))
        (LZ4F_INIT_PREFERENCES.withLevel lvl)).ret = true →
      (LZ4OutputBuffer.create E n nd sink lvl).1 =
        Res.throw ("Failed to start LZ4 compression: " ++
          E.LZ4F_getErrorName (E.LZ4F_compressBegin E.LZ4F_createCompressionContext.2
            (E.LZ4F_compressBound n (LZ4F_INIT_PREFERENCES.withLevel lvl))
            (LZ4F_INIT_PREFERENCES.withLevel lvl)).ret) ∧
      ∃ b0, (LZ4OutputBuffer.create E n nd sink lvl).2 = some b0 ∧ b0.sink_ = sink) := by
  refine ⟨?_, ?_, ?_, ?_, ?_, ?_, ?_, ?_, ?_, ?_, ?_⟩
  · intro h
    have hc : w.compress_buffer.1 = Res.throw "Error during LZ4 stream writing" ∧
        w.compress_buffer.2.m_sink = w.m_sink ∧ w.compress_buffer.2.pptr = w.pptr ∧
        w.compress_buffer.2.epptr = w.epptr := by
      simp [LZ4OStreamBuf.compress_buffer, h]
    rcases hb : w.compress_buffer with ⟨r, w1⟩
    rw [hb] at hc
    obtain ⟨hc1, hc2, hc3, hc4⟩ := hc
    simp only at hc1 hc2 hc3 hc4
    subst hc1
    refine ⟨by simp [LZ4OStreamBuf.sync, hb], by simp [LZ4OStreamBuf.sync, hb, hc2], ?_, ?_⟩
    · intro hg
      exact ⟨by simp [LZ4OStreamBuf.close, hg, hb], by simp [LZ4OStreamBuf.close, hg, hb, hc2]⟩
    · intro hlt c
      have hlt1 : w1.pptr < w1.epptr := by rw [hc3, hc4]; exact hlt
      simp [LZ4OStreamBuf.sync, hb, LZ4OStreamBuf.sputc, hlt1]
  · intro h
    simp [LZ4OStreamBuf.overflow, LZ4OStreamBuf.compress_buffer, h]
  · intro hg h1 h2
    have hc : ∃ v, w.compress_buffer.1 = Res.ok v := by
      simp [LZ4OStreamBuf.compress_buffer, h1]
    rcases hb : w.compress_buffer with ⟨r, w1⟩
    rw [hb] at hc h2
    obtain ⟨v, hv⟩ := hc
    simp only at hv h2
    subst hv
    simp [LZ4OStreamBuf.close, hg, hb, h2]
  · intro hd h
    simp [LZ4OStreamBuf.initialize_stream, hd, h]
  · intro d hd h
    simp [LZ4OStreamBuf.initialize_stream, hd, h]
  · intro buffer lvl hc h
    simp [LZ4OStreamBuf.create, LZ4OStreamBuf.initialize_stream, hc, h]
  · intro buffer lvl d hc h
    simp [LZ4OStreamBuf.create, LZ4OStreamBuf.initialize_stream, hc, h]
  · intro h ha
    simp [LZ4OutputBuffer.writeHeader, ha, h]
  · intro h ha
    simp [LZ4OutputBuffer.writeFooter, ha, h]
  · intro hcl h
    have hs : b.sync = (Res.ok 0, b.sync.2) := by
      simp [LZ4OutputBuffer.sync, LZ4OutputBuffer.compressAndWrite,
        LZ4OutputBuffer.assertHolds, hcl]
    have hc2 : b.sync.2.closed_ = false := by
      simp [LZ4OutputBuffer.sync, LZ4OutputBuffer.compressAndWrite,
        LZ4OutputBuffer.assertHolds, hcl]
    have hfr : b.sync.2.freed = b.freed := by
      simp [LZ4OutputBuffer.sync, LZ4OutputBuffer.compressAndWrite,
        LZ4OutputBuffer.assertHolds, hcl]
    generalize b.sync.2 = b1 at hs hc2 hfr h
    simp [LZ4OutputBuffer.close, hcl, hs, LZ4OutputBuffer.writeFooter,
      LZ4OutputBuffer.assertHolds, hc2, h, hfr]
  · intro n nd sink lvl hc h
    simp [LZ4OutputBuffer.create, LZ4OutputBuffer.writeHeader, LZ4OutputBuffer.assertHolds, hc, h]

/-- Witness of C6 (amended): the sample writers on the engine whose compression
calls all fail (without and with a dictionary), and on the engine whose end call
fails. -/
theorem engine_error_throws_and_forwards_nothing_witness :
    ((LZ4OStreamBuf.sampleFailing.sync 0).1 = Res.throw "Error during LZ4 stream writing" ∧
      (LZ4OStreamBuf.sampleFailing.sync 0).2.m_sink = LZ4OStreamBuf.sampleFailing.m_sink) ∧
    ((LZ4OStreamBuf.sampleFailing.overflow 7).1 = Res.throw "Error during LZ4 stream writing" ∧
      (LZ4OStreamBuf.sampleFailing.overflow 7).2.m_sink = LZ4OStreamBuf.sampleFailing.m_sink) ∧
    ((LZ4OStreamBuf.close Statics.start LZ4OStreamBuf.sampleEndFailing).1 =
        Res.throw "Error during LZ4 stream finalization" ∧
      (LZ4OStreamBuf.close Statics.start LZ4OStreamBuf.sampleEndFailing).2.1 = Statics.start ∧
      (LZ4OStreamBuf.close Statics.start LZ4OStreamBuf.sampleEndFailing).2.2.m_sink =
        LZ4OStreamBuf.sampleEndFailing.compress_buffer.2.m_sink ++ [SinkEvent.sync]) ∧
    (LZ4OStreamBuf.sampleFailing.initialize_stream.1 =
        Res.throw "Error during LZ4 stream initialization" ∧
      LZ4OStreamBuf.sampleFailing.initialize_stream.2.m_sink =
        LZ4OStreamBuf.sampleFailing.m_sink) ∧
    (LZ4OStreamBuf.initialize_stream { LZ4OStreamBuf.sampleFailing with
        m_dictionary := some { data := VoidPtr.cdict [5], size := 1 } }).1 =
      Res.throw "Error during LZ4 stream initialization" ∧
    (LZ4OStreamBuf.create failingEngine [] 0 (some { data := VoidPtr.cdict [5], size := 1 })).1 =
      Res.throw "Error during LZ4 stream initialization" ∧
    (LZ4OutputBuffer.sampleFailing.writeHeader.1 =
        Res.throw "Failed to start LZ4 compression: ERROR_GENERIC" ∧
      LZ4OutputBuffer.sampleFailing.writeHeader.2.sink_ = LZ4OutputBuffer.sampleFailing.sink_) ∧
    (LZ4OutputBuffer.sampleFailing.writeFooter.1 =
        Res.throw "Failed to end LZ4 compression: ERROR_GENERIC" ∧
      LZ4OutputBuffer.sampleFailing.writeFooter.2.sink_ = LZ4OutputBuffer.sampleFailing.sink_) ∧
    (LZ4OutputBuffer.close ({ LZ4OutputBuffer.sampleFailing with
        ctx_ := { stage := 1, key := 0 } } : LZ4OutputBuffer endFailingEngine)).1 =
      Res.throw "Failed to end LZ4 compression: ERROR_GENERIC" :=
  ⟨⟨((engine_error_throws_and_forwards_nothing failingEngine LZ4OStreamBuf.sampleFailing
        Statics.start 7 0 LZ4OutputBuffer.sampleFailing).1 (by decide)).1,
    ((engine_error_throws_and_forwards_nothing failingEngine LZ4OStreamBuf.sampleFailing
        Statics.start 7 0 LZ4OutputBuffer.sampleFailing).1 (by decide)).2.1⟩,
   (engine_error_throws_and_forwards_nothing failingEngine LZ4OStreamBuf.sampleFailing
        Statics.start 7 0 LZ4OutputBuffer.sampleFailing).2.1 (by decide),
   (engine_error_throws_and_forwards_nothing endFailingEngine LZ4OStreamBuf.sampleEndFailing
        Statics.start 7 0
        { LZ4OutputBuffer.sampleFailing with ctx_ := { stage := 1, key := 0 } }).2.2.1
        rfl (by decide) (by decide),
   (engine_error_throws_and_forwards_nothing failingEngine LZ4OStreamBuf.sampleFailing
        Statics.start 7 0 LZ4OutputBuffer.sampleFailing).2.2.2.1 rfl (by decide),
   ((engine_error_throws_and_forwards_nothing failingEngine
        { LZ4OStreamBuf.sampleFailing with
          m_dictionary := some { data := VoidPtr.cdict [5], size := 1 } }
        Statics.start 7 0 LZ4OutputBuffer.sampleFailing).2.2.2.2.1
        { data := VoidPtr.cdict [5], size := 1 } rfl (by decide)).1,
   ((engine_error_throws_and_forwards_nothing failingEngine LZ4OStreamBuf.sampleFailing
        Statics.start 7 0 LZ4OutputBuffer.sampleFailing).2.2.2.2.2.2.1 [] 0
        { data := VoidPtr.cdict [5], size := 1 } (by decide) (by decide)).1,
   (engine_error_throws_and_forwards_nothing failingEngine LZ4OStreamBuf.sampleFailing
        Statics.start 7 0 LZ4OutputBuffer.sampleFailing).2.2.2.2.2.2.2.1 (by decide) (by decide),
   (engine_error_throws_and_forwards_nothing failingEngine LZ4OStreamBuf.sampleFailing
        Statics.start 7 0 LZ4OutputBuffer.sampleFailing).2.2.2.2.2.2.2.2.1 (by decide) (by decide),
   ((engine_error_throws_and_forwards_nothing endFailingEngine LZ4OStreamBuf.sampleEndFailing
        Statics.start 7 0
        { LZ4OutputBuffer.sampleFailing with ctx_ := { stage := 1, key := 0 } }).2.2.2.2.2.2.2.2.2.1
        rfl (by decide)).1⟩

/-! ## Flushing -/

set_option maxRecDepth 100000 in
/-- C7 (counterexample): `sync` of a `LZ4OutputBuffer` with one byte staged
sends the compressed byte to the sink and nothing else: the sink receives no
flush request.  The same calls on a `LZ4OStreamBuf` end with one. -/
theorem output_buffer_sync_does_not_flush_sink :
    LZ4OutputBuffer.syncScenario escEngine false =
      some { synced := Res.ok 0, later := Res.ok 6, pptr := 0,
             sink := [SinkEvent.write [76] 1, SinkEvent.write [5] 1] } ∧
    LZ4OStreamBuf.syncScenario escEngine =
      some { synced := Res.ok 0, later := Res.ok 6, pptr := 0,
             sink := [SinkEvent.write [76] 1, SinkEvent.write [5] 1, SinkEvent.sync] } := by
  refine ⟨by decide, by decide⟩

/-- C7 (amended): for every writer that is open and every number of staged
bytes, when the engine reports no error for the call, `sync` hands exactly the
staged bytes to `LZ4F_compressUpdate`, sends the `ret` bytes the call left in
the output buffer to the sink, leaves the staging buffer empty and makes no
other engine call (no footer), the writer staying open.  `LZ4OStreamBuf` then
sends one flush request to the sink and returns what `pubsync` of the sink
returns; `LZ4OutputBuffer` (its stream being good, and `ret` a count that fits
a `std::streamsize`) sends no flush request and returns 0.  A `sputc` made
after it finds the put area empty and is accepted. -/
theorem sync_flushes_staged_bytes (E : Engine) (w : LZ4OStreamBuf E) (b : LZ4OutputBuffer E)
    (pubsync : Int)
    (hw : E.LZ4F_isError (E.LZ4F_compressUpdate w.m_compression_ctx
      w.m_compression_buffer.length (w.m_write_area.take w.pptr)).ret = false)
    (hb : b.closed_ = false)
    (hbe : E.LZ4F_isError (E.LZ4F_compressUpdate b.ctx_ b.dest_buf_.length
      (b.src_buf_.take b.pptr)).ret = false)
    (hbn : (E.LZ4F_compressUpdate b.ctx_ b.dest_buf_.length (b.src_buf_.take b.pptr)).ret <
      SIZE_MOD / 2)
    (hgood : b.sink_.badbit = false) :
    w.sync pubsync = (Res.ok pubsync, { w with
      m_compression_ctx := (E.LZ4F_compressUpdate w.m_compression_ctx
        w.m_compression_buffer.length (w.m_write_area.take w.pptr)).ctx,
      m_compression_buffer := store (E.LZ4F_compressUpdate w.m_compression_ctx
        w.m_compression_buffer.length (w.m_write_area.take w.pptr)).out w.m_compression_buffer,
      pptr := 0, epptr := w.m_write_area.length - 1,
      m_sink := w.m_sink ++ [SinkEvent.write
        ((store (E.LZ4F_compressUpdate w.m_compression_ctx
          w.m_compression_buffer.length (w.m_write_area.take w.pptr)).out
          w.m_compression_buffer).take (E.LZ4F_compressUpdate w.m_compression_ctx
          w.m_compression_buffer.length (w.m_write_area.take w.pptr)).ret)
        (E.LZ4F_compressUpdate w.m_compression_ctx
          w.m_compression_buffer.length (w.m_write_area.take w.pptr)).ret,
        SinkEvent.sync] }) ∧
    b.sync = (Res.ok 0, { b with
      ctx_ := (E.LZ4F_compressUpdate b.ctx_ b.dest_buf_.length (b.src_buf_.take b.pptr)).ctx,
      dest_buf_ := store (E.LZ4F_compressUpdate b.ctx_ b.dest_buf_.length
        (b.src_buf_.take b.pptr)).out b.dest_buf_,
      pptr := 0,
      sink_ := { b.sink_ with
        received := b.sink_.received ++ [SinkEvent.write
          ((store (E.LZ4F_compressUpdate b.ctx_ b.dest_buf_.length
            (b.src_buf_.take b.pptr)).out b.dest_buf_).take
            (E.LZ4F_compressUpdate b.ctx_ b.dest_buf_.length (b.src_buf_.take b.pptr)).ret)
          (E.LZ4F_compressUpdate b.ctx_ b.dest_buf_.length (b.src_buf_.take b.pptr)).ret],
        counts := b.sink_.counts ++
          [((E.LZ4F_compressUpdate b.ctx_ b.dest_buf_.length
            (b.src_buf_.take b.pptr)).ret : Int)] } }) ∧
    b.sync.2.closed_ = false ∧
    (0 < w.m_write_area.length - 1 →
      ∀ c, ((w.sync pubsync).2.sputc c).1 = Res.ok (to_int_type c)) ∧
    (0 < b.epptr → ∀ c, (b.sync.2.sputc c).1 = Res.ok (to_int_type c)) := by
  have _ := hbe
  refine ⟨?_, ?_, ?_, ?_, ?_⟩
  · simp [LZ4OStreamBuf.sync, LZ4OStreamBuf.compress_buffer, hw]
  · simp only [LZ4OutputBuffer.sync, LZ4OutputBuffer.compressAndWrite,
      LZ4OutputBuffer.assertHolds, hb, Bool.not_false, Bool.or_true, if_true, Nat.sub_self]
    rw [toStreamsize_of_lt _ hbn, OStream.write_good _ _ _ hgood]
  · simp [LZ4OutputBuffer.sync, LZ4OutputBuffer.compressAndWrite,
      LZ4OutputBuffer.assertHolds, hb]
  · intro hpos c
    simp [LZ4OStreamBuf.sync, LZ4OStreamBuf.compress_buffer, hw, LZ4OStreamBuf.sputc, hpos]
  · intro hpos c
    simp [LZ4OutputBuffer.sync, LZ4OutputBuffer.compressAndWrite,
      LZ4OutputBuffer.assertHolds, hb, LZ4OutputBuffer.sputc, hpos]

set_option maxRecDepth 100000 in
/-- Witness of C7 (amended): the sample writers on the small codec, two bytes
staged, the sink of the first answering -1 to `pubsync`. -/
theorem sync_flushes_staged_bytes_witness :
    (LZ4OStreamBuf.sample.sync (-1)).1 = Res.ok (-1) ∧
    (LZ4OStreamBuf.sample.sync (-1)).2.m_sink =
      [SinkEvent.write [76] 1, SinkEvent.write [5, 6] 2, SinkEvent.sync] ∧
    (LZ4OStreamBuf.sample.sync (-1)).2.pptr = 0 ∧
    LZ4OutputBuffer.sample.sync.1 = Res.ok 0 ∧
    LZ4OutputBuffer.sample.sync.2.sink_.received =
      [SinkEvent.write [76] 1, SinkEvent.write [5, 6] 2] ∧
    LZ4OutputBuffer.sample.sync.2.pptr = 0 ∧
    ((LZ4OStreamBuf.sample.sync (-1)).2.sputc 9).1 = Res.ok 9 ∧
    (LZ4OutputBuffer.sample.sync.2.sputc 9).1 = Res.ok 9 := by
  have h := sync_flushes_staged_bytes escEngine LZ4OStreamBuf.sample LZ4OutputBuffer.sample
    (-1) (by decide) rfl (by decide) (by decide) rfl
  refine ⟨?_, ?_, ?_, ?_, ?_, ?_, h.2.2.2.1 (by decide) 9, h.2.2.2.2 (by decide) 9⟩
  · rw [h.1]
  · rw [h.1]; decide
  · rw [h.1]
  · rw [h.2.1]
  · rw [h.2.1]; decide
  · rw [h.2.1]

/-! ## Dictionary -/

set_option maxRecDepth 100000 in
/-- C8 (evaluation at the failing input): a dictionary loaded from a resource
holds the `LZ4F_CDict` handle and the size of the resource; a reader
constructed with it hands that handle, with that size, to
`LZ4F_decompress_usingDict` as the dictionary buffer, never the bytes of the
resource themselves.  With the small codec, which reads
`0xD1` behind a handle, the bytes 1 2 written with the dictionary `5` come back
as 53 54. -/
theorem reader_hands_cdict_handle_as_dictionary :
    (∀ (E : Engine) (rsrc : ResourceLookup) (d : LZ4Dictionary E),
      LZ4Dictionary.loadFromResource E rsrc = Res.ok d →
      ∃ bytes h, rsrc.LockResource = some bytes ∧
        E.LZ4F_createCDict (bytes.take rsrc.SizeofResource) = some h ∧
        d.data = VoidPtr.cdict h ∧ d.size = rsrc.SizeofResource ∧
        ∀ s : LZ4IStreamBuf E, s.m_dictionary = some d →
          s.dictArgs = some (VoidPtr.cdict h, rsrc.SizeofResource) ∧
          s.dictArgs ≠ some (VoidPtr.bytes bytes, rsrc.SizeofResource)) ∧
    sinkBytes (LZ4OStreamBuf.writeAndClose escEngine 0
      (some { data := VoidPtr.cdict [5], size := 1 }) [[1, 2]]).2 = [76, 6, 7, 255, 0] ∧
    (escDecompress (escKeyAt (VoidPtr.bytes [5]) 1) EscDCtx.data 4 [6, 7, 255, 0]).out = [1] ∧
    dictRoundTrip escEngine 20 [5] [1, 2] = some ([53, 54], Res.ok ()) := by
  refine ⟨?_, by decide, by decide, by decide⟩
  intro E rsrc d h
  unfold LZ4Dictionary.loadFromResource at h
  by_cases h1 : rsrc.FindResource = true
  · by_cases h2 : rsrc.SizeofResource ≤ 0
    · simp [h1, h2] at h
    · by_cases h3 : rsrc.LoadResource = true
      · simp only [h1, h2, h3, Bool.not_true, Bool.false_eq_true, if_false] at h
        cases hk : rsrc.LockResource with
        | none => simp [hk] at h
        | some bytes =>
          simp only [hk] at h
          cases hc : E.LZ4F_createCDict (bytes.take rsrc.SizeofResource) with
          | none => simp [hc] at h
          | some hd =>
            simp only [hc, Res.ok.injEq] at h
            subst h
            refine ⟨bytes, hd, rfl, hc, rfl, rfl, ?_⟩
            intro s hs
            simp [LZ4IStreamBuf.dictArgs, hs]
      · simp [h1, h2, h3] at h
  · simp [h1] at h

/-! ## Buffer sizes -/

theorem LZ4OutputBuffer.create_dest_size (E : Engine) (n : Nat) (nd : Bool) (lvl : Int)
    (sink : OStream) :
    E.LZ4F_isError E.LZ4F_createCompressionContext.1 = false →
    ∃ w0 : LZ4OutputBuffer E,
      w0.dest_buf_.length = E.LZ4F_compressBound w0.src_buf_.length w0.preferences_ ∧
      w0.src_buf_.length = n ∧ w0.epptr + 1 = max n 1 ∧
      LZ4OutputBuffer.create E n nd sink lvl = (w0.writeHeader.1, some w0.writeHeader.2) := by
  intro h
  refine ⟨{ sink_ := sink, src_buf_ := List.replicate n 0,
            dest_buf_ := List.replicate
              (E.LZ4F_compressBound n (LZ4F_INIT_PREFERENCES.withLevel lvl)) 0,
            ctx_ := E.LZ4F_createCompressionContext.2,
            preferences_ := LZ4F_INIT_PREFERENCES.withLevel lvl, closed_ := false, pptr := 0,
            epptr := n - 1, NDEBUG := nd, freed := 0 }, by simp, by simp, by simp; omega, ?_⟩
  simp [LZ4OutputBuffer.create, h]

set_option maxRecDepth 100000 in
/-- C10 (evaluation at the failing input): a `LZ4OStreamBuf` whose put area is
full hands `cap` bytes to `LZ4F_compressUpdate` from `overflow`, with a
destination of the same `cap` bytes, where `cap` is
`max (LZ4F_compressBound 0) LZ4F_HEADER_SIZE_MAX + 1`.  With the bound function
of lz4frame and `DEFAULT_PREFERENCES` that is 262152 bytes, while the bound for
262152 bytes is 524300, which is also what the library checks the destination
against once it holds 262136 buffered bytes.  With the small codec (bound
`2 n + 2`) the buffers have 20 bytes, the bound for 20 bytes is 42, and writing
20 bytes `0xFF` makes `overflow` throw the writing error: destination too
small. -/
theorem ostreambuf_capacity_below_compress_bound :
    (∀ (E : Engine) (w : LZ4OStreamBuf E) (cap : Nat) (ch : Int), WInv w cap →
      w.pptr = w.epptr →
      ((w.m_write_area.set w.pptr (to_char_type ch)).take (w.pptr + 1)).length = cap ∧
      w.m_compression_buffer.length = cap) ∧
    LZ4OStreamBuf.internal_buffer_size lz4BoundEngine (DEFAULT_PREFERENCES.withLevel 0) = 262152 ∧
    LZ4F_compressBound 262152 (DEFAULT_PREFERENCES.withLevel 0) = 524300 ∧
    LZ4F_compressBound_internal 262152 (DEFAULT_PREFERENCES.withLevel 0) 0 = 262152 ∧
    LZ4F_compressBound_internal 262152 (DEFAULT_PREFERENCES.withLevel 0) 262136 = 524300 ∧
    LZ4OStreamBuf.internal_buffer_size escEngine (DEFAULT_PREFERENCES.withLevel 0) = 20 ∧
    escEngine.LZ4F_compressBound 20 (DEFAULT_PREFERENCES.withLevel 0) = 42 ∧
    LZ4OStreamBuf.writeAndClose escEngine 0 none [List.replicate 20 255] =
      (Res.throw "Error during LZ4 stream writing", [SinkEvent.write [76] 1]) := by
  refine ⟨?_, by decide, by decide, by decide, by decide, by decide, by decide, by decide⟩
  intro E w cap ch hw hp
  have h1 := hw.area
  have h2 := hw.ep
  have h3 := hw.pos
  refine ⟨?_, hw.cbuf⟩
  simp only [List.length_take, List.length_set]
  omega

/-! ## The input offset stays inside the input buffer -/

theorem escEngine_consumes : escEngine.ConsumesAtMostOffered := by
  have key : ∀ (k : Byte) (d : EscDCtx) (cap : Nat) (src : List Byte),
      (escDecompress k d cap src).consumed ≤ src.length := by
    intro k d cap src
    cases src with
    | nil => simp [escDecompress]
    | cons x xs =>
      cases d with
      | hdr =>
        by_cases hx : x = 76
        · simp [escDecompress, hx]
        · simp [escDecompress, hx]
      | data =>
        by_cases hx : x = 255
        · simp [escDecompress, hx]
        · by_cases hc : cap = 0
          · simp [escDecompress, hx, hc]
          · simp [escDecompress, hx, hc]
      | esc =>
        by_cases hx : x = 0
        · simp [escDecompress, hx]
        · by_cases hx1 : x = 1
          · by_cases hc : cap = 0
            · simp [escDecompress, hx, hx1, hc]
            · simp [escDecompress, hx, hx1, hc]
          · simp [escDecompress, hx, hx1]
  exact ⟨fun d cap src => key 0 d cap src,
    fun d cap src p size => key (escKeyAt p size) d cap src⟩

namespace LZ4IStreamBuf

variable {E : Engine}

theorem create_inBounds (E : Engine) (source_ : Source) (dict : Option (LZ4Dictionary E))
    (n : Nat) (hn : n < SIZE_MOD) (s : LZ4IStreamBuf E)
    (h : create E source_ dict n = Res.ok s) : s.InBounds := by
  unfold create at h
  by_cases he : E.LZ4F_isError E.LZ4F_createDecompressionContext.1 = true
  · simp [he] at h
  · simp only [he, Bool.false_eq_true, if_false, Res.ok.injEq] at h
    rw [← h]
    exact ⟨Nat.le_refl _, Nat.zero_le _, by simpa using hn⟩

theorem refill_inBounds (s : LZ4IStreamBuf E) (h : s.InBounds) :
    s.refill.InBounds ∧ s.refill.m_src_buffer.length = s.m_src_buffer.length ∧
    (s.refill.m_src_size ≠ 0 → s.refill.m_src_offset < s.refill.m_src_size) := by
  by_cases he : s.m_src_offset = s.m_src_size
  · rw [refill_of_eq s he]
    obtain ⟨g1, _⟩ := Source.sgetn_length s.m_source s.m_src_buffer.length
    have hlen : (store (s.m_source.sgetn s.m_src_buffer.length).1 s.m_src_buffer).length =
        s.m_src_buffer.length := length_store _ _ g1
    refine ⟨⟨Nat.zero_le _, ?_, ?_⟩, hlen, ?_⟩
    · show _ ≤ (store _ _).length
      rw [hlen]; exact g1
    · show (store _ _).length < _
      rw [hlen]; exact h.buf
    · intro h0
      exact Nat.pos_of_ne_zero h0
  · rw [refill_of_ne s he]
    have := h.off
    exact ⟨h, rfl, by omega⟩

theorem offerInside_of_lt (t : LZ4IStreamBuf E) (h : t.InBounds)
    (hlt : t.m_src_offset < t.m_src_size) : t.OfferInside := by
  have h1 := h.size
  have h2 := h.buf
  have hsub : sizeSub t.m_src_size t.m_src_offset = t.m_src_size - t.m_src_offset :=
    sizeSub_eq _ _ (by omega) (by omega)
  refine ⟨by omega, hsub, ?_, by omega⟩
  rw [hsub]
  simp only [List.length_take, List.length_drop]
  omega

theorem callEngine_consumed (hE : E.ConsumesAtMostOffered) (t : LZ4IStreamBuf E)
    (h : t.OfferInside) : t.callEngine.consumed ≤ t.m_src_size - t.m_src_offset := by
  obtain ⟨_, _, h3, _⟩ := h
  unfold callEngine
  cases hd : t.dictArgs with
  | none =>
    simp only
    rw [← h3]
    exact hE.1 _ _ _
  | some d =>
    simp only
    rw [← h3]
    exact hE.2 _ _ _ _ _

theorem advance_inBounds (t : LZ4IStreamBuf E) (r : DResult E.DCtx) (h : t.InBounds)
    (hc : r.consumed ≤ t.m_src_size - t.m_src_offset) :
    (t.advance r).InBounds ∧ (t.advance r).m_src_buffer.length = t.m_src_buffer.length := by
  have h1 := h.off
  have h2 := h.size
  have h3 := h.buf
  have hadd : sizeAdd t.m_src_offset r.consumed = t.m_src_offset + r.consumed :=
    sizeAdd_eq _ _ (by omega)
  refine ⟨⟨?_, h2, h3⟩, rfl⟩
  show sizeAdd t.m_src_offset r.consumed ≤ t.m_src_size
  rw [hadd]
  omega

theorem underflow_inside (hE : E.ConsumesAtMostOffered) (fuel : Nat) :
    ∀ (s s1 : LZ4IStreamBuf E) (res : Res Int), s.InBounds →
      underflow fuel s = some (res, s1) →
      s1.InBounds ∧ s1.m_src_buffer.length = s.m_src_buffer.length ∧
      ∃ evs, s1.trace = s.trace ++ evs ∧ ∀ ev ∈ evs, DEvent.inside s.m_src_buffer.length ev := by
  induction fuel with
  | zero => intro s s1 res _ h; simp [underflow] at h
  | succ f ih =>
    intro s s1 res hs h
    obtain ⟨r1, r2, r3⟩ := refill_inBounds s hs
    have hpre : ∃ pre, s.refill.trace = s.trace ++ pre ∧
        ∀ ev ∈ pre, DEvent.inside s.m_src_buffer.length ev := by
      by_cases he : s.m_src_offset = s.m_src_size
      · rw [refill_of_eq s he]
        refine ⟨[DEvent.refill (s.m_source.sgetn s.m_src_buffer.length).1.length], rfl, ?_⟩
        intro ev hev
        simp only [List.mem_singleton] at hev
        subst hev
        exact (Source.sgetn_length s.m_source s.m_src_buffer.length).1
      · rw [refill_of_ne s he]
        exact ⟨[], by simp, by simp⟩
    obtain ⟨pre, p1, p2⟩ := hpre
    rw [underflow_succ] at h
    rw [← r2]
    rw [← r2] at p2
    generalize s.refill = t at r1 r2 r3 p1 p2 h
    by_cases hz : t.m_src_size = 0
    · rw [if_pos hz] at h
      simp only [Option.some.injEq, Prod.mk.injEq] at h
      rw [← h.2]
      exact ⟨r1, rfl, pre, p1, p2⟩
    · rw [if_neg hz] at h
      have hoff := offerInside_of_lt t r1 (r3 hz)
      have hcons := callEngine_consumed hE t hoff
      obtain ⟨o1, o2, _, o4⟩ := hoff
      generalize t.callEngine = r at hcons h
      obtain ⟨a1, a2⟩ := advance_inBounds t r r1 hcons
      have hev : DEvent.inside t.m_src_buffer.length (DEvent.decompress t.m_src_offset
          (sizeSub t.m_src_size t.m_src_offset) r.consumed r.out r.ret) := by
        rw [o2]
        exact ⟨o1, o4, hcons⟩
      have htr : (t.advance r).trace = s.trace ++ (pre ++ [DEvent.decompress t.m_src_offset
          (sizeSub t.m_src_size t.m_src_offset) r.consumed r.out r.ret]) := by
        show t.trace ++ _ = _
        rw [p1, List.append_assoc]
      have hall : ∀ ev ∈ pre ++ [DEvent.decompress t.m_src_offset
          (sizeSub t.m_src_size t.m_src_offset) r.consumed r.out r.ret],
          DEvent.inside t.m_src_buffer.length ev := by
        intro ev hmem
        rw [List.mem_append] at hmem
        rcases hmem with hmem | hmem
        · exact p2 ev hmem
        · simp only [List.mem_singleton] at hmem
          subst hmem
          exact hev
      by_cases herr : E.LZ4F_isError r.ret = true
      · rw [if_pos herr] at h
        simp only [Option.some.injEq, Prod.mk.injEq] at h
        rw [← h.2]
        exact ⟨a1, a2, _, htr, hall⟩
      · rw [if_neg herr] at h
        by_cases hout : r.out.length > 0
        · rw [if_pos hout] at h
          simp only [Option.some.injEq, Prod.mk.injEq] at h
          rw [← h.2]
          exact ⟨⟨a1.off, a1.size, a1.buf⟩, a2, _, htr, hall⟩
        · rw [if_neg hout] at h
          obtain ⟨i1, i2, evs, i3, i4⟩ := ih (t.advance r) s1 res a1 h
          refine ⟨i1, i2.trans a2, (pre ++ [DEvent.decompress t.m_src_offset
            (sizeSub t.m_src_size t.m_src_offset) r.consumed r.out r.ret]) ++ evs, ?_, ?_⟩
          · rw [i3, htr, List.append_assoc]
          · intro ev hmem
            rw [List.mem_append] at hmem
            rcases hmem with hmem | hmem
            · exact hall ev hmem
            · have := i4 ev hmem
              rw [a2] at this
              exact this

end LZ4IStreamBuf

namespace LZ4IStreamBuf

variable {E : Engine}

theorem readAll_inside (hE : E.ConsumesAtMostOffered) (fuel : Nat) :
    ∀ (s s1 : LZ4IStreamBuf E) (bs : List Byte) (r : Res Unit), s.InBounds →
      readAll fuel s = some (bs, r, s1) →
      s1.InBounds ∧ s1.m_src_buffer.length = s.m_src_buffer.length ∧
      ∃ evs, s1.trace = s.trace ++ evs ∧ ∀ ev ∈ evs, DEvent.inside s.m_src_buffer.length ev := by
  induction fuel with
  | zero => intro s s1 bs r _ h; simp [readAll] at h
  | succ f ih =>
    intro s s1 bs r hs h
    simp only [readAll] at h
    cases hu : underflow (f + 1) s with
    | none => simp [hu] at h
    | some p =>
      obtain ⟨res, s2⟩ := p
      obtain ⟨u1, u2, evs, u3, u4⟩ := underflow_inside hE (f + 1) s s2 res hs hu
      rw [hu] at h
      cases res with
      | throw e =>
        simp only [Option.some.injEq, Prod.mk.injEq] at h
        rw [← h.2.2]
        exact ⟨u1, u2, evs, u3, u4⟩
      | assertFailed =>
        simp only [Option.some.injEq, Prod.mk.injEq] at h
        rw [← h.2.2]
        exact ⟨u1, u2, evs, u3, u4⟩
      | ok ch =>
        simp only at h
        by_cases hch : ch = eof
        · simp only [hch, if_true, Option.some.injEq, Prod.mk.injEq] at h
          rw [← h.2.2]
          exact ⟨u1, u2, evs, u3, u4⟩
        · simp only [hch, if_false] at h
          cases hr : readAll f { s2 with gptr := s2.egptr } with
          | none => simp [hr] at h
          | some q =>
            obtain ⟨rest, r2, s3⟩ := q
            rw [hr] at h
            simp only [Option.some.injEq, Prod.mk.injEq] at h
            obtain ⟨i1, i2, evs2, i3, i4⟩ := ih { s2 with gptr := s2.egptr } s3 rest r2
              ⟨u1.off, u1.size, u1.buf⟩ hr
            rw [← h.2.2]
            refine ⟨i1, i2.trans u2, evs ++ evs2, ?_, ?_⟩
            · rw [i3]
              show s2.trace ++ evs2 = _
              rw [u3, List.append_assoc]
            · intro ev hmem
              rw [List.mem_append] at hmem
              rcases hmem with hmem | hmem
              · exact u4 ev hmem
              · have h5 := i4 ev hmem
                have h6 : ({ s2 with gptr := s2.egptr } : LZ4IStreamBuf E).m_src_buffer.length =
                    s.m_src_buffer.length := u2
                rw [h6] at h5
                exact h5

end LZ4IStreamBuf

namespace LZ4InputBuffer

variable {E : Engine}

theorem input_create_inBounds (E : Engine) (source : Source) (n m : Nat) (hn : n < SIZE_MOD)
    (s : LZ4InputBuffer E) (h : create E source n m = Res.ok s) : s.InBounds := by
  unfold create at h
  by_cases he : E.LZ4F_isError E.LZ4F_createDecompressionContext.1 = true
  · simp [he] at h
  · simp only [he, Bool.false_eq_true, if_false, Res.ok.injEq] at h
    rw [← h]
    exact ⟨Nat.le_refl _, Nat.zero_le _, by simpa using hn⟩

theorem input_refill_inBounds (s : LZ4InputBuffer E) (h : s.InBounds) :
    s.refill.InBounds ∧ s.refill.src_buf_.length = s.src_buf_.length ∧
    (s.refill.src_buf_size_ ≠ 0 → s.refill.offset_ < s.refill.src_buf_size_) := by
  by_cases he : s.offset_ = s.src_buf_size_
  · rw [input_refill_of_eq s he]
    obtain ⟨g1, _⟩ := Source.sgetn_length s.source_ s.src_buf_.length
    have hlen : (store (s.source_.sgetn s.src_buf_.length).1 s.src_buf_).length =
        s.src_buf_.length := length_store _ _ g1
    refine ⟨⟨Nat.zero_le _, ?_, ?_⟩, hlen, ?_⟩
    · show _ ≤ (store _ _).length
      rw [hlen]; exact g1
    · show (store _ _).length < _
      rw [hlen]; exact h.buf
    · intro h0
      exact Nat.pos_of_ne_zero h0
  · rw [input_refill_of_ne s he]
    have := h.off
    exact ⟨h, rfl, by omega⟩

theorem input_offerInside_of_lt (t : LZ4InputBuffer E) (h : t.InBounds)
    (hlt : t.offset_ < t.src_buf_size_) : t.OfferInside := by
  have h1 := h.size
  have h2 := h.buf
  have hsub : sizeSub t.src_buf_size_ t.offset_ = t.src_buf_size_ - t.offset_ :=
    sizeSub_eq _ _ (by omega) (by omega)
  refine ⟨by omega, hsub, ?_, by omega⟩
  rw [hsub]
  simp only [List.length_take, List.length_drop]
  omega

theorem input_callEngine_consumed (hE : E.ConsumesAtMostOffered) (t : LZ4InputBuffer E)
    (h : t.OfferInside) : t.callEngine.consumed ≤ t.src_buf_size_ - t.offset_ := by
  obtain ⟨_, _, h3, _⟩ := h
  unfold callEngine
  simp only
  rw [← h3]
  exact hE.1 _ _ _

theorem input_step_inBounds (t : LZ4InputBuffer E) (r : DResult E.DCtx) (h : t.InBounds)
    (hc : r.consumed ≤ t.src_buf_size_ - t.offset_) :
    (t.written r).InBounds ∧
    ({ t.written r with offset_ := sizeAdd t.offset_ r.consumed } : LZ4InputBuffer E).InBounds ∧
    (t.written r).src_buf_.length = t.src_buf_.length := by
  have h1 := h.off
  have h2 := h.size
  have h3 := h.buf
  have hadd : sizeAdd t.offset_ r.consumed = t.offset_ + r.consumed :=
    sizeAdd_eq _ _ (by omega)
  refine ⟨⟨h1, h2, h3⟩, ⟨?_, h2, h3⟩, rfl⟩
  show sizeAdd t.offset_ r.consumed ≤ t.src_buf_size_
  rw [hadd]
  omega

theorem input_underflow_inside (hE : E.ConsumesAtMostOffered) (fuel : Nat) :
    ∀ (s s1 : LZ4InputBuffer E) (res : Res Int), s.InBounds →
      underflow fuel s = some (res, s1) →
      s1.InBounds ∧ s1.src_buf_.length = s.src_buf_.length ∧
      ∃ evs, s1.trace = s.trace ++ evs ∧ ∀ ev ∈ evs, DEvent.inside s.src_buf_.length ev := by
  induction fuel with
  | zero => intro s s1 res _ h; simp [underflow] at h
  | succ f ih =>
    intro s s1 res hs h
    obtain ⟨r1, r2, r3⟩ := input_refill_inBounds s hs
    have hpre : ∃ pre, s.refill.trace = s.trace ++ pre ∧
        ∀ ev ∈ pre, DEvent.inside s.src_buf_.length ev := by
      by_cases he : s.offset_ = s.src_buf_size_
      · rw [input_refill_of_eq s he]
        refine ⟨[DEvent.refill (s.source_.sgetn s.src_buf_.length).1.length], rfl, ?_⟩
        intro ev hev
        simp only [List.mem_singleton] at hev
        subst hev
        exact (Source.sgetn_length s.source_ s.src_buf_.length).1
      · rw [input_refill_of_ne s he]
        exact ⟨[], by simp, by simp⟩
    obtain ⟨pre, p1, p2⟩ := hpre
    rw [input_underflow_succ] at h
    rw [← r2]
    rw [← r2] at p2
    generalize s.refill = t at r1 r2 r3 p1 p2 h
    by_cases hz : t.src_buf_size_ = 0
    · rw [if_pos hz] at h
      simp only [Option.some.injEq, Prod.mk.injEq] at h
      rw [← h.2]
      exact ⟨r1, rfl, pre, p1, p2⟩
    · rw [if_neg hz] at h
      have hoff := input_offerInside_of_lt t r1 (r3 hz)
      have hcons := input_callEngine_consumed hE t hoff
      obtain ⟨o1, o2, _, o4⟩ := hoff
      generalize t.callEngine = r at hcons h
      obtain ⟨a1, a2, a3⟩ := input_step_inBounds t r r1 hcons
      have hev : DEvent.inside t.src_buf_.length (DEvent.decompress t.offset_
          (sizeSub t.src_buf_size_ t.offset_) r.consumed r.out r.ret) := by
        rw [o2]
        exact ⟨o1, o4, hcons⟩
      have htr : (t.written r).trace = s.trace ++ (pre ++ [DEvent.decompress t.offset_
          (sizeSub t.src_buf_size_ t.offset_) r.consumed r.out r.ret]) := by
        show t.trace ++ _ = _
        rw [p1, List.append_assoc]
      have hall : ∀ ev ∈ pre ++ [DEvent.decompress t.offset_
          (sizeSub t.src_buf_size_ t.offset_) r.consumed r.out r.ret],
          DEvent.inside t.src_buf_.length ev := by
        intro ev hmem
        rw [List.mem_append] at hmem
        rcases hmem with hmem | hmem
        · exact p2 ev hmem
        · simp only [List.mem_singleton] at hmem
          subst hmem
          exact hev
      by_cases herr : E.LZ4F_isError r.ret = true
      · rw [if_pos herr] at h
        simp only [Option.some.injEq, Prod.mk.injEq] at h
        rw [← h.2]
        exact ⟨a1, a3, _, htr, hall⟩
      · rw [if_neg herr] at h
        by_cases hout : r.out.length = 0
        · rw [if_pos hout] at h
          obtain ⟨i1, i2, evs, i3, i4⟩ := ih
            { t.written r with offset_ := sizeAdd t.offset_ r.consumed } s1 res a2 h
          refine ⟨i1, i2.trans a3, (pre ++ [DEvent.decompress t.offset_
            (sizeSub t.src_buf_size_ t.offset_) r.consumed r.out r.ret]) ++ evs, ?_, ?_⟩
          · rw [i3]
            show (t.written r).trace ++ evs = _
            rw [htr, List.append_assoc]
          · intro ev hmem
            rw [List.mem_append] at hmem
            rcases hmem with hmem | hmem
            · exact hall ev hmem
            · have h5 := i4 ev hmem
              have h6 : ({ t.written r with offset_ := sizeAdd t.offset_ r.consumed } :
                  LZ4InputBuffer E).src_buf_.length = t.src_buf_.length := a3
              rw [h6] at h5
              exact h5
        · rw [if_neg hout] at h
          simp only [Option.some.injEq, Prod.mk.injEq] at h
          rw [← h.2]
          exact ⟨⟨a2.off, a2.size, a2.buf⟩, a3, _, htr, hall⟩

theorem input_readAll_inside (hE : E.ConsumesAtMostOffered) (fuel : Nat) :
    ∀ (s s1 : LZ4InputBuffer E) (bs : List Byte) (r : Res Unit), s.InBounds →
      readAll fuel s = some (bs, r, s1) →
      s1.InBounds ∧ s1.src_buf_.length = s.src_buf_.length ∧
      ∃ evs, s1.trace = s.trace ++ evs ∧ ∀ ev ∈ evs, DEvent.inside s.src_buf_.length ev := by
  induction fuel with
  | zero => intro s s1 bs r _ h; simp [readAll] at h
  | succ f ih =>
    intro s s1 bs r hs h
    simp only [readAll] at h
    cases hu : underflow (f + 1) s with
    | none => simp [hu] at h
    | some p =>
      obtain ⟨res, s2⟩ := p
      obtain ⟨u1, u2, evs, u3, u4⟩ := input_underflow_inside hE (f + 1) s s2 res hs hu
      rw [hu] at h
      cases res with
      | throw e =>
        simp only [Option.some.injEq, Prod.mk.injEq] at h
        rw [← h.2.2]
        exact ⟨u1, u2, evs, u3, u4⟩
      | assertFailed =>
        simp only [Option.some.injEq, Prod.mk.injEq] at h
        rw [← h.2.2]
        exact ⟨u1, u2, evs, u3, u4⟩
      | ok ch =>
        simp only at h
        by_cases hch : ch = eof
        · simp only [hch, if_true, Option.some.injEq, Prod.mk.injEq] at h
          rw [← h.2.2]
          exact ⟨u1, u2, evs, u3, u4⟩
        · simp only [hch, if_false] at h
          cases hr : readAll f { s2 with gptr := s2.egptr } with
          | none => simp [hr] at h
          | some q =>
            obtain ⟨rest, r2, s3⟩ := q
            rw [hr] at h
            simp only [Option.some.injEq, Prod.mk.injEq] at h
            obtain ⟨i1, i2, evs2, i3, i4⟩ := ih { s2 with gptr := s2.egptr } s3 rest r2
              ⟨u1.off, u1.size, u1.buf⟩ hr
            rw [← h.2.2]
            refine ⟨i1, i2.trans u2, evs ++ evs2, ?_, ?_⟩
            · rw [i3]
              show s2.trace ++ evs2 = _
              rw [u3, List.append_assoc]
            · intro ev hmem
              rw [List.mem_append] at hmem
              rcases hmem with hmem | hmem
              · exact u4 ev hmem
              · have h5 := i4 ev hmem
                have h6 : ({ s2 with gptr := s2.egptr } : LZ4InputBuffer E).src_buf_.length =
                    s.src_buf_.length := u2
                rw [h6] at h5
                exact h5

end LZ4InputBuffer

/-- With an engine that reports more consumed bytes than it was offered, the
first iteration of `underflow` leaves the input offset (3) beyond the input size
(2): the condition on the engine is needed. -/
theorem greedy_engine_moves_offset_past_size : greedyFirstIteration = some (3, 2) := by
  decide

/-- C11: for an engine that never reports more consumed bytes than it was
offered (the source of the model never returns more bytes than requested, first
part), both readers keep `offset <= size <= input-buffer capacity`:
it holds after construction; from any state where it holds, the refill at the
head of an iteration keeps it, an engine call is made only with
`size - offset > 0` bytes offered, the slice having exactly that many bytes and
ending inside the input buffer, and the state after the call satisfies it again
(for `LZ4IStreamBuf` also when the call reported an error, the offset being
advanced before the check); whenever `underflow`, or a whole sequence of
`underflow` calls reading to the end, returns, whatever the result, the final
state satisfies it, the input buffer has kept its extent, and every iteration
recorded is inside the buffer: a refill obtained no more than the capacity,
an engine call was offered at least one byte at the current offset, the offered
bytes ending inside the buffer, and consumed no more than offered. -/
theorem reader_offset_stays_inside_buffer (E : Engine) (s : LZ4IStreamBuf E)
    (t : LZ4InputBuffer E) (hE : E.ConsumesAtMostOffered) (hs : s.InBounds) (ht : t.InBounds) :
    (∀ (src : Source) (n : Nat), (src.sgetn n).1.length ≤ n) ∧
    (∀ source_ dict n s0, n < SIZE_MOD → LZ4IStreamBuf.create E source_ dict n = Res.ok s0 →
      s0.InBounds ∧ s0.m_src_offset = 0 ∧ s0.m_src_size = 0 ∧ s0.m_src_buffer.length = n) ∧
    (∀ source n m t0, n < SIZE_MOD → LZ4InputBuffer.create E source n m = Res.ok t0 →
      t0.InBounds ∧ t0.offset_ = 0 ∧ t0.src_buf_size_ = 0 ∧ t0.src_buf_.length = n) ∧
    (s.refill.InBounds ∧
      (s.refill.m_src_size ≠ 0 →
        s.refill.OfferInside ∧ (s.refill.advance s.refill.callEngine).InBounds)) ∧
    (∀ fuel res s1, LZ4IStreamBuf.underflow fuel s = some (res, s1) →
      s1.InBounds ∧ s1.m_src_buffer.length = s.m_src_buffer.length ∧
      ∃ evs, s1.trace = s.trace ++ evs ∧ Placed s.m_src_offset s.m_src_size evs ∧
        ∀ ev ∈ evs, DEvent.inside s.m_src_buffer.length ev) ∧
    (∀ fuel bs r s1, LZ4IStreamBuf.readAll fuel s = some (bs, r, s1) →
      s1.InBounds ∧ s1.m_src_buffer.length = s.m_src_buffer.length ∧
      ∃ evs, s1.trace = s.trace ++ evs ∧ ∀ ev ∈ evs, DEvent.inside s.m_src_buffer.length ev) ∧
    (t.refill.InBounds ∧
      (t.refill.src_buf_size_ ≠ 0 →
        t.refill.OfferInside ∧ (t.refill.written t.refill.callEngine).InBounds ∧
        ({ t.refill.written t.refill.callEngine with
            offset_ := sizeAdd t.refill.offset_ t.refill.callEngine.consumed } :
          LZ4InputBuffer E).InBounds)) ∧
    (∀ fuel res t1, LZ4InputBuffer.underflow fuel t = some (res, t1) →
      t1.InBounds ∧ t1.src_buf_.length = t.src_buf_.length ∧
      ∃ evs, t1.trace = t.trace ++ evs ∧ Placed t.offset_ t.src_buf_size_ evs ∧
        ∀ ev ∈ evs, DEvent.inside t.src_buf_.length ev) ∧
    (∀ fuel bs r t1, LZ4InputBuffer.readAll fuel t = some (bs, r, t1) →
      t1.InBounds ∧ t1.src_buf_.length = t.src_buf_.length ∧
      ∃ evs, t1.trace = t.trace ++ evs ∧ ∀ ev ∈ evs, DEvent.inside t.src_buf_.length ev) := by
  refine ⟨fun src n => (Source.sgetn_length src n).1, ?_, ?_, ?_, ?_, ?_, ?_, ?_, ?_⟩
  · intro source_ dict n s0 hn h
    refine ⟨LZ4IStreamBuf.create_inBounds E source_ dict n hn s0 h, ?_⟩
    unfold LZ4IStreamBuf.create at h
    by_cases he : E.LZ4F_isError E.LZ4F_createDecompressionContext.1 = true
    · simp [he] at h
    · simp only [he, Bool.false_eq_true, if_false, Res.ok.injEq] at h
      rw [← h]
      exact ⟨rfl, rfl, by simp⟩
  · intro source n m t0 hn h
    refine ⟨LZ4InputBuffer.input_create_inBounds E source n m hn t0 h, ?_⟩
    unfold LZ4InputBuffer.create at h
    by_cases he : E.LZ4F_isError E.LZ4F_createDecompressionContext.1 = true
    · simp [he] at h
    · simp only [he, Bool.false_eq_true, if_false, Res.ok.injEq] at h
      rw [← h]
      exact ⟨rfl, rfl, by simp⟩
  · obtain ⟨r1, _, r3⟩ := LZ4IStreamBuf.refill_inBounds s hs
    refine ⟨r1, fun hz => ?_⟩
    have hoff := LZ4IStreamBuf.offerInside_of_lt s.refill r1 (r3 hz)
    exact ⟨hoff, (LZ4IStreamBuf.advance_inBounds s.refill s.refill.callEngine r1
      (LZ4IStreamBuf.callEngine_consumed hE s.refill hoff)).1⟩
  · intro fuel res s1 h
    obtain ⟨u1, u2, evs, u3, u4⟩ := LZ4IStreamBuf.underflow_inside hE fuel s s1 res hs h
    obtain ⟨evs1, f1, f2⟩ := LZ4IStreamBuf.underflow_placed fuel s s1 res h
    have heq : evs1 = evs := List.append_cancel_left (f1.symm.trans u3)
    rw [heq] at f2
    exact ⟨u1, u2, evs, u3, f2, u4⟩
  · intro fuel bs r s1 h
    exact LZ4IStreamBuf.readAll_inside hE fuel s s1 bs r hs h
  · obtain ⟨r1, _, r3⟩ := LZ4InputBuffer.input_refill_inBounds t ht
    refine ⟨r1, fun hz => ?_⟩
    have hoff := LZ4InputBuffer.input_offerInside_of_lt t.refill r1 (r3 hz)
    obtain ⟨a1, a2, _⟩ := LZ4InputBuffer.input_step_inBounds t.refill t.refill.callEngine r1
      (LZ4InputBuffer.input_callEngine_consumed hE t.refill hoff)
    exact ⟨hoff, a1, a2⟩
  · intro fuel res t1 h
    obtain ⟨u1, u2, evs, u3, u4⟩ := LZ4InputBuffer.input_underflow_inside hE fuel t t1 res ht h
    obtain ⟨evs1, f1, f2⟩ := LZ4InputBuffer.input_underflow_placed fuel t t1 res h
    have heq : evs1 = evs := List.append_cancel_left (f1.symm.trans u3)
    rw [heq] at f2
    exact ⟨u1, u2, evs, u3, f2, u4⟩
  · intro fuel bs r t1 h
    exact LZ4InputBuffer.input_readAll_inside hE fuel t t1 bs r ht h

set_option maxRecDepth 100000 in
/-- Witness of C11: the two sample readers on the small codec (4-byte buffers,
source `76 1 2 255 0` in reads of 2 bytes) are read to the end; the reads
return, and the final states and all recorded iterations are inside the 4-byte
input buffer. -/
theorem reader_offset_stays_inside_buffer_witness :
    escEngine.ConsumesAtMostOffered ∧ LZ4IStreamBuf.sample.InBounds ∧
    LZ4InputBuffer.sample.InBounds ∧
    (∃ bs r s1, LZ4IStreamBuf.readAll 30 LZ4IStreamBuf.sample = some (bs, r, s1) ∧
      s1.InBounds ∧ s1.m_src_buffer.length = 4 ∧
      ∃ evs, s1.trace = evs ∧ ∀ ev ∈ evs, DEvent.inside 4 ev) ∧
    (∃ bs r t1, LZ4InputBuffer.readAll 30 LZ4InputBuffer.sample = some (bs, r, t1) ∧
      t1.InBounds ∧ t1.src_buf_.length = 4 ∧
      ∃ evs, t1.trace = evs ∧ ∀ ev ∈ evs, DEvent.inside 4 ev) := by
  have hs : LZ4IStreamBuf.sample.InBounds := ⟨by decide, by decide, by decide⟩
  have ht : LZ4InputBuffer.sample.InBounds := ⟨by decide, by decide, by decide⟩
  obtain ⟨_, _, _, _, _, T6, _, _, T9⟩ := reader_offset_stays_inside_buffer escEngine
    LZ4IStreamBuf.sample LZ4InputBuffer.sample escEngine_consumes hs ht
  have h1 : (LZ4IStreamBuf.readAll 30 LZ4IStreamBuf.sample).isSome = true := by decide
  have h2 : (LZ4InputBuffer.readAll 30 LZ4InputBuffer.sample).isSome = true := by decide
  obtain ⟨⟨bs, r, s1⟩, e1⟩ := Option.isSome_iff_exists.mp h1
  obtain ⟨⟨cs, q, t1⟩, e2⟩ := Option.isSome_iff_exists.mp h2
  obtain ⟨a1, a2, evs, a3, a4⟩ := T6 30 bs r s1 e1
  obtain ⟨b1, b2, fvs, b3, b4⟩ := T9 30 cs q t1 e2
  exact ⟨escEngine_consumes, hs, ht,
    ⟨bs, r, s1, e1, a1, a2, evs, by simpa [LZ4IStreamBuf.sample] using a3, a4⟩,
    ⟨cs, q, t1, e2, b1, b2, fvs, by simpa [LZ4InputBuffer.sample] using b3, b4⟩⟩

end Cstreams
